import Mathlib

/-!
# BrewPi serial link (`PiLink.cpp`): a shallow embedding

The device side of the serial link is modelled by explicit state passing.

* The byte stream that the device reads is a `List Char`: the bytes that are
  available to `piStream.read()` during the call, in arrival order.
  `piStream.available() > 0` is "the list is not empty".
* Everything the device does to the outside world is appended to a trace of
  `Event`s: bytes written to the stream, and calls into the collaborators
  that are not part of `PiLink.cpp` (temperature control, display, sensor
  filters, zone manager, simulator).  `wire` turns a trace into the bytes
  that went out on the stream.
* Functions and constants of files that are not part of the sources
  (`TemperatureFormats`, `jsonKeys.h`, `version.h`, `TempControl`, `Display`,
  `Ticks`, the C library) are fields of `Ext`.
* The two build switches `MULTICHAMBER` and `BREWPI_SIMULATE` are the fields
  of `Build`.
-/

namespace BrewPi

/-! ## Machine integers -/

/-- Value of a 16 bit two's complement pattern (`int`, `fixed7_9` on AVR). -/
def wrap16 (x : Int) : Int := (x + 32768) % 65536 - 32768

/-- Value of an `unsigned int` / `uint16_t`. -/
def u16 (n : Nat) : Nat := n % 65536

/-- Value of an `uint8_t`. -/
def u8 (n : Nat) : Nat := n % 256

/-- Value of an `unsigned long`. -/
def u32 (n : Nat) : Nat := n % 4294967296

/-- The value of a byte read into a (signed) `char`. -/
def signedChar (c : Char) : Int :=
  if c.toNat % 256 < 128 then ((c.toNat % 256 : Nat) : Int) else ((c.toNat % 256 : Nat) : Int) - 256

/-- Decimal digits of an unsigned number, as `%u` and `%lu` print them. -/
def decimal (n : Nat) : List Char := Nat.toDigits 10 n

/-- The C string held in a buffer: the bytes before the first NUL. -/
def cstr (s : List Char) : List Char := s.takeWhile (fun c => c != '\x00')

/-! ## Build switches -/

/-- The preprocessor switches of `PiLink.cpp`. `debug` says whether the
`DEBUG_MSG` macro (declared outside the sources) expands to a `debugMessage`
call. -/
structure Build where
  multichamber : Bool
  simulate : Bool
  debug : Bool
deriving DecidableEq, Repr

/-! ## Output trace -/

/-- One piece of a formatted print: text of the format string itself, or the
rendering of one run-time argument (`%s`, `%c`, `%u`, `%lu`, `%S`). -/
inductive Piece where
  | lit (s : List Char)
  | arg (s : List Char)
deriving DecidableEq, Repr

/-- The characters of a piece. -/
def Piece.chars : Piece → List Char
  | .lit s => s
  | .arg s => s

/-- The sensors whose filters `processJsonPair` updates. -/
inductive Sensor where
  | fridge
  | beer
deriving DecidableEq, Repr

/-- The three filters of a sensor. -/
inductive FilterKind where
  | fast
  | slow
  | slope
deriving DecidableEq, Repr

/-- What the device does to the outside world.  The first four constructors
write bytes to the stream, the others are calls into collaborators. -/
inductive Event where
  /-- `printResponse(type)`: the type character, in multi-zone builds the
  zone character, and a colon. -/
  | response (type : Char) (zone : Option Char)
  /-- `piStream.print(char)`. -/
  | chr (c : Char)
  /-- `piStream.print(const char*)`. -/
  | str (s : List Char)
  /-- A print that goes through `vsnprintf` into a 128 byte buffer
  (`print_P`, `print`, `debugMessage`). -/
  | fmt (ps : List Piece)
  /-- `wait.millis(ms)`. -/
  | wait (ms : Nat)
  | storeSettings
  | storeConstants
  | loadDefaultConstants
  | loadDefaultSettings
  | setMode (c : Char)
  | printStationaryText
  | setBufferOnly (b : Bool)
  | printAll
  | setFilter (s : Sensor) (k : FilterKind) (b : Nat)
  | switchChamber (id : Nat)
  | setRunFactor (f : Int)
deriving DecidableEq, Repr

/-- Bytes that a formatted print puts on the stream: the formatted text is
cut to the 127 characters that fit the buffer, and printed as a C string. -/
def fmtBytes (ps : List Piece) : List Char :=
  cstr (((ps.map Piece.chars).flatten).take 127)

/-- Bytes that an event puts on the stream. -/
def Event.bytes : Event → List Char
  | .response t z => t :: (z.toList ++ [':'])
  | .chr c => [c]
  | .str s => cstr s
  | .fmt ps => fmtBytes ps
  | _ => []

/-- The bytes that a trace put on the stream. -/
def wire (tr : List Event) : List Char := (tr.map Event.bytes).flatten

/-- A print call that starts with the given literal text. -/
def Event.startsWith (l : List Char) : Event → Bool
  | .fmt (Piece.lit s :: _) => s == l
  | _ => false

/-- The key literal of a field of the temperature report: `"name":`. -/
def keyLit (name : String) : List Char := '"' :: (name.toList ++ ['"', ':'])

/-- The trace contains a print call that starts with the key `name`. -/
def writesKey (name : String) (tr : List Event) : Bool :=
  tr.any (Event.startsWith (keyLit name))

/-! ## Control state -/

/-- A `double`, as an uninterpreted bit pattern.  The floating point
operations that the link uses are fields of `Ext`. -/
structure Dbl where
  bits : Nat
deriving DecidableEq, Repr

/-- `ControlSettings` as far as `PiLink.cpp` reads and writes it. -/
structure ControlSettings where
  mode : Char
  beerSetting : Int
  fridgeSetting : Int
  heatEstimator : Int
  coolEstimator : Int
deriving DecidableEq, Repr

/-- `ControlConstants` as far as `PiLink.cpp` reads and writes it. -/
structure ControlConstants where
  tempFormat : Char
  tempSettingMin : Int
  tempSettingMax : Int
  Kp : Int
  Ki : Int
  Kd : Int
  iMaxError : Int
  idleRangeHigh : Int
  idleRangeLow : Int
  heatingTargetUpper : Int
  heatingTargetLower : Int
  coolingTargetUpper : Int
  coolingTargetLower : Int
  maxHeatTimeForEstimate : Nat
  maxCoolTimeForEstimate : Nat
  fridgeFastFilter : Nat
  fridgeSlowFilter : Nat
  fridgeSlopeFilter : Nat
  beerFastFilter : Nat
  beerSlowFilter : Nat
  beerSlopeFilter : Nat
deriving DecidableEq, Repr

/-- `ControlVariables` as far as `sendControlVariables` reads it. -/
structure ControlVariables where
  beerDiff : Int
  diffIntegral : Int
  beerSlope : Int
  p : Int
  i : Int
  d : Int
  estimatedPeak : Int
  negPeakEstimate : Int
  posPeakEstimate : Int
  negPeak : Int
  posPeak : Int
deriving DecidableEq, Repr

/-- The `tempControl` object: settings, constants, variables, and the
readings behind its sensor and state getters. -/
structure TempControl where
  cs : ControlSettings
  cc : ControlConstants
  cv : ControlVariables
  beerTemp : Int
  fridgeTemp : Int
  state : Nat
deriving DecidableEq, Repr

/-- The names of `jsonKeys.h` that `PiLink.cpp` uses. -/
inductive JsonKey where
  | mode | beerSetting | fridgeSetting | heatEstimator | coolEstimator
  | tempFormat | tempSettingMin | tempSettingMax | Kp | Ki | Kd | iMaxError
  | idleRangeHigh | idleRangeLow | heatingTargetUpper | heatingTargetLower
  | coolingTargetUpper | coolingTargetLower | maxHeatTimeForEstimate
  | maxCoolTimeForEstimate | fridgeFastFilter | fridgeSlowFilter
  | fridgeSlopeFilter | beerFastFilter | beerSlowFilter | beerSlopeFilter
  | beerDiff | diffIntegral | beerSlope | p | i | d | estimatedPeak
  | negPeakEstimate | posPeakEstimate | negPeak | posPeak
deriving DecidableEq, Repr

/-- The simulator object as far as `PiLink.cpp` reads and writes it (the
derived heat capacities, which only `step` reads, are left out). -/
structure Simulator where
  time : Nat
  fridgeVolume : Int
  beerDensity : Dbl
  beerTemp : Dbl
  beerVolume : Dbl
  minRoomTemp : Dbl
  maxRoomTemp : Dbl
  fridgeTemp : Dbl
  heatPower : Nat
  coolPower : Nat
  Ke : Dbl
  Kb : Dbl
  sensorNoise : Dbl
  doorOpen : Bool
  /-- The value of the door sensor (`tempControl.door`). -/
  doorSensor : Bool
  /-- Whether the external beer sensor is connected. -/
  beerConnected : Bool
  /-- Whether the external fridge sensor is connected. -/
  fridgeConnected : Bool
deriving DecidableEq, Repr

/-- The file-level variables that remember the values last written by
`printTemperaturesJSON`.  An annotation is remembered as the address of its
text (`none` is the null pointer). -/
structure Tracker where
  beerTemp : Int
  beerSet : Int
  fridgeTemp : Int
  fridgeSet : Int
  roomTemp : Dbl
  state : Nat
  beerAnn : Option Nat
  fridgeAnn : Option Nat
deriving DecidableEq, Repr

/-- The tracker at program start: the initialisers of the file-level
variables (`-1` for the temperatures, `0xFF` for the state, null pointers).
`minusOne` is the `double` -1. -/
def Tracker.init (minusOne : Dbl) : Tracker :=
  { beerTemp := -1, beerSet := -1, fridgeTemp := -1, fridgeSet := -1,
    roomTemp := minusOne, state := 0xFF, beerAnn := none, fridgeAnn := none }

/-- An annotation argument: a non-null `char*`, its address and its text. -/
structure Ann where
  addr : Nat
  text : List Char
deriving DecidableEq, Repr

/-- Functions and constants that `PiLink.cpp` uses and that are defined in
files outside the sources. -/
structure Ext where
  /-- `tempToString(buf, value, numDecimals, maxLength)`. -/
  tempToString : Int → Nat → Nat → List Char
  /-- `fixedPointToString(buf, value, numDecimals, maxLength)`. -/
  fixedPointToString : Int → Nat → Nat → List Char
  /-- `tempDiffToString(buf, value, numDecimals, maxLength)`. -/
  tempDiffToString : Int → Nat → Nat → List Char
  stringToTemp : List Char → Int
  stringToFixedPoint : List Char → Int
  stringToTempDiff : List Char → Int
  /-- `strtoul(s, NULL, 10)`. -/
  strtoul : List Char → Nat
  atoi : List Char → Int
  atof : List Char → Dbl
  /-- `VERSION_STRING` of `version.h`. -/
  versionString : List Char
  /-- The text of each key of `jsonKeys.h`. -/
  jsonKey : JsonKey → List Char
  getBeerTemp : TempControl → Int
  getBeerSetting : TempControl → Int
  getFridgeTemp : TempControl → Int
  getFridgeSetting : TempControl → Int
  getState : TempControl → Nat
  setMode : Char → TempControl → TempControl
  loadDefaultConstants : TempControl → TempControl
  loadDefaultSettings : TempControl → TempControl
  /-- The display buffer after `display.printStationaryText()`. -/
  printStationaryText : TempControl → List (List Char) → List (List Char)
  /-- The display buffer after `display.printAll()`. -/
  printAll : TempControl → List (List Char) → List (List Char)
  /-- The value of `ticks.millis()` after `wait.millis(ms)`. -/
  afterWait : Nat → Nat → Nat
  /-- The comparison `a != b` of two `double`s. -/
  dne : Dbl → Dbl → Bool
  /-- The conversion `long l = val * 10000` of `printDouble`. -/
  scale10000 : Dbl → Int
  /-- Conversion of a `double` to `int`. -/
  toInt : Dbl → Int
  /-- Conversion of a `double` to `unsigned int`. -/
  toUInt : Dbl → Nat
  /-- Conversion of an `int` to `double`. -/
  ofInt : Int → Dbl
  /-- The sinusoid branch of `Simulator::roomTemp`. -/
  roomSine : Nat → Dbl → Dbl → Dbl
  /-- Address of the text buffer of `printBeerAnnotation`. -/
  beerAnnBuf : Nat
  /-- Address of the text buffer of `printFridgeAnnotation`. -/
  fridgeAnnBuf : Nat

/-- The state of the device, apart from the bytes waiting on the stream. -/
structure Sys where
  /-- Everything done so far, oldest first. -/
  trace : List Event
  /-- `PiLink::firstPair`. -/
  firstPair : Bool
  tracker : Tracker
  tc : TempControl
  /-- `ticks.millis()`. -/
  millis : Nat
  /-- The text lines of the display buffer. -/
  display : List (List Char)
  /-- `chamberManager.currentChamber()`. -/
  chamber : Nat
  /-- `chamberManager.chamberCount()`. -/
  chamberCount : Nat
  sim : Simulator
  printTempInterval : Nat
deriving DecidableEq, Repr

/-- Append one event to the trace. -/
def Sys.emit (s : Sys) (e : Event) : Sys := { s with trace := s.trace ++ [e] }

/-! ## Printing primitives -/

/-- `PiLink::print_P` and `PiLink::print(char *fmt, ...)`. -/
def print_P (ps : List Piece) (s : Sys) : Sys := s.emit (.fmt ps)

/-- `PiLink::printResponse`. -/
def printResponse (b : Build) (type : Char) (s : Sys) : Sys :=
  let zone := if b.multichamber then some (Char.ofNat ((s.chamber + 49) % 256)) else none
  { s.emit (.response type zone) with firstPair := true }

/-- The overloads `changed(a, b)`: store `b` in `a`, tell whether it differs
from what was stored. -/
def changed {α : Type} [DecidableEq α] (a b : α) : Bool × α := (decide (b ≠ a), b)

/-- `changed(double&, double)`. -/
def changedDbl (E : Ext) (a b : Dbl) : Bool × Dbl := (E.dne b a, b)

/-- `Simulator::roomTemp`. -/
def Simulator.roomTemp (E : Ext) (sim : Simulator) : Dbl :=
  if E.dne sim.minRoomTemp sim.maxRoomTemp then
    E.roomSine (sim.time % (60 * 60 * 24)) sim.minRoomTemp sim.maxRoomTemp
  else sim.minRoomTemp

/-- `ltoa(l, buf, 10)`. -/
def ltoa (l : Int) : List Char :=
  if l < 0 then '-' :: decimal l.natAbs else decimal l.natAbs

/-- `PiLink::printDouble`, from the scaled and truncated value `l` on. -/
def printDoubleScaled (l : Int) (s : Sys) : Sys :=
  let s := s.emit (.fmt [.arg (ltoa (Int.tdiv l 10000))])
  let l := Int.tmod l 10000
  if l ≠ 0 then
    let s := s.emit (.chr '.')
    s.emit (.fmt [.arg (ltoa l)])
  else s

/-- `PiLink::printDouble`. -/
def printDouble (E : Ext) (val : Dbl) (s : Sys) : Sys :=
  printDoubleScaled (E.scale10000 val) s

/-- The two branches that print an annotation value. -/
def printAnnValue (a : Option Ann) (s : Sys) : Sys :=
  match a with
  | none => print_P [.lit "null,".toList] s
  | some x => print_P [.lit "\"".toList, .arg (cstr x.text), .lit "\",".toList] s

/-- Line 247: `if (changed(beerTemp, tempControl.getBeerTemp())) print_P(...)`. -/
def reportBeerTemp (E : Ext) (s : Sys) : Sys :=
  let c := changed s.tracker.beerTemp (E.getBeerTemp s.tc)
  let s := { s with tracker := { s.tracker with beerTemp := c.2 } }
  if c.1 then
    print_P [.lit (keyLit "bt"), .arg (cstr (E.tempToString (E.getBeerTemp s.tc) 2 9)), .lit [',']] s
  else s

/-- Line 249: `if (changed(beerSet, tempControl.getBeerSetting())) print_P(...)`. -/
def reportBeerSet (E : Ext) (s : Sys) : Sys :=
  let c := changed s.tracker.beerSet (E.getBeerSetting s.tc)
  let s := { s with tracker := { s.tracker with beerSet := c.2 } }
  if c.1 then
    print_P [.lit (keyLit "bs"), .arg (cstr (E.tempToString (E.getBeerSetting s.tc) 2 9)), .lit [',']] s
  else s

/-- Lines 251 to 259: the beer annotation. -/
def reportBeerAnn (beerAnno : Option Ann) (s : Sys) : Sys :=
  let c := changed s.tracker.beerAnn (beerAnno.map Ann.addr)
  let s := { s with tracker := { s.tracker with beerAnn := c.2 } }
  if c.1 then printAnnValue beerAnno (print_P [.lit (keyLit "ba")] s) else s

/-- Line 260: `if (changed(fridgeTemp, tempControl.getFridgeTemp())) print_P(...)`. -/
def reportFridgeTemp (E : Ext) (s : Sys) : Sys :=
  let c := changed s.tracker.fridgeTemp (E.getFridgeTemp s.tc)
  let s := { s with tracker := { s.tracker with fridgeTemp := c.2 } }
  if c.1 then
    print_P [.lit (keyLit "ft"), .arg (cstr (E.tempToString (E.getFridgeTemp s.tc) 2 9)), .lit [',']] s
  else s

/-- Line 262: `if (changed(fridgeSet, tempControl.getFridgeSetting())) print_P(...)`. -/
def reportFridgeSet (E : Ext) (s : Sys) : Sys :=
  let c := changed s.tracker.fridgeSet (E.getFridgeSetting s.tc)
  let s := { s with tracker := { s.tracker with fridgeSet := c.2 } }
  if c.1 then
    print_P [.lit (keyLit "fs"), .arg (cstr (E.tempToString (E.getFridgeSetting s.tc) 2 9)), .lit [',']] s
  else s

/-- Lines 264 to 272: the fridge annotation. -/
def reportFridgeAnn (fridgeAnno : Option Ann) (s : Sys) : Sys :=
  let c := changed s.tracker.fridgeAnn (fridgeAnno.map Ann.addr)
  let s := { s with tracker := { s.tracker with fridgeAnn := c.2 } }
  if c.1 then printAnnValue fridgeAnno (print_P [.lit (keyLit "fa")] s) else s

/-- Lines 274 to 282: the room temperature, in simulation builds only. -/
def reportRoomTemp (E : Ext) (b : Build) (s : Sys) : Sys :=
  if b.simulate then
    let c := changedDbl E s.tracker.roomTemp (s.sim.roomTemp E)
    let s := { s with tracker := { s.tracker with roomTemp := c.2 } }
    if c.1 then
      let s := print_P [.lit ['"', 'r', 't', '"']] s
      let s := s.emit (.chr ':')
      let s := printDouble E s.tracker.roomTemp s
      s.emit (.chr ',')
    else s
  else s

/-- Line 283: `if (changed(state, tempControl.getState())) print_P(...)`. -/
def reportState (E : Ext) (s : Sys) : Sys :=
  let c := changed s.tracker.state (u8 (E.getState s.tc))
  let s := { s with tracker := { s.tracker with state := c.2 } }
  if c.1 then
    print_P [.lit (keyLit "s"), .arg (decimal (u8 (E.getState s.tc))), .lit [',']] s
  else s

/-- Line 286: the time field, which also closes the object. -/
def reportTime (s : Sys) : Sys :=
  print_P [.lit (keyLit "t"), .arg (decimal (u32 s.millis / 1000)), .lit ['}', '\n']] s

/-- `PiLink::printTemperaturesJSON`. -/
def printTemperaturesJSON (E : Ext) (b : Build)
    (beerAnno fridgeAnno : Option Ann) (s : Sys) : Sys :=
  let s := printResponse b 'T' s
  let s := s.emit (.chr '{')
  let s := { s with firstPair := false }
  let s := reportBeerTemp E s
  let s := reportBeerSet E s
  let s := reportBeerAnn beerAnno s
  let s := reportFridgeTemp E s
  let s := reportFridgeSet E s
  let s := reportFridgeAnn fridgeAnno s
  let s := reportRoomTemp E b s
  let s := reportState E s
  reportTime s

/-- `PiLink::printTemperatures`. -/
def printTemperatures (E : Ext) (b : Build) (s : Sys) : Sys :=
  printTemperaturesJSON E b none none s
/-- `PiLink::printBeerAnnotation`: the message is formatted into a 128 byte
buffer, whose address is passed on as the beer annotation. -/
def printBeerAnnotation (E : Ext) (b : Build) (ps : List Piece) (s : Sys) : Sys :=
  printTemperaturesJSON E b (some ⟨E.beerAnnBuf, fmtBytes ps⟩) none s

/-- `PiLink::printFridgeAnnotation`. -/
def printFridgeAnnotation (E : Ext) (b : Build) (ps : List Piece) (s : Sys) : Sys :=
  printTemperaturesJSON E b none (some ⟨E.fridgeAnnBuf, fmtBytes ps⟩) s

/-- `PiLink::debugMessage`. -/
def debugMessage (b : Build) (ps : List Piece) (s : Sys) : Sys :=
  let s := printResponse b 'D' s
  let s := s.emit (.fmt ps)
  s.emit (.chr '\n')

/-- `PiLink::sendJsonClose`. -/
def sendJsonClose (s : Sys) : Sys :=
  let s := s.emit (.chr '}')
  s.emit (.chr '\n')

/-- `PiLink::printJsonSeparator`. -/
def printJsonSeparator (s : Sys) : Sys :=
  let s := s.emit (.chr (if s.firstPair then '{' else ','))
  { s with firstPair := false }

/-- `PiLink::printJsonName`. -/
def printJsonName (name : List Char) (s : Sys) : Sys :=
  let s := printJsonSeparator s
  let s := s.emit (.chr '"')
  let s := print_P [.lit name] s
  let s := s.emit (.chr '"')
  s.emit (.chr ':')

/-- `PiLink::sendJsonPair(const char*, const char*)`. -/
def sendJsonPairStr (name val : List Char) (s : Sys) : Sys :=
  let s := printJsonName name s
  s.emit (.str val)

/-- `PiLink::sendJsonPair(const char*, char)`. -/
def sendJsonPairChar (name : List Char) (val : Char) (s : Sys) : Sys :=
  let s := printJsonName name s
  let s := s.emit (.chr '"')
  let s := s.emit (.chr val)
  s.emit (.chr '"')

/-- `PiLink::sendJsonPair(const char*, uint16_t)`. -/
def sendJsonPairU16 (name : List Char) (val : Nat) (s : Sys) : Sys :=
  let s := printJsonName name s
  print_P [.lit ['"'], .arg (decimal (u16 val)), .lit ['"']] s

/-- `PiLink::sendJsonPair(const char*, uint8_t)`. -/
def sendJsonPairU8 (name : List Char) (val : Nat) (s : Sys) : Sys :=
  sendJsonPairU16 name (u8 val) s

/-- `PiLink::sendJsonPair(const char*, double)`. -/
def sendJsonPairDouble (E : Ext) (name : List Char) (val : Dbl) (s : Sys) : Sys :=
  let s := printJsonName name s
  printDouble E val s

/-- `PiLink::sendControlSettings`. -/
def sendControlSettings (E : Ext) (b : Build) (s : Sys) : Sys :=
  let s := printResponse b 'S' s
  let cs := s.tc.cs
  let s := sendJsonPairChar (E.jsonKey .mode) cs.mode s
  let s := sendJsonPairStr (E.jsonKey .beerSetting) (E.tempToString cs.beerSetting 2 12) s
  let s := sendJsonPairStr (E.jsonKey .fridgeSetting) (E.tempToString cs.fridgeSetting 2 12) s
  let s := sendJsonPairStr (E.jsonKey .heatEstimator) (E.fixedPointToString cs.heatEstimator 3 12) s
  let s := sendJsonPairStr (E.jsonKey .coolEstimator) (E.fixedPointToString cs.coolEstimator 3 12) s
  sendJsonClose s

/-- `PiLink::sendControlConstants`. -/
def sendControlConstants (E : Ext) (b : Build) (s : Sys) : Sys :=
  let s := printResponse b 'C' s
  let cc := s.tc.cc
  let s := sendJsonPairChar (E.jsonKey .tempFormat) cc.tempFormat s
  let s := sendJsonPairStr (E.jsonKey .tempSettingMin) (E.tempToString cc.tempSettingMin 1 12) s
  let s := sendJsonPairStr (E.jsonKey .tempSettingMax) (E.tempToString cc.tempSettingMax 1 12) s
  let s := sendJsonPairStr (E.jsonKey .Kp) (E.fixedPointToString cc.Kp 3 12) s
  let s := sendJsonPairStr (E.jsonKey .Ki) (E.fixedPointToString cc.Ki 3 12) s
  let s := sendJsonPairStr (E.jsonKey .Kd) (E.fixedPointToString cc.Kd 3 12) s
  let s := sendJsonPairStr (E.jsonKey .iMaxError) (E.tempDiffToString cc.iMaxError 3 12) s
  let s := sendJsonPairStr (E.jsonKey .idleRangeHigh) (E.tempDiffToString cc.idleRangeHigh 3 12) s
  let s := sendJsonPairStr (E.jsonKey .idleRangeLow) (E.tempDiffToString cc.idleRangeLow 3 12) s
  let s := sendJsonPairStr (E.jsonKey .heatingTargetUpper)
    (E.tempDiffToString cc.heatingTargetUpper 3 12) s
  let s := sendJsonPairStr (E.jsonKey .heatingTargetLower)
    (E.tempDiffToString cc.heatingTargetLower 3 12) s
  let s := sendJsonPairStr (E.jsonKey .coolingTargetUpper)
    (E.tempDiffToString cc.coolingTargetUpper 3 12) s
  let s := sendJsonPairStr (E.jsonKey .coolingTargetLower)
    (E.tempDiffToString cc.coolingTargetLower 3 12) s
  let s := sendJsonPairU16 (E.jsonKey .maxHeatTimeForEstimate) cc.maxHeatTimeForEstimate s
  let s := sendJsonPairU16 (E.jsonKey .maxCoolTimeForEstimate) cc.maxCoolTimeForEstimate s
  let s := sendJsonPairU8 (E.jsonKey .fridgeFastFilter) cc.fridgeFastFilter s
  let s := sendJsonPairU8 (E.jsonKey .fridgeSlowFilter) cc.fridgeSlowFilter s
  let s := sendJsonPairU8 (E.jsonKey .fridgeSlopeFilter) cc.fridgeSlopeFilter s
  let s := sendJsonPairU8 (E.jsonKey .beerFastFilter) cc.beerFastFilter s
  let s := sendJsonPairU8 (E.jsonKey .beerSlowFilter) cc.beerSlowFilter s
  let s := sendJsonPairU8 (E.jsonKey .beerSlopeFilter) cc.beerSlopeFilter s
  sendJsonClose s

/-- `PiLink::sendControlVariables`. -/
def sendControlVariables (E : Ext) (b : Build) (s : Sys) : Sys :=
  let s := printResponse b 'V' s
  let cv := s.tc.cv
  let s := sendJsonPairStr (E.jsonKey .beerDiff) (E.tempDiffToString cv.beerDiff 3 12) s
  let s := sendJsonPairStr (E.jsonKey .diffIntegral) (E.tempDiffToString cv.diffIntegral 3 12) s
  let s := sendJsonPairStr (E.jsonKey .beerSlope) (E.tempDiffToString cv.beerSlope 3 12) s
  let s := sendJsonPairStr (E.jsonKey .p) (E.fixedPointToString cv.p 3 12) s
  let s := sendJsonPairStr (E.jsonKey .i) (E.fixedPointToString cv.i 3 12) s
  let s := sendJsonPairStr (E.jsonKey .d) (E.fixedPointToString cv.d 3 12) s
  let s := sendJsonPairStr (E.jsonKey .estimatedPeak) (E.tempToString cv.estimatedPeak 3 12) s
  let s := sendJsonPairStr (E.jsonKey .negPeakEstimate) (E.tempToString cv.negPeakEstimate 3 12) s
  let s := sendJsonPairStr (E.jsonKey .posPeakEstimate) (E.tempToString cv.posPeakEstimate 3 12) s
  let s := sendJsonPairStr (E.jsonKey .negPeak) (E.tempToString cv.negPeak 3 12) s
  let s := sendJsonPairStr (E.jsonKey .posPeak) (E.tempToString cv.posPeak 3 12) s
  sendJsonClose s

/-! ## Decoding settings -/

/-- `strcmp_P(key, JSONKEY_k) == 0`. -/
def keyIs (E : Ext) (key : List Char) (k : JsonKey) : Bool :=
  cstr key == cstr (E.jsonKey k)

/-- The first byte `val[0]` of a buffer that holds `val` and its NUL. -/
def firstByte (val : List Char) : Char := val.headD '\x00'

/-- `abs(x)` on a 16 bit `int`. -/
def abs16 (x : Int) : Int := wrap16 (wrap16 x).natAbs

/-- Assignment to one field of the control settings. -/
def Sys.setCs (s : Sys) (f : ControlSettings → ControlSettings) : Sys :=
  { s with tc := { s.tc with cs := f s.tc.cs } }

/-- Assignment to one field of the control constants. -/
def Sys.setCc (s : Sys) (f : ControlConstants → ControlConstants) : Sys :=
  { s with tc := { s.tc with cc := f s.tc.cc } }

/-- Lines 577 to 650 of `PiLink::processJsonPair`: the chain of key
comparisons. -/
def applySetting (E : Ext) (b : Build) (key val : List Char) (s : Sys) : Sys :=
  if keyIs E key .mode then
    let s := { s with tc := E.setMode (firstByte val) s.tc }.emit (.setMode (firstByte val))
    printFridgeAnnotation E b
      [.lit "Mode set to ".toList, .arg [firstByte val], .lit " in web interface".toList] s
  else if keyIs E key .beerSetting then
    let newTemp := E.stringToTemp (cstr val)
    let s :=
      if s.tc.cs.mode = 'p' then
        if abs16 (newTemp - s.tc.cs.beerSetting) > 100 then
          printBeerAnnotation E b
            [.lit "Beer temp set to ".toList, .arg (cstr val),
             .lit " by temperature profile.".toList] s
        else s
      else
        printBeerAnnotation E b
          [.lit "Beer temp set to ".toList, .arg (cstr val), .lit " in web interface.".toList] s
    s.setCs (fun cs => { cs with beerSetting := newTemp })
  else if keyIs E key .fridgeSetting then
    let newTemp := E.stringToTemp (cstr val)
    let s :=
      if s.tc.cs.mode = 'f' then
        printFridgeAnnotation E b
          [.lit "Fridge temp set to ".toList, .arg (cstr val), .lit " in web interface.".toList] s
      else s
    s.setCs (fun cs => { cs with fridgeSetting := newTemp })
  else if keyIs E key .heatEstimator then
    s.setCs (fun cs => { cs with heatEstimator := E.stringToFixedPoint (cstr val) })
  else if keyIs E key .coolEstimator then
    s.setCs (fun cs => { cs with coolEstimator := E.stringToFixedPoint (cstr val) })
  else if keyIs E key .tempFormat then
    let s := s.setCc (fun cc => { cc with tempFormat := firstByte val })
    { s with display := E.printStationaryText s.tc s.display }.emit .printStationaryText
  else if keyIs E key .tempSettingMin then
    s.setCc (fun cc => { cc with tempSettingMin := E.stringToTemp (cstr val) })
  else if keyIs E key .tempSettingMax then
    s.setCc (fun cc => { cc with tempSettingMax := E.stringToTemp (cstr val) })
  else if keyIs E key .Kp then
    s.setCc (fun cc => { cc with Kp := E.stringToFixedPoint (cstr val) })
  else if keyIs E key .Ki then
    s.setCc (fun cc => { cc with Ki := E.stringToFixedPoint (cstr val) })
  else if keyIs E key .Kd then
    s.setCc (fun cc => { cc with Kd := E.stringToFixedPoint (cstr val) })
  else if keyIs E key .iMaxError then
    s.setCc (fun cc => { cc with iMaxError := E.stringToTempDiff (cstr val) })
  else if keyIs E key .idleRangeHigh then
    s.setCc (fun cc => { cc with idleRangeHigh := E.stringToTempDiff (cstr val) })
  else if keyIs E key .idleRangeLow then
    s.setCc (fun cc => { cc with idleRangeLow := E.stringToTempDiff (cstr val) })
  else if keyIs E key .heatingTargetUpper then
    s.setCc (fun cc => { cc with heatingTargetUpper := E.stringToTempDiff (cstr val) })
  else if keyIs E key .heatingTargetLower then
    s.setCc (fun cc => { cc with heatingTargetLower := E.stringToTempDiff (cstr val) })
  else if keyIs E key .coolingTargetUpper then
    s.setCc (fun cc => { cc with coolingTargetUpper := E.stringToTempDiff (cstr val) })
  else if keyIs E key .coolingTargetLower then
    s.setCc (fun cc => { cc with coolingTargetLower := E.stringToTempDiff (cstr val) })
  else if keyIs E key .maxHeatTimeForEstimate then
    s.setCc (fun cc => { cc with maxHeatTimeForEstimate := u16 (E.strtoul (cstr val)) })
  else if keyIs E key .maxCoolTimeForEstimate then
    s.setCc (fun cc => { cc with maxCoolTimeForEstimate := u16 (E.strtoul (cstr val)) })
  else if keyIs E key .maxCoolTimeForEstimate then
    s.setCc (fun cc => { cc with maxCoolTimeForEstimate := u16 (E.strtoul (cstr val)) })
  else if keyIs E key .fridgeFastFilter then
    let s := s.setCc (fun cc => { cc with fridgeFastFilter := u8 (E.strtoul (cstr val)) })
    s.emit (.setFilter .fridge .fast s.tc.cc.fridgeFastFilter)
  else if keyIs E key .fridgeSlowFilter then
    let s := s.setCc (fun cc => { cc with fridgeSlowFilter := u8 (E.strtoul (cstr val)) })
    s.emit (.setFilter .fridge .slow s.tc.cc.fridgeSlowFilter)
  else if keyIs E key .fridgeSlopeFilter then
    let s := s.setCc (fun cc => { cc with fridgeSlopeFilter := u8 (E.strtoul (cstr val)) })
    s.emit (.setFilter .fridge .slope s.tc.cc.fridgeSlopeFilter)
  else if keyIs E key .beerFastFilter then
    let s := s.setCc (fun cc => { cc with beerFastFilter := u8 (E.strtoul (cstr val)) })
    s.emit (.setFilter .beer .fast s.tc.cc.beerFastFilter)
  else if keyIs E key .beerSlowFilter then
    let s := s.setCc (fun cc => { cc with beerSlowFilter := u8 (E.strtoul (cstr val)) })
    s.emit (.setFilter .beer .slow s.tc.cc.beerSlowFilter)
  else if keyIs E key .beerSlopeFilter then
    let s := s.setCc (fun cc => { cc with beerSlopeFilter := u8 (E.strtoul (cstr val)) })
    s.emit (.setFilter .beer .slope s.tc.cc.beerSlopeFilter)
  else
    debugMessage b [.lit "Could not process setting".toList] s

/-- `PiLink::processJsonPair`.  `key` and `val` are the contents of the two
buffers up to the terminating NUL that `receiveJson` wrote. -/
def processJsonPair (E : Ext) (b : Build) (key val : List Char) (s : Sys) : Sys :=
  let s := debugMessage b
    [.lit "Received new setting: ".toList, .arg (cstr key), .lit " = ".toList, .arg (cstr val)] s
  applySetting E b key val s

/-- `wait.millis(ms)`. -/
def waitMillis (E : Ext) (ms : Nat) (s : Sys) : Sys :=
  { s with millis := E.afterWait ms s.millis }.emit (.wait ms)

/-- How one of the two scanning loops of `receiveJson` is left. -/
inductive Scan where
  /-- The loop is left, by `break` or because no byte is available: the bytes
  copied, the byte read last, the bytes not yet read. -/
  | ended (buf : List Char) (character : Char) (rest : List Char) (s : Sys)
  /-- The buffer is full (`index >= 29`): `receiveJson` returns. -/
  | full (rest : List Char) (s : Sys)

/-- The loop of `receiveJson` that reads a key (lines 483 to 501).  `key`
holds the bytes copied so far, its length is `index`. -/
def getKey (E : Ext) : List Char → List Char → Char → Sys → Scan
  | [], key, character, s => .ended key character [] s
  | c :: rest, key, _, s =>
    let s := waitMillis E 1 s
    if c = ':' then .ended key c rest s
    else
      let key := if c = ' ' ∨ c = '{' ∨ c = '"' then key else key ++ [c]
      if key.length ≥ 29 then .full rest s else getKey E rest key c s

/-- The loop of `receiveJson` that reads a value (lines 504 to 522). -/
def getVal (E : Ext) : List Char → List Char → Char → Sys → Scan
  | [], val, character, s => .ended val character [] s
  | c :: rest, val, _, s =>
    let s := waitMillis E 1 s
    if c = ',' ∨ c = '}' then .ended val c rest s
    else
      let val := if c = ' ' ∨ c = '"' then val else val ++ [c]
      if val.length ≥ 29 then .full rest s else getVal E rest val c s

/-- Lines 526 to 535: what `receiveJson` does after the last pair. -/
def lastPair (E : Ext) (b : Build) (s : Sys) : Sys :=
  let s := s.emit .storeSettings
  let s := s.emit .storeConstants
  if b.simulate then s
  else
    let s := sendControlSettings E b s
    sendControlConstants E b s

/-- The outer loop of `receiveJson` (lines 481 to 536).  Every round reads at
least one byte, so `fuel` rounds are enough for `fuel` available bytes.  The
result is the bytes left unread and the new state. -/
def receiveJsonLoop (E : Ext) (b : Build) : Nat → List Char → Char → Sys → List Char × Sys
  | 0, input, _, s => (input, s)
  | fuel + 1, input, character, s =>
    if input = [] then (input, s)
    else
      match getKey E input [] character s with
      | .full rest s => (rest, s)
      | .ended key character rest s =>
        match getVal E rest [] character s with
        | .full rest s => (rest, s)
        | .ended val character rest s =>
          let s := processJsonPair E b key val s
          if character = '}' then (rest, lastPair E b s)
          else receiveJsonLoop E b fuel rest character s

/-- `PiLink::receiveJson`. -/
def receiveJson (E : Ext) (b : Build) (input : List Char) (s : Sys) : List Char × Sys :=
  let s := waitMillis E 1 s
  receiveJsonLoop E b input.length input '\x00' s

/-! ## Simulation builds -/

/-- Modelled from the spec: `ExternalTicks::setMillis` of `Ticks.h`, which is
not part of the sources; the raw tick key sets the tick counter. -/
def setMillis (n : Nat) (s : Sys) : Sys := { s with millis := u32 n }

/-- Modelled from the spec: `ExternalTicks::incMillis` of `Ticks.h`, which is
not part of the sources; the raw tick key advances the tick counter. -/
def incMillis (n : Nat) (s : Sys) : Sys := { s with millis := u32 (s.millis + n) }

/-- The function `setTicks` of `PiLink.cpp`; `val` is never the null pointer. -/
def setTicks (E : Ext) (b : Build) (val : List Char) (multiplier : Nat) (s : Sys) : Sys :=
  let s :=
    if firstByte val = '\x00' then incMillis 1000 s
    else if firstByte val = '=' then setMillis (u32 (E.strtoul (cstr val).tail) * multiplier) s
    else incMillis (u32 (u32 (E.strtoul (cstr val).tail) * multiplier)) s
  if b.debug then debugMessage b [.lit "New ticks ".toList, .arg (decimal (u32 s.millis))] s
  else s

/-- Assignment to the simulator object. -/
def Sys.setSim (s : Sys) (f : Simulator → Simulator) : Sys := { s with sim := f s.sim }

/-- How one of the two scanning loops of `updateInputs` is left. -/
inductive SimScan where
  /-- The loop is left by `break`: the bytes copied, whether the byte read
  last was the closing brace, the bytes not yet read. -/
  | ended (buf : List Char) (closing : Bool) (rest : List Char)
  /-- The buffer is full (`index >= 29`): `updateInputs` returns. -/
  | full (rest : List Char)
  /-- No byte is left: the loop reads for ever. -/
  | blocked

/-- The loop of `updateInputs` that reads a key (lines 709 to 728). -/
def simGetKey : List Char → List Char → SimScan
  | [], _ => .blocked
  | c :: rest, key =>
    if c = '\xff' ∨ c = '\x00' then simGetKey rest key
    else if c = ':' then .ended key false rest
    else
      let key := if c = ' ' ∨ c = '{' ∨ c = '"' then key else key ++ [c]
      if key.length ≥ 29 then .full rest else simGetKey rest key

/-- The loop of `updateInputs` that reads a value (lines 731 to 755). -/
def simGetVal : List Char → List Char → SimScan
  | [], _ => .blocked
  | c :: rest, val =>
    if c = '\xff' ∨ c = '\x00' then simGetVal rest val
    else if c = ',' then .ended val false rest
    else if c = '}' then .ended val true rest
    else
      let val := if c = ' ' ∨ c = '"' then val else val ++ [c]
      if val.length ≥ 29 then .full rest else simGetVal rest val

/-- `strcmp_P(key, text) == 0` for a key text of `PiLink.cpp`. -/
def simKeyIs (key : List Char) (text : String) : Bool := cstr key == text.toList

/-- Lines 760 to 817 of `updateInputs`: one pair is applied. -/
def simApply (E : Ext) (b : Build) (key val : List Char) (s : Sys) : Sys :=
  if simKeyIs key "s" then setTicks E b val 1000 s
  else if simKeyIs key "rmi" then
    s.setSim (fun m => { m with minRoomTemp := E.atof (cstr val) })
  else if simKeyIs key "rmx" then
    s.setSim (fun m => { m with maxRoomTemp := E.atof (cstr val) })
  else if simKeyIs key "fv" then
    s.setSim (fun m => { m with fridgeVolume := wrap16 (u16 (E.toUInt (E.atof (cstr val)))) })
  else if simKeyIs key "bv" then
    s.setSim (fun m => { m with beerVolume := E.atof (cstr val) })
  else if simKeyIs key "sg" then
    s.setSim (fun m => { m with beerDensity := E.atof (cstr val) })
  else if simKeyIs key "f" then
    s.setSim (fun m => { m with fridgeTemp := E.atof (cstr val) })
  else if simKeyIs key "b" then
    s.setSim (fun m => { m with beerTemp := E.atof (cstr val) })
  else if simKeyIs key "h" then
    s.setSim (fun m => { m with heatPower := (E.toInt (E.atof (cstr val)) % 65536).toNat })
  else if simKeyIs key "c" then
    s.setSim (fun m => { m with coolPower := (E.toInt (E.atof (cstr val)) % 65536).toNat })
  else if simKeyIs key "ke" then
    s.setSim (fun m => { m with Ke := E.atof (cstr val) })
  else if simKeyIs key "kb" then
    s.setSim (fun m => { m with Kb := E.atof (cstr val) })
  else if simKeyIs key "bc" then
    s.setSim (fun m => { m with beerConnected := cstr val != ['0'] })
  else if simKeyIs key "fc" then
    s.setSim (fun m => { m with fridgeConnected := cstr val != ['0'] })
  else if simKeyIs key "d" then
    s.setSim (fun m => { m with doorSensor := cstr val != ['0'] })
  else if simKeyIs key "r" then
    s.emit (.setRunFactor (E.stringToFixedPoint (cstr val)))
  else if simKeyIs key "i" then
    { s with printTempInterval := (E.atoi (cstr val) % 256).toNat }
  else if simKeyIs key "n" then
    s.setSim (fun m => { m with sensorNoise := E.atof (cstr val) })
  else s

/-- The outer loop of `updateInputs`.  `none` stands for a call that never
returns, because the loop waits for a byte that does not come. -/
def updateInputsLoop (E : Ext) (b : Build) : Nat → List Char → Sys → Option (List Char × Sys)
  | 0, _, _ => none
  | fuel + 1, input, s =>
    match simGetKey input [] with
    | .blocked => none
    | .full rest => some (rest, s)
    | .ended key _ rest =>
      match simGetVal rest [] with
      | .blocked => none
      | .full rest => some (rest, s)
      | .ended val closing rest =>
        let s := simApply E b key val s
        if closing then some (rest, s) else updateInputsLoop E b fuel rest s

/-- `PiLink::updateInputs`. -/
def updateInputs (E : Ext) (b : Build) (input : List Char) (s : Sys) : Option (List Char × Sys) :=
  updateInputsLoop E b input.length input s

/-- `PiLink::printSimulatorSettings`. -/
def printSimulatorSettings (E : Ext) (b : Build) (s : Sys) : Sys :=
  let s := printResponse b 'U' s
  let s := sendJsonPairDouble E "rmi".toList s.sim.minRoomTemp s
  let s := sendJsonPairDouble E "rmx".toList s.sim.maxRoomTemp s
  let s := sendJsonPairDouble E "fv".toList (E.ofInt s.sim.fridgeVolume) s
  let s := sendJsonPairDouble E "bv".toList s.sim.beerVolume s
  let s := sendJsonPairDouble E "sg".toList s.sim.beerDensity s
  let s := sendJsonPairDouble E "f".toList s.sim.fridgeTemp s
  let s := sendJsonPairDouble E "b".toList s.sim.beerTemp s
  let s := sendJsonPairStr "fc".toList (if s.sim.fridgeConnected then ['1'] else ['0']) s
  let s := sendJsonPairStr "bc".toList (if s.sim.beerConnected then ['1'] else ['0']) s
  let s := sendJsonPairU16 "h".toList s.sim.heatPower s
  let s := sendJsonPairU16 "c".toList s.sim.coolPower s
  let s := sendJsonPairDouble E "ke".toList s.sim.Ke s
  let s := sendJsonPairDouble E "kb".toList s.sim.Kb s
  let s := sendJsonPairStr "d".toList (if s.sim.doorOpen then ['1'] else ['0']) s
  let s := sendJsonPairU8 "d".toList s.printTempInterval s
  let s := sendJsonPairDouble E "n".toList s.sim.sensorNoise s
  sendJsonClose s

/-! ## The command dispatcher -/

/-- Modelled from the spec: `ChamberManager::switchChamber` of `chamber.h`,
which is not part of the sources; it makes the given zone the active one and
returns the zone that was active. -/
def switchChamber (id : Nat) (s : Sys) : Nat × Sys :=
  (s.chamber, { s with chamber := id }.emit (.switchChamber id))

/-- `PiLink::printChamberInfo`. -/
def printChamberInfo (b : Build) (s : Sys) : Sys :=
  let s := printResponse b 'X' s
  let s := s.emit (.chr '{')
  let s := sendJsonPairU8 "chambers".toList s.chamberCount s
  let s := sendJsonPairU8 "current".toList s.chamber s
  let s := s.emit (.chr '}')
  s.emit (.chr '\n')

/-- `display.getLine(i, stringBuffer)`: the buffer of 21 bytes takes the first
20 characters of the line. -/
def getLine (s : Sys) (i : Nat) : List Char := (s.display.getD i []).take 20

/-- The body of the `for` loop of `case 'l'`. -/
def printLine (i : Nat) (s : Sys) : Sys :=
  let s := print_P [.lit ['"'], .arg (cstr (getLine s i)), .lit ['"']] s
  s.emit (.chr (if i < 3 then ',' else ']'))

/-- `case 'l'` of `receive`: the display content. -/
def printDisplay (E : Ext) (b : Build) (s : Sys) : Sys :=
  let s := printResponse b 'L' s
  let s := if b.multichamber then
      let s := s.emit (.setBufferOnly true)
      { s with display := E.printAll s.tc s.display }.emit .printAll
    else s
  let s := s.emit (.chr '[')
  let s := printLine 0 s
  let s := printLine 1 s
  let s := printLine 2 s
  let s := printLine 3 s
  let s := s.emit (.chr '\n')
  if b.multichamber then s.emit (.setBufferOnly false) else s

/-- `chamber_id chamber = arg - '1'`, the zone index as an unsigned byte. -/
def chamberOf (arg : Char) : Nat := ((signedChar arg - 49) % 256).toNat

/-- The state after the `switch` statement of line 114 of `receive`. -/
structure Dispatched where
  /-- The local variable `prev`. -/
  prev : Nat
  /-- The bytes not yet read. -/
  input : List Char
  sys : Sys

/-- `case 'C'` of `receive`: load the default constants. -/
def defaultConstants (E : Ext) (b : Build) (s : Sys) : Sys :=
  let s := { s with tc := E.loadDefaultConstants s.tc }.emit .loadDefaultConstants
  let s := { s with display := E.printStationaryText s.tc s.display }.emit .printStationaryText
  let s := sendControlConstants E b s
  debugMessage b [.lit "Default constants loaded.".toList] s

/-- `case 'S'` of `receive`: load the default settings. -/
def defaultSettings (E : Ext) (b : Build) (s : Sys) : Sys :=
  let s := { s with tc := E.loadDefaultSettings s.tc }.emit .loadDefaultSettings
  let s := sendControlSettings E b s
  debugMessage b [.lit "Default settings loaded.".toList] s

/-- `case 'n'` of the `switch` statement of line 114: the version. -/
def printVersion (E : Ext) (s : Sys) : Sys :=
  print_P [.lit ['N', ':'], .arg (cstr E.versionString), .lit ['\n']] s

/-- The `default` case of `receive`. -/
def invalidCommand (b : Build) (inByte : Char) (s : Sys) : Sys :=
  debugMessage b [.lit "Invalid command received by Arduino: ".toList, .arg [inByte]] s

/-- The cases of the `switch` statement of lines 114 to 183 of `receive`
that leave the local variable `prev` alone: all but `case 'X'`.  The result
is the bytes not yet read and the new state; `none` stands for a call that
never returns (`updateInputs`). -/
def handle (E : Ext) (b : Build) (inByte : Char) (input : List Char) (s : Sys) :
    Option (List Char × Sys) :=
  if b.simulate ∧ inByte = 'y' then updateInputs E b input s
  else if b.simulate ∧ inByte = 'Y' then some (input, printSimulatorSettings E b s)
  else if inByte = 't' then some (input, printTemperatures E b s)
  else if inByte = 'C' then some (input, defaultConstants E b s)
  else if inByte = 'S' then some (input, defaultSettings E b s)
  else if inByte = 's' then some (input, sendControlSettings E b s)
  else if inByte = 'c' then some (input, sendControlConstants E b s)
  else if inByte = 'v' then some (input, sendControlVariables E b s)
  else if inByte = 'n' then some (input, printVersion E s)
  else if inByte = 'l' then some (input, printDisplay E b s)
  else if inByte = 'j' then some (receiveJson E b input s)
  else some (input, invalidCommand b inByte s)

/-- The `switch` statement of lines 114 to 183 of `receive`. -/
def dispatch (E : Ext) (b : Build) (inByte : Char) (chamber prev : Nat)
    (input : List Char) (s : Sys) : Option Dispatched :=
  if b.multichamber ∧ inByte = 'X' then
    some ⟨chamber, input, printChamberInfo b s⟩
  else (handle E b inByte input s).map (fun r => ⟨prev, r.1, r.2⟩)

/-- `PiLink::receive`.  The result is the bytes left unread and the new
state; `none` stands for a call that never returns. -/
def receive (E : Ext) (b : Build) (input : List Char) (s : Sys) : Option (List Char × Sys) :=
  match input with
  | [] => some ([], s)
  | inByte :: input =>
    if b.multichamber then
      -- `piStream.read()` gives -1 when no byte is available
      let arg := input.headD '\xff'
      let input := input.tail
      if inByte = 'x' then some (input, printChamberInfo b s)
      else
        let s := if inByte = 'n' then
            print_P [.lit ['N', ':', '"'], .arg (cstr E.versionString), .lit ['"', '\n']] s
          else s
        let chamber := chamberOf arg
        let prev := s.chamber
        let r := if chamber ≤ 9 then switchChamber chamber s else (prev, s)
        (dispatch E b inByte chamber r.1 input r.2).map
          (fun d => (d.input, (switchChamber d.prev d.sys).2))
    else if inByte = '\n' then some (input, s)
    else (dispatch E b inByte 0 0 input s).map (fun d => (d.input, d.sys))

/-- Call `receive` `n` times in a row, as the main loop does. -/
def poll (E : Ext) (b : Build) : Nat → List Char → Sys → Option (List Char × Sys)
  | 0, input, s => some (input, s)
  | n + 1, input, s =>
    match receive E b input s with
    | none => none
    | some r => poll E b n r.1 r.2

/-- The events that were added to the trace between the states `s` and `t`. -/
def since (s t : Sys) : List Event := t.trace.drop s.trace.length

/-- `wait.millis(1)`, `n` times. -/
def waits (E : Ext) : Nat → Sys → Sys
  | 0, s => s
  | n + 1, s => waits E n (waitMillis E 1 s)

/-- The outer loop of `receiveJson` with enough rounds for the bytes that
are available. -/
def receiveJsonPairs (E : Ext) (b : Build) (input : List Char) (s : Sys) : List Char × Sys :=
  receiveJsonLoop E b input.length input '\x00' s

/-! ## The words of the specification -/

/-- The spec's key of a pair: the bytes before the colon "with every space,
opening brace and double quote removed". -/
def specKey (k : List Char) : List Char :=
  k.filter (fun c => !(c == ' ' || c == '{' || c == '"'))

/-- The spec's value of a pair: the bytes between the colon and the
terminator "with every space and double quote removed". -/
def specVal (v : List Char) : List Char :=
  v.filter (fun c => !(c == ' ' || c == '"'))

/-- The bytes of one pair as they stand in the input: the bytes before the
colon and the bytes between the colon and the terminator. -/
structure RawPair where
  k : List Char
  v : List Char
deriving DecidableEq, Repr

/-- A pair that fits the buffers: no colon before the colon, no terminator
before the terminator, fewer than 29 bytes copied into each buffer. -/
def RawPair.fits (p : RawPair) : Prop :=
  ':' ∉ p.k ∧ ',' ∉ p.v ∧ '}' ∉ p.v ∧ (specKey p.k).length < 29 ∧ (specVal p.v).length < 29

/-- The bytes of a pair followed by its terminator. -/
def RawPair.bytes (p : RawPair) (terminator : Char) : List Char :=
  p.k ++ ':' :: (p.v ++ [terminator])

/-- The bytes of pairs that are each followed by a comma. -/
def commaPairs : List RawPair → List Char
  | [] => []
  | p :: ps => p.bytes ',' ++ commaPairs ps

/-- One pair is read (one wait per byte) and handed to `processJsonPair`. -/
def applyPair (E : Ext) (b : Build) (s : Sys) (p : RawPair) : Sys :=
  processJsonPair E b (specKey p.k) (specVal p.v) (waits E (p.k.length + p.v.length + 2) s)

/-- The pairs are read and handed to `processJsonPair` one after the other. -/
def applyPairs (E : Ext) (b : Build) (s : Sys) (ps : List RawPair) : Sys :=
  ps.foldl (applyPair E b) s

/-- Bytes with which a key overflows its buffer: no colon, and the last
byte is the 29th byte copied. -/
def KeyOverflow (chunk : List Char) : Prop :=
  ∃ k c, chunk = k ++ [c] ∧ ':' ∉ k ∧ (specKey k).length = 28 ∧
    c ≠ ':' ∧ c ≠ ' ' ∧ c ≠ '{' ∧ c ≠ '"'

/-- Bytes with which a value overflows its buffer: a key that fits, the
colon, no terminator, and the last byte is the 29th byte copied. -/
def ValOverflow (chunk : List Char) : Prop :=
  ∃ k v c, chunk = k ++ ':' :: (v ++ [c]) ∧ ':' ∉ k ∧ (specKey k).length < 29 ∧
    ',' ∉ v ∧ '}' ∉ v ∧ (specVal v).length = 28 ∧
    c ≠ ',' ∧ c ≠ '}' ∧ c ≠ ' ' ∧ c ≠ '"'

/-- The number of `printResponse(type)` calls in a trace. -/
def countResponse (type : Char) (tr : List Event) : Nat :=
  tr.countP (fun e => match e with
    | .response t _ => t == type
    | _ => false)

/-! ## A concrete environment, to run the model on examples -/

/-- Leading decimal digits of a text, as a number. -/
def parseNat (s : List Char) : Nat :=
  (s.takeWhile Char.isDigit).foldl (fun n c => 10 * n + (c.toNat - 48)) 0

/-- A plain rendering of a fixed point number with 9 fraction bits. -/
def demoFixed (v : Int) (decimals : Nat) : List Char :=
  (if v < 0 then ['-'] else []) ++ decimal (v.natAbs / 512) ++
    '.' :: decimal ((v.natAbs % 512) * 10 ^ decimals / 512)

/-- Key texts for the concrete environment. -/
def demoKey : JsonKey → String
  | .mode => "mode" | .beerSetting => "beerSet" | .fridgeSetting => "fridgeSet"
  | .heatEstimator => "heatEst" | .coolEstimator => "coolEst"
  | .tempFormat => "tempFormat" | .tempSettingMin => "tempSetMin"
  | .tempSettingMax => "tempSetMax" | .Kp => "Kp" | .Ki => "Ki" | .Kd => "Kd"
  | .iMaxError => "iMaxErr" | .idleRangeHigh => "idleRangeH" | .idleRangeLow => "idleRangeL"
  | .heatingTargetUpper => "heatTargetH" | .heatingTargetLower => "heatTargetL"
  | .coolingTargetUpper => "coolTargetH" | .coolingTargetLower => "coolTargetL"
  | .maxHeatTimeForEstimate => "maxHeatTimeForEst"
  | .maxCoolTimeForEstimate => "maxCoolTimeForEst"
  | .fridgeFastFilter => "fridgeFastFilt" | .fridgeSlowFilter => "fridgeSlowFilt"
  | .fridgeSlopeFilter => "fridgeSlopeFilt" | .beerFastFilter => "beerFastFilt"
  | .beerSlowFilter => "beerSlowFilt" | .beerSlopeFilter => "beerSlopeFilt"
  | .beerDiff => "beerDiff" | .diffIntegral => "diffIntegral" | .beerSlope => "beerSlope"
  | .p => "p" | .i => "i" | .d => "d" | .estimatedPeak => "estPeak"
  | .negPeakEstimate => "negPeakEst" | .posPeakEstimate => "posPeakEst"
  | .negPeak => "negPeak" | .posPeak => "posPeak"

/-- Control settings of the concrete state. -/
def demoSettings : ControlSettings :=
  { mode := 'b', beerSetting := 10240, fridgeSetting := 9216, heatEstimator := 102,
    coolEstimator := 2560 }

/-- Control constants of the concrete state. -/
def demoConstants : ControlConstants :=
  { tempFormat := 'C', tempSettingMin := 512, tempSettingMax := 15360, Kp := 10240,
    Ki := 307, Kd := -1536, iMaxError := 256, idleRangeHigh := 512, idleRangeLow := -512,
    heatingTargetUpper := 154, heatingTargetLower := -102, coolingTargetUpper := 102,
    coolingTargetLower := -154, maxHeatTimeForEstimate := 600, maxCoolTimeForEstimate := 1200,
    fridgeFastFilter := 1, fridgeSlowFilter := 4, fridgeSlopeFilter := 3, beerFastFilter := 3,
    beerSlowFilter := 5, beerSlopeFilter := 4 }

/-- A concrete environment. -/
def demoExt : Ext :=
  { tempToString := fun v d n => (demoFixed v d).take (n - 1)
    fixedPointToString := fun v d n => (demoFixed v d).take (n - 1)
    tempDiffToString := fun v d n => (demoFixed v d).take (n - 1)
    stringToTemp := fun s => 512 * (parseNat s : Int)
    stringToFixedPoint := fun s => 512 * (parseNat s : Int)
    stringToTempDiff := fun s => 512 * (parseNat s : Int)
    strtoul := parseNat
    atoi := fun s => (parseNat s : Int)
    atof := fun s => ⟨parseNat s⟩
    versionString := "0.2.0".toList
    jsonKey := fun k => (demoKey k).toList
    getBeerTemp := fun tc => tc.beerTemp
    getBeerSetting := fun tc => tc.cs.beerSetting
    getFridgeTemp := fun tc => tc.fridgeTemp
    getFridgeSetting := fun tc => tc.cs.fridgeSetting
    getState := fun tc => tc.state
    setMode := fun c tc => { tc with cs := { tc.cs with mode := c } }
    loadDefaultConstants := fun tc => { tc with cc := demoConstants }
    loadDefaultSettings := fun tc => { tc with cs := demoSettings }
    printStationaryText := fun _ d => d
    printAll := fun _ d => d
    afterWait := fun ms m => m + ms
    dne := fun a b => a != b
    scale10000 := fun d => (d.bits : Int)
    toInt := fun d => (d.bits : Int)
    toUInt := fun d => d.bits
    ofInt := fun i => ⟨i.toNat⟩
    roomSine := fun _ lo _ => lo
    beerAnnBuf := 2200
    fridgeAnnBuf := 2200 }

/-- A single-zone build without the simulator. -/
def plainBuild : Build := { multichamber := false, simulate := false, debug := false }

/-- A multi-zone build without the simulator. -/
def zoneBuild : Build := { multichamber := true, simulate := false, debug := false }

/-- A concrete state: the device right after start-up. -/
def demoSys : Sys :=
  { trace := []
    firstPair := false
    tracker := Tracker.init ⟨0⟩
    tc := { cs := { demoSettings with beerSetting := 9728 }, cc := demoConstants,
            cv := ⟨0, 0, 0, 0, 0, 0, 0, 0, 0, 0, 0⟩, beerTemp := 9800, fridgeTemp := 9100,
            state := 0 }
    millis := 61500
    display := ["Mode   Beer Const.  ".toList, "Beer   19.1  19.0 C ".toList,
                "Fridge 17.8  18.0 C ".toList, "Idling for     1m03 ".toList]
    chamber := 0
    chamberCount := 2
    sim := { time := 0, fridgeVolume := 400, beerDensity := ⟨0⟩, beerTemp := ⟨0⟩,
             beerVolume := ⟨0⟩, minRoomTemp := ⟨0⟩, maxRoomTemp := ⟨0⟩, fridgeTemp := ⟨0⟩,
             heatPower := 25, coolPower := 50, Ke := ⟨0⟩, Kb := ⟨0⟩, sensorNoise := ⟨0⟩,
             doorOpen := false, doorSensor := false, beerConnected := true,
             fridgeConnected := true }
    printTempInterval := 5 }

/-- The concrete state with another fridge setting. -/
def Sys.withFridgeSetting (s : Sys) (v : Int) : Sys :=
  s.setCs (fun cs => { cs with fridgeSetting := v })

/-! ## Definitions for the statements -/

/-- The events with which `printDouble` prints a scaled value. -/
def doubleEvents (l : Int) : List Event :=
  .fmt [.arg (ltoa (Int.tdiv l 10000))] ::
    (if Int.tmod l 10000 ≠ 0 then [.chr '.', .fmt [.arg (ltoa (Int.tmod l 10000))]] else [])

/-- The events with which an annotation is printed. -/
def annEvents (name : String) (a : Option Ann) : List Event :=
  [.fmt [.lit (keyLit name)],
    match a with
    | none => .fmt [.lit "null,".toList]
    | some x => .fmt [.lit "\"".toList, .arg (cstr x.text), .lit "\",".toList]]

/-- The events with which a temperature is printed. -/
def tempEvents (E : Ext) (name : String) (v : Int) : List Event :=
  [.fmt [.lit (keyLit name), .arg (cstr (E.tempToString v 2 9)), .lit [',']]]

/-- The events of one call of `printTemperaturesJSON` in the state `s`. -/
def reportEvents (E : Ext) (b : Build) (ba fa : Option Ann) (s : Sys) : List Event :=
  [.response 'T' (if b.multichamber then some (Char.ofNat ((s.chamber + 49) % 256)) else none),
    .chr '{'] ++
  (if E.getBeerTemp s.tc ≠ s.tracker.beerTemp then tempEvents E "bt" (E.getBeerTemp s.tc)
    else []) ++
  (if E.getBeerSetting s.tc ≠ s.tracker.beerSet then tempEvents E "bs" (E.getBeerSetting s.tc)
    else []) ++
  (if ba.map Ann.addr ≠ s.tracker.beerAnn then annEvents "ba" ba else []) ++
  (if E.getFridgeTemp s.tc ≠ s.tracker.fridgeTemp then tempEvents E "ft" (E.getFridgeTemp s.tc)
    else []) ++
  (if E.getFridgeSetting s.tc ≠ s.tracker.fridgeSet then
    tempEvents E "fs" (E.getFridgeSetting s.tc) else []) ++
  (if fa.map Ann.addr ≠ s.tracker.fridgeAnn then annEvents "fa" fa else []) ++
  (if b.simulate = true ∧ E.dne (s.sim.roomTemp E) s.tracker.roomTemp = true then
    [.fmt [.lit ['"', 'r', 't', '"']], .chr ':'] ++
      doubleEvents (E.scale10000 (s.sim.roomTemp E)) ++ [.chr ',']
    else []) ++
  (if u8 (E.getState s.tc) ≠ s.tracker.state then
    [.fmt [.lit (keyLit "s"), .arg (decimal (u8 (E.getState s.tc))), .lit [',']]] else []) ++
  [.fmt [.lit (keyLit "t"), .arg (decimal (u32 s.millis / 1000)), .lit ['}', '\n']]]

/-- The tracker after one call of `printTemperaturesJSON` in the state `s`. -/
def trackerAfter (E : Ext) (b : Build) (ba fa : Option Ann) (s : Sys) : Tracker :=
  { beerTemp := E.getBeerTemp s.tc
    beerSet := E.getBeerSetting s.tc
    fridgeTemp := E.getFridgeTemp s.tc
    fridgeSet := E.getFridgeSetting s.tc
    roomTemp := if b.simulate then s.sim.roomTemp E else s.tracker.roomTemp
    state := u8 (E.getState s.tc)
    beerAnn := ba.map Ann.addr
    fridgeAnn := fa.map Ann.addr }

/-- The concrete state after a first report, with another fridge setting. -/
def demoSecond : Sys := (printTemperatures demoExt plainBuild demoSys).withFridgeSetting 9728

/-- The concrete state after a first report, some seconds later. -/
def demoLater : Sys := { printTemperatures demoExt plainBuild demoSys with millis := 75250 }

/-- An event that is neither a persistence call nor the head of a settings
or constants report. -/
def Event.quiet : Event → Bool
  | .storeSettings => false
  | .storeConstants => false
  | .response t _ => !(t == 'S' || t == 'C')
  | _ => true

/-- A way of counting events that counts no quiet event. -/
def Loud (r : Event → Bool) : Prop := ∀ e, e.quiet = true → r e = false

/-- A way of counting events that counts no byte written to the stream
apart from the heads of the responses. -/
def Plain (r : Event → Bool) : Prop :=
  (∀ c, r (.chr c) = false) ∧ (∀ x, r (.str x) = false) ∧ (∀ ps, r (.fmt ps) = false)

/-- The zone character that `printResponse` writes in the state `s`. -/
def zoneChar (b : Build) (s : Sys) : Option Char :=
  if b.multichamber then some (Char.ofNat ((s.chamber + 49) % 256)) else none

instance (p : RawPair) : Decidable p.fits := by
  unfold RawPair.fits
  infer_instance

/-- A pair of a concrete message: a beer setting of 20 degrees. -/
def demoPair : RawPair := ⟨"\x7b\"beerSet\"".toList, "\"20\"".toList⟩

/-- The last pair of a concrete message: a proportional gain of 5. -/
def demoLastPair : RawPair := ⟨" \"Kp\"".toList, " 5".toList⟩

/-- A key of 29 bytes, up to its last byte. -/
def demoLongKey : List Char := '"' :: List.replicate 28 'a'

/-- A settings message whose key has 30 bytes. -/
def demoOversized : List Char := 'j' :: '{' :: (demoLongKey ++ "aS\":1\x7d".toList)

/-- The concrete state in fridge mode. -/
def demoFridgeMode : Sys := demoSys.setCs (fun cs => { cs with mode := 'f' })

/-! ## Definitions for the statements about reports and settings -/

/-- The text of the diagnostic for an unknown command byte. -/
def invalidText : List Char := "Invalid command received by Arduino: ".toList

/-- A text in double quotes. -/
def quoted (l : List Char) : List Char := '"' :: (l ++ ['"'])

/-- The state in which `case 'C'` writes its report. -/
def afterLoadConstants (E : Ext) (s : Sys) : Sys :=
  { s with
    tc := E.loadDefaultConstants s.tc
    display := E.printStationaryText (E.loadDefaultConstants s.tc) s.display
    trace := s.trace ++ [.loadDefaultConstants, .printStationaryText] }

/-- The state in which `case 'S'` writes its report. -/
def afterLoadSettings (E : Ext) (s : Sys) : Sys :=
  { s with
    tc := E.loadDefaultSettings s.tc
    trace := s.trace ++ [.loadDefaultSettings] }

/-- An event that is the head of a response of the given type. -/
def respIs (c : Char) : Event → Bool
  | .response t _ => t == c
  | _ => false

/-- The bytes of one item of a report: the key in double quotes, a colon,
the value and one comma. -/
def itemBytes (k v : List Char) : List Char := '"' :: (k ++ '"' :: ':' :: (v ++ [',']))

/-- The bytes of items that follow each other. -/
def itemsBytes : List (List Char × List Char) → List Char
  | [] => []
  | (k, v) :: rest => itemBytes k v ++ itemsBytes rest

/-- The keys that a temperature report may hold before the time field, in
their order. -/
def reportKeys : List (List Char) :=
  ["bt".toList, "bs".toList, "ba".toList, "ft".toList, "fs".toList, "fa".toList, "rt".toList,
    "s".toList]

/-- The bytes of the time field with the end of the report. -/
def timeBytes (secs : List Char) : List Char := '"' :: 't' :: '"' :: ':' :: (secs ++ ['}', '\n'])

/-- The output of a temperature report as the claim words it: `T:`, an
opening brace, items that each end with a comma, the time field, a closing
brace and a line feed. -/
def ClaimedReport (out secs : List Char) : Prop :=
  ∃ items : List (List Char × List Char),
    out = 'T' :: ':' :: '{' :: (itemsBytes items ++ timeBytes secs)

/-- The value of an annotation item: `null`, or the text in double quotes. -/
def annValue : Option Ann → List Char
  | none => "null".toList
  | some a => quoted (cstr a.text)

/-- An annotation of 125 bytes. -/
def demoLongAnn : Ann := ⟨2200, List.replicate 125 'a'⟩

/-- An annotation of 126 bytes. -/
def demoLongerAnn : Ann := ⟨2200, List.replicate 126 'a'⟩

/-- A short annotation. -/
def demoAnn : Ann := ⟨2200, "warm".toList⟩

/-- Modelled from the spec: `TempControl::setMode` of `TempControl.cpp`, which
is not part of the sources; "mode set to `'f'`": after the call the mode of
the control settings is the argument of the call. -/
def SetsMode (E : Ext) : Prop := ∀ c tc, (E.setMode c tc).cs.mode = c

/-- The text of the annotation of a mode change. -/
def modeText (c : Char) : List Char :=
  "Mode set to ".toList ++ c :: " in web interface".toList

/-- An event that starts a response or is a persistence call. -/
def Event.isHead : Event → Bool
  | .response _ _ => true
  | .storeSettings => true
  | .storeConstants => true
  | _ => false

/-- The keys that `processJsonPair` compares the received key with, in the
order of the comparisons. -/
def settingsKeys : List JsonKey :=
  [.mode, .beerSetting, .fridgeSetting, .heatEstimator, .coolEstimator, .tempFormat,
    .tempSettingMin, .tempSettingMax, .Kp, .Ki, .Kd, .iMaxError, .idleRangeHigh, .idleRangeLow,
    .heatingTargetUpper, .heatingTargetLower, .coolingTargetUpper, .coolingTargetLower,
    .maxHeatTimeForEstimate, .maxCoolTimeForEstimate, .fridgeFastFilter, .fridgeSlowFilter,
    .fridgeSlopeFilter, .beerFastFilter, .beerSlowFilter, .beerSlopeFilter]

/-- The texts of the settings keys differ from one another as C strings (the
texts are those of `jsonKeys.h`, which is not part of the sources). -/
def KeysDistinct (E : Ext) : Prop :=
  ∀ j ∈ settingsKeys, ∀ k ∈ settingsKeys, cstr (E.jsonKey j) = cstr (E.jsonKey k) → j = k

instance (E : Ext) : Decidable (KeysDistinct E) := by
  unfold KeysDistinct
  infer_instance

/-- The diagnostic with which `processJsonPair` starts. -/
def receivedSetting (b : Build) (key val : List Char) (s : Sys) : Sys :=
  debugMessage b
    [.lit "Received new setting: ".toList, .arg (cstr key), .lit " = ".toList, .arg (cstr val)] s

/-- A build with the simulator. -/
def simBuild : Build := { multichamber := false, simulate := true, debug := false }

/-- A message with a key that is not a settings key, followed by a gain. -/
def demoUnknown : List Char := "j\x7b\"colour\":\"red\",\"Kp\":\"5\"\x7d".toList

/-- The bytes with which `printJsonName` prints the text of a key. -/
def keyBytes (E : Ext) (k : JsonKey) : List Char := fmtBytes [.lit (E.jsonKey k)]

/-- One pair of an object: the key in double quotes, a colon, the value. -/
def pairBytes (p : List Char × List Char) : List Char := '"' :: (p.1 ++ '"' :: ':' :: p.2)

/-- An object: one opening brace, the pairs with one comma between
consecutive pairs, one closing brace. -/
def objectBytes (ps : List (List Char × List Char)) : List Char :=
  '{' :: (List.intercalate [','] (ps.map pairBytes) ++ ['}'])

/-- The keys of the settings report. -/
def settingsReportKeys : List JsonKey :=
  [.mode, .beerSetting, .fridgeSetting, .heatEstimator, .coolEstimator]

/-- The keys of the constants report. -/
def constantsReportKeys : List JsonKey :=
  [.tempFormat, .tempSettingMin, .tempSettingMax, .Kp, .Ki, .Kd, .iMaxError, .idleRangeHigh,
    .idleRangeLow, .heatingTargetUpper, .heatingTargetLower, .coolingTargetUpper,
    .coolingTargetLower, .maxHeatTimeForEstimate, .maxCoolTimeForEstimate, .fridgeFastFilter,
    .fridgeSlowFilter, .fridgeSlopeFilter, .beerFastFilter, .beerSlowFilter, .beerSlopeFilter]

/-- The keys of the control variables report. -/
def variablesReportKeys : List JsonKey :=
  [.beerDiff, .diffIntegral, .beerSlope, .p, .i, .d, .estimatedPeak, .negPeakEstimate,
    .posPeakEstimate, .negPeak, .posPeak]

/-- The values of the settings report, as bytes. -/
def settingsValues (E : Ext) (cs : ControlSettings) : List (List Char) :=
  [['"', cs.mode, '"'],
    cstr (E.tempToString cs.beerSetting 2 12),
    cstr (E.tempToString cs.fridgeSetting 2 12),
    cstr (E.fixedPointToString cs.heatEstimator 3 12),
    cstr (E.fixedPointToString cs.coolEstimator 3 12)]

/-- The values of the constants report, as bytes. -/
def constantsValues (E : Ext) (cc : ControlConstants) : List (List Char) :=
  [['"', cc.tempFormat, '"'],
    cstr (E.tempToString cc.tempSettingMin 1 12),
    cstr (E.tempToString cc.tempSettingMax 1 12),
    cstr (E.fixedPointToString cc.Kp 3 12),
    cstr (E.fixedPointToString cc.Ki 3 12),
    cstr (E.fixedPointToString cc.Kd 3 12),
    cstr (E.tempDiffToString cc.iMaxError 3 12),
    cstr (E.tempDiffToString cc.idleRangeHigh 3 12),
    cstr (E.tempDiffToString cc.idleRangeLow 3 12),
    cstr (E.tempDiffToString cc.heatingTargetUpper 3 12),
    cstr (E.tempDiffToString cc.heatingTargetLower 3 12),
    cstr (E.tempDiffToString cc.coolingTargetUpper 3 12),
    cstr (E.tempDiffToString cc.coolingTargetLower 3 12),
    quoted (decimal (u16 cc.maxHeatTimeForEstimate)),
    quoted (decimal (u16 cc.maxCoolTimeForEstimate)),
    quoted (decimal (u16 (u8 cc.fridgeFastFilter))),
    quoted (decimal (u16 (u8 cc.fridgeSlowFilter))),
    quoted (decimal (u16 (u8 cc.fridgeSlopeFilter))),
    quoted (decimal (u16 (u8 cc.beerFastFilter))),
    quoted (decimal (u16 (u8 cc.beerSlowFilter))),
    quoted (decimal (u16 (u8 cc.beerSlopeFilter)))]

/-- The values of the control variables report, as bytes. -/
def variablesValues (E : Ext) (cv : ControlVariables) : List (List Char) :=
  [cstr (E.tempDiffToString cv.beerDiff 3 12),
    cstr (E.tempDiffToString cv.diffIntegral 3 12),
    cstr (E.tempDiffToString cv.beerSlope 3 12),
    cstr (E.fixedPointToString cv.p 3 12),
    cstr (E.fixedPointToString cv.i 3 12),
    cstr (E.fixedPointToString cv.d 3 12),
    cstr (E.tempToString cv.estimatedPeak 3 12),
    cstr (E.tempToString cv.negPeakEstimate 3 12),
    cstr (E.tempToString cv.posPeakEstimate 3 12),
    cstr (E.tempToString cv.negPeak 3 12),
    cstr (E.tempToString cv.posPeak 3 12)]

/-- The shape that the claim gives to a report of the control state: the
type character, a colon, one object and a line feed. -/
def ClaimedObject (type : Char) (out : List Char) : Prop :=
  ∃ items, out = type :: ':' :: (objectBytes items ++ ['\n'])

/-- The key that `updateInputs` copies from the bytes before a colon: the
bytes 0xFF and 0, spaces, opening braces and double quotes are left out. -/
def simKey (k : List Char) : List Char :=
  k.filter (fun c => !(c == '\xff' || c == '\x00' || c == ' ' || c == '{' || c == '"'))

/-- The value that `updateInputs` copies from the bytes between a colon and
the terminator: the bytes 0xFF and 0, spaces and double quotes are left out. -/
def simVal (v : List Char) : List Char :=
  v.filter (fun c => !(c == '\xff' || c == '\x00' || c == ' ' || c == '"'))

/-- One pair is read by `updateInputs` and applied. -/
def simApplyPair (E : Ext) (b : Build) (s : Sys) (p : RawPair) : Sys :=
  simApply E b (simKey p.k) (simVal p.v) s

/-- The pairs are read by `updateInputs` and applied one after the other. -/
def simApplyPairs (E : Ext) (b : Build) (s : Sys) (ps : List RawPair) : Sys :=
  ps.foldl (simApplyPair E b) s

/-- A message for the simulator: a fridge volume and a heat power. -/
def demoSimMessage : List Char := "\x7b\"fv\":\"500\",\"h\":\"30\"\x7dt".toList

/-! ## Definitions for the statements about formats, bounds and the simulator -/

/-- The texts that a trace prints as names of pairs: the arguments of its
`print_P(name)` calls. -/
def keysWritten (tr : List Event) : List (List Char) :=
  tr.filterMap (fun e => match e with
    | .fmt [.lit name] => some name
    | _ => none)

/-- The keys of the report of the simulator settings, in the order of
`printSimulatorSettings`. -/
def simulatorReportKeys : List String :=
  ["rmi", "rmx", "fv", "bv", "sg", "f", "b", "fc", "bc", "h", "c", "ke", "kb", "d", "d", "n"]

/-- The number that a decimal text denotes, as numerator and number of
fraction digits: `(n, d)` stands for `n / 10 ^ d`.  The text is an optional
minus sign, digits, and optionally a point and digits. -/
def textValue (t : List Char) : Int × Nat :=
  let body := if t.head? = some '-' then t.tail else t
  let ip := body.takeWhile (fun c => c != '.')
  let fp := (body.dropWhile (fun c => c != '.')).tail
  let n : Int := (parseNat ip * 10 ^ fp.length + parseNat fp : Nat)
  (if t.head? = some '-' then -n else n, fp.length)

/-- A text denotes the value `l / 10 ^ 4`. -/
def Denotes (t : List Char) (l : Int) : Prop :=
  (textValue t).1 * 10 ^ 4 = l * 10 ^ (textValue t).2

instance (t : List Char) (l : Int) : Decidable (Denotes t l) := by
  unfold Denotes
  infer_instance

/-- An environment whose three formatters give back the number of decimals
that they are asked for, with a letter for the formatter (`t` for
`tempToString`, `f` for `fixedPointToString`, `d` for `tempDiffToString`);
everything else is as in `demoExt`. -/
def precisionExt : Ext :=
  { demoExt with
    tempToString := fun _ d _ => 't' :: decimal d
    fixedPointToString := fun _ d _ => 'f' :: decimal d
    tempDiffToString := fun _ d _ => 'd' :: decimal d }

/-- The bytes that a scanning loop of `receiveJson` leaves unread. -/
def Scan.rest : Scan → List Char
  | .ended _ _ rest _ => rest
  | .full rest _ => rest

/-- The outer loop of `receiveJson` (lines 481 to 536) with a bound on the
number of rounds: `none` when the bound is reached while bytes are still
available. -/
def receiveJsonRounds (E : Ext) (b : Build) :
    Nat → List Char → Char → Sys → Option (List Char × Sys)
  | _, [], _, s => some ([], s)
  | 0, _ :: _, _, _ => none
  | fuel + 1, c :: input, character, s =>
    match getKey E (c :: input) [] character s with
    | .full rest s => some (rest, s)
    | .ended key character rest s =>
      match getVal E rest [] character s with
      | .full rest s => some (rest, s)
      | .ended val character rest s =>
        let s := processJsonPair E b key val s
        if character = '}' then some (rest, lastPair E b s)
        else receiveJsonRounds E b fuel rest character s

/-- The state in which a scanning loop of `receiveJson` is left. -/
def Scan.sys : Scan → Sys
  | .ended _ _ _ s => s
  | .full _ s => s

/-- The indices of the buffer `key` that the key loop of `receiveJson`
(lines 483 to 502) writes, in order, when it starts with `index` and finds
the given bytes: one index for every byte copied, and the index of the
terminating NUL when the loop is left without `return`. -/
def getKeyWrites : List Char → Nat → List Nat
  | [], index => [index]
  | c :: rest, index =>
    if c = ':' then [index]
    else if c = ' ' ∨ c = '{' ∨ c = '"' then
      if index ≥ 29 then [] else getKeyWrites rest index
    else index :: (if index + 1 ≥ 29 then [] else getKeyWrites rest (index + 1))

/-- The indices of the buffer `val` that the value loop of `receiveJson`
(lines 504 to 523) writes. -/
def getValWrites : List Char → Nat → List Nat
  | [], index => [index]
  | c :: rest, index =>
    if c = ',' ∨ c = '}' then [index]
    else if c = ' ' ∨ c = '"' then
      if index ≥ 29 then [] else getValWrites rest index
    else index :: (if index + 1 ≥ 29 then [] else getValWrites rest (index + 1))

/-- The indices of the buffer `key` that the key loop of `updateInputs`
(lines 709 to 729) writes; the loop writes nothing more once it waits for a
byte that does not come. -/
def simGetKeyWrites : List Char → Nat → List Nat
  | [], _ => []
  | c :: rest, index =>
    if c = '\xff' ∨ c = '\x00' then simGetKeyWrites rest index
    else if c = ':' then [index]
    else if c = ' ' ∨ c = '{' ∨ c = '"' then
      if index ≥ 29 then [] else simGetKeyWrites rest index
    else index :: (if index + 1 ≥ 29 then [] else simGetKeyWrites rest (index + 1))

/-- The indices of the buffer `val` that the value loop of `updateInputs`
(lines 731 to 756) writes. -/
def simGetValWrites : List Char → Nat → List Nat
  | [], _ => []
  | c :: rest, index =>
    if c = '\xff' ∨ c = '\x00' then simGetValWrites rest index
    else if c = ',' ∨ c = '}' then [index]
    else if c = ' ' ∨ c = '"' then
      if index ≥ 29 then [] else simGetValWrites rest index
    else index :: (if index + 1 ≥ 29 then [] else simGetValWrites rest (index + 1))

/-- The keys of `processJsonPair` that only assign a setting or constant. -/
def plainKeys : List JsonKey :=
  [.heatEstimator, .coolEstimator, .tempSettingMin, .tempSettingMax, .Kp, .Ki, .Kd, .iMaxError,
    .idleRangeHigh, .idleRangeLow, .heatingTargetUpper, .heatingTargetLower,
    .coolingTargetUpper, .coolingTargetLower, .maxHeatTimeForEstimate,
    .maxCoolTimeForEstimate]

/-- The diagnostic `Could not process setting` of `processJsonPair`. -/
def Event.isCouldNot : Event → Bool
  | .fmt [.lit t] => t == "Could not process setting".toList
  | _ => false

/-- The concrete environment with temperatures written in fixed point units:
`stringToTemp` gives the number that the text holds. -/
def rawExt : Ext := { demoExt with stringToTemp := fun s => (parseNat s : Int) }

/-- The concrete state in profile mode with a beer setting of -32733 units
(about -63.9 degrees). -/
def demoProfile : Sys :=
  demoSys.setCs (fun cs => { cs with mode := 'p', beerSetting := -32733 })

/-- The conversion `int(x)` of a `double` to `int`: the fraction is cut off
(truncation towards zero).  `double`s are idealised as rational numbers. -/
def truncate (x : ℚ) : Int := if 0 ≤ x then ⌊x⌋ else ⌈x⌉

/-- The function `quantize` of `simulator.h`, with `double`s idealised as
rational numbers (no rounding error).  The result is `none` where C++ leaves
the conversion to `int` undefined: when the quantity is zero, or when the
quotient without its fraction does not fit the 16 bits of an `int`. -/
def quantize (value quantity : ℚ) : Option ℚ :=
  if quantity = 0 then none
  else if -32769 < (value + quantity / 2) / quantity ∧ (value + quantity / 2) / quantity < 32768
    then some (truncate ((value + quantity / 2) / quantity) * quantity)
  else none

/-- The method `hours` of the simulator: the simulation time, which is
counted in seconds, in hours.  `double`s are idealised as rational numbers. -/
def hours (time : Nat) : ℚ := (time : ℚ) / 3600

/-- The local variable `scale` of `beerFerment` after its chain of
comparisons on `days = hours() / 24`. -/
def beerFermentScale (time : Nat) : ℚ :=
  if hours time / 24 > 5 then 0
  else if hours time / 24 > 2 then 1 - ((hours time / 24 - 3) / 3)
  else if hours time / 24 > 1 then 1
  else 0

/-- The local variable `power` of `beerFerment`. -/
def beerFermentPower (time : Nat) (fermentPowerMax : ℚ) : ℚ :=
  beerFermentScale time * fermentPowerMax

/-- The method `beerFerment` of the simulator: the rise of the beer
temperature in one step.  The result is `none` for a heat capacity of zero,
where the rational idealisation has no quotient (the `double` division gives
an infinity or no number at all). -/
def beerFerment (time : Nat) (fermentPowerMax beerHeatCapacity : ℚ) : Option ℚ :=
  if beerHeatCapacity = 0 then none
  else some (beerFermentPower time fermentPowerMax / beerHeatCapacity)

/-! ## Running the model on examples -/

example : wire (printTemperatures demoExt plainBuild demoSys).trace
    = "T:\x7b\"bt\":19.14,\"bs\":19.0,\"ft\":17.77,\"fs\":18.0,\"s\":0,\"t\":61\x7d\n".toList := by
  decide

/-! # Theorems -/

/-! ## The temperature report -/

theorem since_append (s t : Sys) (d : List Event) (h : t.trace = s.trace ++ d) :
    since s t = d := by
  simp [since, h]

theorem reportBeerTemp_eq (E : Ext) (s : Sys) :
    reportBeerTemp E s =
      { s with
        tracker := { s.tracker with beerTemp := E.getBeerTemp s.tc }
        trace := s.trace ++
          (if E.getBeerTemp s.tc ≠ s.tracker.beerTemp then
            [.fmt [.lit (keyLit "bt"), .arg (cstr (E.tempToString (E.getBeerTemp s.tc) 2 9)), .lit [',']]]
          else []) } := by
  unfold reportBeerTemp changed print_P Sys.emit
  by_cases h : E.getBeerTemp s.tc = s.tracker.beerTemp <;> simp [h]

theorem reportBeerSet_eq (E : Ext) (s : Sys) :
    reportBeerSet E s =
      { s with
        tracker := { s.tracker with beerSet := E.getBeerSetting s.tc }
        trace := s.trace ++
          (if E.getBeerSetting s.tc ≠ s.tracker.beerSet then
            [.fmt [.lit (keyLit "bs"), .arg (cstr (E.tempToString (E.getBeerSetting s.tc) 2 9)),
              .lit [',']]]
          else []) } := by
  unfold reportBeerSet changed print_P Sys.emit
  by_cases h : E.getBeerSetting s.tc = s.tracker.beerSet <;> simp [h]

theorem reportFridgeTemp_eq (E : Ext) (s : Sys) :
    reportFridgeTemp E s =
      { s with
        tracker := { s.tracker with fridgeTemp := E.getFridgeTemp s.tc }
        trace := s.trace ++
          (if E.getFridgeTemp s.tc ≠ s.tracker.fridgeTemp then
            [.fmt [.lit (keyLit "ft"), .arg (cstr (E.tempToString (E.getFridgeTemp s.tc) 2 9)),
              .lit [',']]]
          else []) } := by
  unfold reportFridgeTemp changed print_P Sys.emit
  by_cases h : E.getFridgeTemp s.tc = s.tracker.fridgeTemp <;> simp [h]

theorem reportFridgeSet_eq (E : Ext) (s : Sys) :
    reportFridgeSet E s =
      { s with
        tracker := { s.tracker with fridgeSet := E.getFridgeSetting s.tc }
        trace := s.trace ++
          (if E.getFridgeSetting s.tc ≠ s.tracker.fridgeSet then
            [.fmt [.lit (keyLit "fs"), .arg (cstr (E.tempToString (E.getFridgeSetting s.tc) 2 9)),
              .lit [',']]]
          else []) } := by
  unfold reportFridgeSet changed print_P Sys.emit
  by_cases h : E.getFridgeSetting s.tc = s.tracker.fridgeSet <;> simp [h]

theorem reportState_eq (E : Ext) (s : Sys) :
    reportState E s =
      { s with
        tracker := { s.tracker with state := u8 (E.getState s.tc) }
        trace := s.trace ++
          (if u8 (E.getState s.tc) ≠ s.tracker.state then
            [.fmt [.lit (keyLit "s"), .arg (decimal (u8 (E.getState s.tc))), .lit [',']]]
          else []) } := by
  unfold reportState changed print_P Sys.emit
  by_cases h : u8 (E.getState s.tc) = s.tracker.state <;> simp [h]

/-- The events with which an annotation value is printed. -/
theorem printAnnValue_eq (a : Option Ann) (s : Sys) :
    printAnnValue a s =
      { s with trace := s.trace ++
          [match a with
            | none => .fmt [.lit "null,".toList]
            | some x => .fmt [.lit "\"".toList, .arg (cstr x.text), .lit "\",".toList]] } := by
  cases a <;> simp [printAnnValue, print_P, Sys.emit]

theorem reportBeerAnn_eq (a : Option Ann) (s : Sys) :
    reportBeerAnn a s =
      { s with
        tracker := { s.tracker with beerAnn := a.map Ann.addr }
        trace := s.trace ++
          (if a.map Ann.addr ≠ s.tracker.beerAnn then
            [.fmt [.lit (keyLit "ba")],
              match a with
              | none => .fmt [.lit "null,".toList]
              | some x => .fmt [.lit "\"".toList, .arg (cstr x.text), .lit "\",".toList]]
          else []) } := by
  unfold reportBeerAnn changed
  by_cases h : a.map Ann.addr = s.tracker.beerAnn <;>
    simp [h, printAnnValue_eq, print_P, Sys.emit]

theorem reportFridgeAnn_eq (a : Option Ann) (s : Sys) :
    reportFridgeAnn a s =
      { s with
        tracker := { s.tracker with fridgeAnn := a.map Ann.addr }
        trace := s.trace ++
          (if a.map Ann.addr ≠ s.tracker.fridgeAnn then
            [.fmt [.lit (keyLit "fa")],
              match a with
              | none => .fmt [.lit "null,".toList]
              | some x => .fmt [.lit "\"".toList, .arg (cstr x.text), .lit "\",".toList]]
          else []) } := by
  unfold reportFridgeAnn changed
  by_cases h : a.map Ann.addr = s.tracker.fridgeAnn <;>
    simp [h, printAnnValue_eq, print_P, Sys.emit]

theorem printDouble_eq (E : Ext) (v : Dbl) (s : Sys) :
    printDouble E v s = { s with trace := s.trace ++ doubleEvents (E.scale10000 v) } := by
  unfold printDouble printDoubleScaled doubleEvents Sys.emit
  by_cases h : Int.tmod (E.scale10000 v) 10000 = 0 <;> simp [h]

theorem reportRoomTemp_eq (E : Ext) (b : Build) (s : Sys) :
    reportRoomTemp E b s =
      { s with
        tracker := { s.tracker with
          roomTemp := if b.simulate then s.sim.roomTemp E else s.tracker.roomTemp }
        trace := s.trace ++
          (if b.simulate = true ∧ E.dne (s.sim.roomTemp E) s.tracker.roomTemp = true then
            [.fmt [.lit ['"', 'r', 't', '"']], .chr ':'] ++
              doubleEvents (E.scale10000 (s.sim.roomTemp E)) ++ [.chr ',']
          else []) } := by
  unfold reportRoomTemp changedDbl
  by_cases hb : b.simulate = true
  · by_cases h : E.dne (s.sim.roomTemp E) s.tracker.roomTemp = true <;>
      simp [hb, h, printDouble_eq, print_P, Sys.emit]
  · simp [hb]

theorem printTemperaturesJSON_eq (E : Ext) (b : Build) (ba fa : Option Ann) (s : Sys) :
    printTemperaturesJSON E b ba fa s =
      { s with
        firstPair := false
        tracker := trackerAfter E b ba fa s
        trace := s.trace ++ reportEvents E b ba fa s } := by
  unfold printTemperaturesJSON reportTime
  simp only [reportBeerTemp_eq, reportBeerSet_eq, reportBeerAnn_eq, reportFridgeTemp_eq,
    reportFridgeSet_eq, reportFridgeAnn_eq, reportRoomTemp_eq, reportState_eq, printResponse,
    print_P, Sys.emit, reportEvents, trackerAfter, tempEvents, annEvents]
  congr 1
  simp only [List.append_assoc, List.cons_append, List.nil_append, List.singleton_append, ne_eq,
    ite_not]

theorem since_report (E : Ext) (b : Build) (ba fa : Option Ann) (s : Sys) :
    since s (printTemperaturesJSON E b ba fa s) = reportEvents E b ba fa s := by
  apply since_append
  rw [printTemperaturesJSON_eq]

theorem doubleEvents_startsWith (l : Int) (k : List Char) :
    (doubleEvents l).any (Event.startsWith k) = false := by
  unfold doubleEvents
  by_cases h : Int.tmod l 10000 = 0 <;> simp [h, Event.startsWith]

theorem annEvents_startsWith (name : String) (a : Option Ann) (k : List Char)
    (h1 : (keyLit name == k) = false) (h2 : ("null,".toList == k) = false)
    (h3 : ("\"".toList == k) = false) :
    (annEvents name a).any (Event.startsWith k) = false := by
  cases a <;> simp_all [annEvents, Event.startsWith]

/-- Claim C1. For each numeric tracked field of the temperature report (`bt`,
`bs`, `ft`, `fs`, `s`), for every tracker state, control state, build and pair
of annotation arguments, `printTemperaturesJSON` writes the key of the field
if and only if the current value differs from the value that the tracker
holds, and after the call the tracker holds the current value, whether or not
the key was written. -/
theorem printTemperaturesJSON_numeric_fields (E : Ext) (b : Build) (ba fa : Option Ann)
    (s : Sys) :
    ((writesKey "bt" (since s (printTemperaturesJSON E b ba fa s)) = true ↔
        E.getBeerTemp s.tc ≠ s.tracker.beerTemp) ∧
      (printTemperaturesJSON E b ba fa s).tracker.beerTemp = E.getBeerTemp s.tc) ∧
    ((writesKey "bs" (since s (printTemperaturesJSON E b ba fa s)) = true ↔
        E.getBeerSetting s.tc ≠ s.tracker.beerSet) ∧
      (printTemperaturesJSON E b ba fa s).tracker.beerSet = E.getBeerSetting s.tc) ∧
    ((writesKey "ft" (since s (printTemperaturesJSON E b ba fa s)) = true ↔
        E.getFridgeTemp s.tc ≠ s.tracker.fridgeTemp) ∧
      (printTemperaturesJSON E b ba fa s).tracker.fridgeTemp = E.getFridgeTemp s.tc) ∧
    ((writesKey "fs" (since s (printTemperaturesJSON E b ba fa s)) = true ↔
        E.getFridgeSetting s.tc ≠ s.tracker.fridgeSet) ∧
      (printTemperaturesJSON E b ba fa s).tracker.fridgeSet = E.getFridgeSetting s.tc) ∧
    ((writesKey "s" (since s (printTemperaturesJSON E b ba fa s)) = true ↔
        u8 (E.getState s.tc) ≠ s.tracker.state) ∧
      (printTemperaturesJSON E b ba fa s).tracker.state = u8 (E.getState s.tc)) := by
  rw [since_report]
  have hba : ∀ k, (keyLit "ba" == k) = false → ("null,".toList == k) = false →
      ("\"".toList == k) = false →
      (annEvents "ba" ba).any (Event.startsWith k) = false :=
    fun k => annEvents_startsWith "ba" ba k
  have hfa : ∀ k, (keyLit "fa" == k) = false → ("null,".toList == k) = false →
      ("\"".toList == k) = false →
      (annEvents "fa" fa).any (Event.startsWith k) = false :=
    fun k => annEvents_startsWith "fa" fa k
  refine ⟨⟨?_, by simp [printTemperaturesJSON_eq, trackerAfter]⟩,
    ⟨?_, by simp [printTemperaturesJSON_eq, trackerAfter]⟩,
    ⟨?_, by simp [printTemperaturesJSON_eq, trackerAfter]⟩,
    ⟨?_, by simp [printTemperaturesJSON_eq, trackerAfter]⟩,
    ⟨?_, by simp [printTemperaturesJSON_eq, trackerAfter]⟩⟩
  all_goals
    simp only [writesKey, reportEvents, tempEvents, List.any_append]
    rw [apply_ite (List.any · _), apply_ite (List.any · _), apply_ite (List.any · _),
      apply_ite (List.any · _), apply_ite (List.any · _), apply_ite (List.any · _),
      apply_ite (List.any · _), apply_ite (List.any · _)]
    simp only [List.any_append, doubleEvents_startsWith]
    rw [hba _ (by decide) (by decide) (by decide), hfa _ (by decide) (by decide) (by decide)]
    simp [Event.startsWith, keyLit]

/-- Two reports in a row between which only the fridge setting changed: the
second one writes `fs` and leaves out `bt`, `bs` and `ft`. -/
theorem printTemperaturesJSON_numeric_fields_witness :
    writesKey "fs" (since demoSecond (printTemperaturesJSON demoExt plainBuild none none demoSecond))
        = true ∧
      writesKey "bt" (since demoSecond (printTemperaturesJSON demoExt plainBuild none none demoSecond))
        = false ∧
      writesKey "bs" (since demoSecond (printTemperaturesJSON demoExt plainBuild none none demoSecond))
        = false ∧
      writesKey "ft" (since demoSecond (printTemperaturesJSON demoExt plainBuild none none demoSecond))
        = false :=
  have h := printTemperaturesJSON_numeric_fields demoExt plainBuild none none demoSecond
  ⟨h.2.2.2.1.1.mpr (by decide),
    Bool.eq_false_iff.mpr (fun hw => h.1.1.mp hw (by decide)),
    Bool.eq_false_iff.mpr (fun hw => h.2.1.1.mp hw (by decide)),
    Bool.eq_false_iff.mpr (fun hw => h.2.2.1.1.mp hw (by decide))⟩

theorem toDigitsCore_forall (P : Char → Prop) (hP : ∀ d, d < 10 → P (Nat.digitChar d)) :
    ∀ (fuel n : Nat) (ds : List Char), (∀ c ∈ ds, P c) →
      ∀ c ∈ Nat.toDigitsCore 10 fuel n ds, P c := by
  intro fuel
  induction fuel with
  | zero => intro n ds hds c hc; simpa [Nat.toDigitsCore] using hds c hc
  | succ f ih =>
    intro n ds hds c hc
    have hd : ∀ x ∈ Nat.digitChar (n % 10) :: ds, P x := by
      intro x hx
      rcases List.mem_cons.mp hx with rfl | hx
      · exact hP _ (Nat.mod_lt _ (by decide))
      · exact hds x hx
    simp only [Nat.toDigitsCore] at hc
    split at hc
    · exact hd c hc
    · exact ih _ _ hd c hc

theorem decimal_ne_nul (n : Nat) : ∀ c ∈ decimal n, c ≠ '\x00' := by
  intro c hc
  exact toDigitsCore_forall (fun c => c ≠ '\x00') (by decide) _ _ [] (by simp) c hc

theorem decimal_length_le (n e : Nat) (h : n < 10 ^ e) (he : 0 < e) :
    (decimal n).length ≤ e :=
  Nat.toDigitsCore_length 10 (by decide) (n + 1) n e h he

theorem cstr_eq_self (l : List Char) (h : ∀ c ∈ l, c ≠ '\x00') : cstr l = l := by
  unfold cstr
  rw [List.takeWhile_eq_self_iff]
  intro c hc
  simpa using h c hc

/-- Claim C2. In a single-zone build without the simulator, when
`printTemperatures` is called in a state whose tracker is the one that a
previous call left, and the controller returns the same beer temperature, beer
setting, fridge temperature, fridge setting and state as at that call, the
bytes written are `T:`, an opening brace, the time field `"t":<seconds>`, a
closing brace and one line feed: the time field is the only key. -/
theorem printTemperatures_twice (E : Ext) (b : Build) (s s2 : Sys)
    (hm : b.multichamber = false) (hs : b.simulate = false)
    (htr : s2.tracker = (printTemperatures E b s).tracker)
    (h1 : E.getBeerTemp s2.tc = E.getBeerTemp s.tc)
    (h2 : E.getBeerSetting s2.tc = E.getBeerSetting s.tc)
    (h3 : E.getFridgeTemp s2.tc = E.getFridgeTemp s.tc)
    (h4 : E.getFridgeSetting s2.tc = E.getFridgeSetting s.tc)
    (h5 : E.getState s2.tc = E.getState s.tc) :
    wire (since s2 (printTemperatures E b s2)) =
      ['T', ':', '{', '"', 't', '"', ':'] ++ decimal (u32 s2.millis / 1000) ++ ['}', '\n'] := by
  unfold printTemperatures at htr ⊢
  rw [since_report]
  rw [printTemperaturesJSON_eq] at htr
  have hlen : (decimal (u32 s2.millis / 1000)).length ≤ 7 := by
    apply decimal_length_le _ _ _ (by decide)
    unfold u32
    omega
  have hnul := decimal_ne_nul (u32 s2.millis / 1000)
  have hfmt : fmtBytes [.lit (keyLit "t"), .arg (decimal (u32 s2.millis / 1000)),
      .lit ['}', '\n']] = ['"', 't', '"', ':'] ++ decimal (u32 s2.millis / 1000) ++ ['}', '\n'] := by
    unfold fmtBytes
    have hk : keyLit "t" = ['"', 't', '"', ':'] := by decide
    simp only [List.map, Piece.chars, List.flatten, hk, List.append_nil]
    rw [List.take_of_length_le (by simp; omega)]
    apply cstr_eq_self
    intro c hc
    simp only [List.mem_append, List.mem_cons, List.mem_singleton, List.not_mem_nil, or_false] at hc
    rcases hc with (h | h | h | h) | h | h | h
    all_goals first | exact hnul c h | (subst h; decide)
  simp [reportEvents, trackerAfter, htr, h1, h2, h3, h4, h5, hm, hs, wire, Event.bytes, hfmt]

/-- A second report, 75 seconds after start-up, with nothing changed. -/
theorem printTemperatures_twice_witness :
    wire (since demoLater (printTemperatures demoExt plainBuild demoLater))
      = "T:\x7b\"t\":75\x7d\n".toList :=
  printTemperatures_twice demoExt plainBuild demoSys demoLater rfl rfl (by decide) (by decide)
    (by decide) (by decide) (by decide) (by decide)

/-! ## The scanning loops of `receiveJson` -/

theorem waits_succ (E : Ext) (n : Nat) (s : Sys) :
    waits E (n + 1) s = waits E n (waitMillis E 1 s) := rfl

theorem waits_add (E : Ext) (m n : Nat) (s : Sys) :
    waits E (m + n) s = waits E n (waits E m s) := by
  induction m generalizing s with
  | zero => simp [waits]
  | succ m ih => rw [Nat.add_right_comm, waits_succ, ih, waits_succ]

theorem specKey_cons (c : Char) (k : List Char) :
    specKey (c :: k) = if c = ' ' ∨ c = '{' ∨ c = '"' then specKey k else c :: specKey k := by
  unfold specKey
  by_cases h : c = ' ' ∨ c = '{' ∨ c = '"'
  · rcases h with h | h | h <;> simp [h, List.filter_cons]
  · have h' := h
    simp only [not_or] at h'
    simp [List.filter_cons, h, h'.1, h'.2.1, h'.2.2]

theorem specVal_cons (c : Char) (v : List Char) :
    specVal (c :: v) = if c = ' ' ∨ c = '"' then specVal v else c :: specVal v := by
  unfold specVal
  by_cases h : c = ' ' ∨ c = '"'
  · rcases h with h | h <;> simp [h, List.filter_cons]
  · have h' := h
    simp only [not_or] at h'
    simp [List.filter_cons, h, h'.1, h'.2]

/-- A key that ends with its colon before the buffer is full. -/
theorem getKey_colon (E : Ext) (rest : List Char) :
    ∀ (k acc : List Char) (character : Char) (s : Sys), ':' ∉ k →
      (acc ++ specKey k).length < 29 →
      getKey E (k ++ ':' :: rest) acc character s =
        .ended (acc ++ specKey k) ':' rest (waits E (k.length + 1) s) := by
  intro k
  induction k with
  | nil => intro acc character s _ _; simp [getKey, specKey, waits]
  | cons c k ih =>
    intro acc character s hk hlen
    have hc : c ≠ ':' := fun h => hk (by simp [h])
    have hk' : ':' ∉ k := fun h => hk (List.mem_cons_of_mem _ h)
    rw [specKey_cons] at hlen
    rw [List.cons_append, getKey, if_neg hc]
    by_cases hskip : c = ' ' ∨ c = '{' ∨ c = '"'
    · simp only [hskip, if_true] at hlen ⊢
      have h29 : ¬ acc.length ≥ 29 := by simp at hlen; omega
      rw [if_neg h29, ih acc c _ hk' hlen, specKey_cons, if_pos hskip]
      simp [waits_succ]
    · simp only [hskip, if_false] at hlen ⊢
      have h29 : ¬ (acc ++ [c]).length ≥ 29 := by simp at hlen ⊢; omega
      rw [if_neg h29, ih (acc ++ [c]) c _ hk' (by simpa using hlen), specKey_cons,
        if_neg hskip]
      simp [waits_succ]

/-- A value that ends with its terminator before the buffer is full. -/
theorem getVal_terminator (E : Ext) (t : Char) (ht : t = ',' ∨ t = '}') (rest : List Char) :
    ∀ (v acc : List Char) (character : Char) (s : Sys), ',' ∉ v → '}' ∉ v →
      (acc ++ specVal v).length < 29 →
      getVal E (v ++ t :: rest) acc character s =
        .ended (acc ++ specVal v) t rest (waits E (v.length + 1) s) := by
  intro v
  induction v with
  | nil => intro acc character s _ _ _; simp [getVal, specVal, waits, ht]
  | cons c v ih =>
    intro acc character s hv1 hv2 hlen
    have hc : ¬ (c = ',' ∨ c = '}') := by
      rintro (h | h)
      · exact hv1 (by simp [h])
      · exact hv2 (by simp [h])
    have hv1' : ',' ∉ v := fun h => hv1 (List.mem_cons_of_mem _ h)
    have hv2' : '}' ∉ v := fun h => hv2 (List.mem_cons_of_mem _ h)
    rw [specVal_cons] at hlen
    rw [List.cons_append, getVal, if_neg hc]
    by_cases hskip : c = ' ' ∨ c = '"'
    · simp only [hskip, if_true] at hlen ⊢
      have h29 : ¬ acc.length ≥ 29 := by simp at hlen; omega
      rw [if_neg h29, ih acc c _ hv1' hv2' hlen, specVal_cons, if_pos hskip]
      simp [waits_succ]
    · simp only [hskip, if_false] at hlen ⊢
      have h29 : ¬ (acc ++ [c]).length ≥ 29 := by simp at hlen ⊢; omega
      rw [if_neg h29, ih (acc ++ [c]) c _ hv1' hv2' (by simpa using hlen), specVal_cons,
        if_neg hskip]
      simp [waits_succ]

/-- The key loop does not look at the byte read before it starts. -/
theorem getKey_character (E : Ext) (input acc : List Char) (c1 c2 : Char) (s : Sys)
    (h : input ≠ []) : getKey E input acc c1 s = getKey E input acc c2 s := by
  cases input with
  | nil => exact absurd rfl h
  | cons c rest => simp [getKey]

/-- The key loop leaves a suffix of its input, a shorter one when the input
is not empty. -/
theorem getKey_rest (E : Ext) :
    ∀ (input acc : List Char) (character : Char) (s : Sys) (key : List Char) (ch : Char)
      (rest : List Char) (t : Sys),
      getKey E input acc character s = .ended key ch rest t →
        rest.length ≤ input.length ∧ (input ≠ [] → rest.length < input.length) := by
  intro input
  induction input with
  | nil =>
    intro acc character s key ch rest t h
    simp only [getKey, Scan.ended.injEq] at h
    simp [← h.2.2.1]
  | cons c input ih =>
    intro acc character s key ch rest t h
    rw [getKey] at h
    by_cases hc : c = ':'
    · simp only [hc, if_true, Scan.ended.injEq] at h
      simp [← h.2.2.1]
    · rw [if_neg hc] at h
      dsimp only at h
      generalize (if c = ' ' ∨ c = '{' ∨ c = '"' then acc else acc ++ [c]) = key' at h
      by_cases h29 : key'.length ≥ 29
      · rw [if_pos h29] at h
        exact absurd h (by simp)
      · rw [if_neg h29] at h
        have := (ih _ _ _ _ _ _ _ h).1
        simp only [List.length_cons]
        exact ⟨by omega, fun _ => by omega⟩

/-- The value loop leaves a suffix of its input. -/
theorem getVal_rest (E : Ext) :
    ∀ (input acc : List Char) (character : Char) (s : Sys) (val : List Char) (ch : Char)
      (rest : List Char) (t : Sys),
      getVal E input acc character s = .ended val ch rest t → rest.length ≤ input.length := by
  intro input
  induction input with
  | nil =>
    intro acc character s val ch rest t h
    simp only [getVal, Scan.ended.injEq] at h
    simp [← h.2.2.1]
  | cons c input ih =>
    intro acc character s val ch rest t h
    rw [getVal] at h
    by_cases hc : c = ',' ∨ c = '}'
    · simp only [hc, if_true, Scan.ended.injEq] at h
      simp [← h.2.2.1]
    · rw [if_neg hc] at h
      dsimp only at h
      generalize (if c = ' ' ∨ c = '"' then acc else acc ++ [c]) = val' at h
      by_cases h29 : val'.length ≥ 29
      · rw [if_pos h29] at h
        exact absurd h (by simp)
      · rw [if_neg h29] at h
        have := ih _ _ _ _ _ _ _ h
        simp only [List.length_cons]
        omega

/-- Rounds beyond the number of available bytes, and the byte read before the
loop starts, make no difference to the outer loop. -/
theorem receiveJsonLoop_fuel (E : Ext) (b : Build) :
    ∀ (f1 f2 : Nat) (input : List Char) (c1 c2 : Char) (s : Sys),
      input.length ≤ f1 → input.length ≤ f2 →
      receiveJsonLoop E b f1 input c1 s = receiveJsonLoop E b f2 input c2 s := by
  intro f1
  induction f1 with
  | zero =>
    intro f2 input c1 c2 s h1 _
    have : input = [] := List.length_eq_zero.mp (by omega)
    subst this
    cases f2 <;> simp [receiveJsonLoop]
  | succ f1 ih =>
    intro f2 input c1 c2 s h1 h2
    cases f2 with
    | zero =>
      have : input = [] := List.length_eq_zero.mp (by omega)
      subst this
      simp [receiveJsonLoop]
    | succ f2 =>
      rw [receiveJsonLoop, receiveJsonLoop]
      by_cases hin : input = []
      · simp [hin]
      · simp only [hin, if_false]
        rw [getKey_character E input [] c1 c2 s hin]
        cases hk : getKey E input [] c2 s with
        | full rest t => rfl
        | ended key ch rest t =>
          have hr := (getKey_rest E _ _ _ _ _ _ _ _ hk).2 hin
          simp only
          cases hv : getVal E rest [] ch t with
          | full rest2 t2 => rfl
          | ended val ch2 rest2 t2 =>
            have hr2 := getVal_rest E _ _ _ _ _ _ _ _ hv
            simp only
            split
            · rfl
            · exact ih _ _ _ _ _ (by omega) (by omega)

theorem receiveJsonPairs_nil (E : Ext) (b : Build) (s : Sys) :
    receiveJsonPairs E b [] s = ([], s) := by
  simp [receiveJsonPairs, receiveJsonLoop]

/-- One round of the outer loop over a pair that fits the buffers. -/
theorem receiveJsonPairs_pair (E : Ext) (b : Build) (p : RawPair) (t : Char)
    (rest : List Char) (s : Sys) (hp : p.fits) (ht : t = ',' ∨ t = '}') :
    receiveJsonPairs E b (p.bytes t ++ rest) s =
      if t = '}' then (rest, lastPair E b (applyPair E b s p))
      else receiveJsonPairs E b rest (applyPair E b s p) := by
  obtain ⟨hk, hv1, hv2, hkl, hvl⟩ := hp
  have hne : p.bytes t ++ rest ≠ [] := by
    cases hpk : p.k <;> simp [RawPair.bytes, hpk]
  have hlen : (p.bytes t ++ rest).length = (p.k.length + p.v.length + 1 + rest.length) + 1 := by
    simp [RawPair.bytes]; omega
  unfold receiveJsonPairs
  rw [hlen, receiveJsonLoop, if_neg hne]
  have hb : p.bytes t ++ rest = p.k ++ ':' :: (p.v ++ t :: rest) := by
    simp [RawPair.bytes]
  rw [hb, getKey_colon E _ p.k [] _ s hk (by simpa using hkl)]
  simp only
  rw [getVal_terminator E t ht rest p.v [] _ _ hv1 hv2 (by simpa using hvl)]
  simp only [List.nil_append]
  have hw : waits E (p.v.length + 1) (waits E (p.k.length + 1) s)
      = waits E (p.k.length + p.v.length + 2) s := by
    rw [← waits_add]; congr 1; omega
  rw [hw]
  by_cases h : t = '}'
  · simp [h, applyPair]
  · simp only [h, if_false]
    exact receiveJsonLoop_fuel E b _ _ _ _ _ _ (by omega) (le_refl _)

theorem Loud.chr {r : Event → Bool} (h : Loud r) (c : Char) : r (.chr c) = false := h _ rfl
theorem Loud.str {r : Event → Bool} (h : Loud r) (x : List Char) : r (.str x) = false := h _ rfl
theorem Loud.fmt {r : Event → Bool} (h : Loud r) (ps : List Piece) : r (.fmt ps) = false :=
  h _ rfl
theorem Loud.wait {r : Event → Bool} (h : Loud r) (n : Nat) : r (.wait n) = false := h _ rfl
theorem Loud.setMode {r : Event → Bool} (h : Loud r) (c : Char) : r (.setMode c) = false :=
  h _ rfl
theorem Loud.printStationaryText {r : Event → Bool} (h : Loud r) :
    r .printStationaryText = false := h _ rfl
theorem Loud.setFilter {r : Event → Bool} (h : Loud r) (x : Sensor) (k : FilterKind) (n : Nat) :
    r (.setFilter x k n) = false := h _ rfl
theorem Loud.responseD {r : Event → Bool} (h : Loud r) (z : Option Char) :
    r (.response 'D' z) = false := h _ rfl
theorem Loud.responseT {r : Event → Bool} (h : Loud r) (z : Option Char) :
    r (.response 'T' z) = false := h _ rfl

theorem countP_ite_nil (r : Event → Bool) (c : Prop) [Decidable c] (l : List Event)
    (h : l.countP r = 0) : (if c then l else []).countP r = 0 := by
  split <;> simp [h]

theorem doubleEvents_countP {r : Event → Bool} (h : Loud r) (l : Int) :
    (doubleEvents l).countP r = 0 := by
  unfold doubleEvents
  split <;> simp [List.countP_cons, h.chr, h.fmt]

theorem annEvents_countP {r : Event → Bool} (h : Loud r) (name : String) (a : Option Ann) :
    (annEvents name a).countP r = 0 := by
  cases a <;> simp [annEvents, List.countP_cons, h.fmt]

theorem reportEvents_countP {r : Event → Bool} (h : Loud r) (E : Ext) (b : Build)
    (ba fa : Option Ann) (s : Sys) : (reportEvents E b ba fa s).countP r = 0 := by
  unfold reportEvents
  simp only [List.countP_append]
  rw [countP_ite_nil r _ _ (by simp [tempEvents, List.countP_cons, h.fmt]),
    countP_ite_nil r _ _ (by simp [tempEvents, List.countP_cons, h.fmt]),
    countP_ite_nil r _ _ (annEvents_countP h _ _),
    countP_ite_nil r _ _ (by simp [tempEvents, List.countP_cons, h.fmt]),
    countP_ite_nil r _ _ (by simp [tempEvents, List.countP_cons, h.fmt]),
    countP_ite_nil r _ _ (annEvents_countP h _ _),
    countP_ite_nil r _ _ (by
      simp [List.countP_append, List.countP_cons, h.fmt, h.chr, doubleEvents_countP h]),
    countP_ite_nil r _ _ (by simp [List.countP_cons, h.fmt])]
  simp [List.countP_cons, h.fmt, h.chr, h.responseT]

theorem printTemperaturesJSON_countP {r : Event → Bool} (h : Loud r) (E : Ext) (b : Build)
    (ba fa : Option Ann) (s : Sys) :
    (printTemperaturesJSON E b ba fa s).trace.countP r = s.trace.countP r := by
  rw [printTemperaturesJSON_eq]
  simp [List.countP_append, reportEvents_countP h]

theorem debugMessage_countP {r : Event → Bool} (h : Loud r) (b : Build) (ps : List Piece)
    (s : Sys) : (debugMessage b ps s).trace.countP r = s.trace.countP r := by
  simp [debugMessage, printResponse, Sys.emit, List.countP_append, List.countP_cons, h.fmt,
    h.chr, h.responseD]

theorem printFridgeAnnotation_countP {r : Event → Bool} (h : Loud r) (E : Ext) (b : Build)
    (ps : List Piece) (s : Sys) :
    ( printFridgeAnnotation E b ps s).trace.countP r = s.trace.countP r :=
  printTemperaturesJSON_countP h E b _ _ s

theorem printBeerAnnotation_countP {r : Event → Bool} (h : Loud r) (E : Ext) (b : Build)
    (ps : List Piece) (s : Sys) :
    ( printBeerAnnotation E b ps s).trace.countP r = s.trace.countP r :=
  printTemperaturesJSON_countP h E b _ _ s

theorem setCs_trace (s : Sys) (f : ControlSettings → ControlSettings) :
    (s.setCs f).trace = s.trace := rfl

theorem setCc_trace (s : Sys) (f : ControlConstants → ControlConstants) :
    (s.setCc f).trace = s.trace := rfl

theorem emit_trace (s : Sys) (e : Event) : (s.emit e).trace = s.trace ++ [e] := rfl

theorem countP_snoc_quiet {r : Event → Bool} (l : List Event) (e : Event) (h : r e = false) :
    (l ++ [e]).countP r = l.countP r := by
  simp [List.countP_append, List.countP_cons, h]

theorem ite_countP {r : Event → Bool} (c : Prop) [Decidable c] (x y : Sys) (n : Nat)
    (hx : x.trace.countP r = n) (hy : y.trace.countP r = n) :
    (if c then x else y).trace.countP r = n := by
  split <;> assumption

theorem applySetting_countP {r : Event → Bool} (h : Loud r) (E : Ext) (b : Build)
    (key val : List Char) (s : Sys) :
    (applySetting E b key val s).trace.countP r = s.trace.countP r := by
  unfold applySetting
  repeat' apply ite_countP
  all_goals
    first
    | rfl
    | simp only [setCs_trace, setCc_trace, emit_trace, printFridgeAnnotation_countP h,
        printBeerAnnotation_countP h, debugMessage_countP h,
        countP_snoc_quiet _ _ (h.setMode _), countP_snoc_quiet _ _ h.printStationaryText,
        countP_snoc_quiet _ _ (h.setFilter _ _ _)]

theorem processJsonPair_countP {r : Event → Bool} (h : Loud r) (E : Ext) (b : Build)
    (key val : List Char) (s : Sys) :
    (processJsonPair E b key val s).trace.countP r = s.trace.countP r := by
  rw [processJsonPair, applySetting_countP h, debugMessage_countP h]

theorem waitMillis_countP {r : Event → Bool} (h : Loud r) (E : Ext) (n : Nat) (s : Sys) :
    (waitMillis E n s).trace.countP r = s.trace.countP r := by
  simp [waitMillis, Sys.emit, List.countP_append, List.countP_cons, h.wait]

theorem waits_countP {r : Event → Bool} (h : Loud r) (E : Ext) (n : Nat) (s : Sys) :
    (waits E n s).trace.countP r = s.trace.countP r := by
  induction n generalizing s with
  | zero => rfl
  | succ n ih => rw [waits_succ, ih, waitMillis_countP h]

theorem applyPair_countP {r : Event → Bool} (h : Loud r) (E : Ext) (b : Build) (s : Sys)
    (p : RawPair) : (applyPair E b s p).trace.countP r = s.trace.countP r := by
  rw [applyPair, processJsonPair_countP h, waits_countP h]

theorem applyPairs_countP {r : Event → Bool} (h : Loud r) (E : Ext) (b : Build)
    (ps : List RawPair) (s : Sys) : (applyPairs E b s ps).trace.countP r = s.trace.countP r := by
  induction ps generalizing s with
  | nil => rfl
  | cons p ps ih =>
    simp only [applyPairs, List.foldl_cons] at ih ⊢
    rw [ih, applyPair_countP h]

theorem printJsonName_countP {r : Event → Bool} (h : Plain r) (name : List Char) (s : Sys) :
    (printJsonName name s).trace.countP r = s.trace.countP r := by
  simp [printJsonName, printJsonSeparator, print_P, Sys.emit, List.countP_append,
    List.countP_cons, h.1, h.2.2]

theorem sendJsonPairStr_countP {r : Event → Bool} (h : Plain r) (name val : List Char)
    (s : Sys) : (sendJsonPairStr name val s).trace.countP r = s.trace.countP r := by
  simp [sendJsonPairStr, Sys.emit, List.countP_append, List.countP_cons, h.2.1,
    printJsonName_countP h]

theorem sendJsonPairChar_countP {r : Event → Bool} (h : Plain r) (name : List Char)
    (val : Char) (s : Sys) : (sendJsonPairChar name val s).trace.countP r = s.trace.countP r := by
  simp [sendJsonPairChar, Sys.emit, List.countP_append, List.countP_cons, h.1,
    printJsonName_countP h]

theorem sendJsonPairU16_countP {r : Event → Bool} (h : Plain r) (name : List Char)
    (val : Nat) (s : Sys) : (sendJsonPairU16 name val s).trace.countP r = s.trace.countP r := by
  simp [sendJsonPairU16, print_P, Sys.emit, List.countP_append, List.countP_cons, h.2.2,
    printJsonName_countP h]

theorem sendJsonPairU8_countP {r : Event → Bool} (h : Plain r) (name : List Char)
    (val : Nat) (s : Sys) : (sendJsonPairU8 name val s).trace.countP r = s.trace.countP r := by
  simp [sendJsonPairU8, sendJsonPairU16_countP h]

theorem sendJsonClose_countP {r : Event → Bool} (h : Plain r) (s : Sys) :
    (sendJsonClose s).trace.countP r = s.trace.countP r := by
  simp [sendJsonClose, Sys.emit, List.countP_append, List.countP_cons, h.1]

theorem printResponse_countP (r : Event → Bool) (b : Build) (type : Char) (s : Sys) :
    (printResponse b type s).trace.countP r =
      s.trace.countP r + if r (.response type (zoneChar b s)) = true then 1 else 0 := by
  simp [printResponse, zoneChar, Sys.emit, List.countP_append, List.countP_cons]

theorem sendControlSettings_countP {r : Event → Bool} (h : Plain r) (E : Ext) (b : Build)
    (s : Sys) :
    (sendControlSettings E b s).trace.countP r =
      s.trace.countP r + if r (.response 'S' (zoneChar b s)) = true then 1 else 0 := by
  simp only [sendControlSettings, sendJsonClose_countP h, sendJsonPairStr_countP h,
    sendJsonPairChar_countP h, printResponse_countP]

theorem sendControlConstants_countP {r : Event → Bool} (h : Plain r) (E : Ext) (b : Build)
    (s : Sys) :
    (sendControlConstants E b s).trace.countP r =
      s.trace.countP r + if r (.response 'C' (zoneChar b s)) = true then 1 else 0 := by
  simp only [sendControlConstants, sendJsonClose_countP h, sendJsonPairStr_countP h,
    sendJsonPairChar_countP h, sendJsonPairU16_countP h, sendJsonPairU8_countP h,
    printResponse_countP]

theorem sendControlSettings_chamber (E : Ext) (b : Build) (s : Sys) :
    (sendControlSettings E b s).chamber = s.chamber := by
  simp [sendControlSettings, sendJsonClose, sendJsonPairStr, sendJsonPairChar, printJsonName,
    printJsonSeparator, print_P, printResponse, Sys.emit]

theorem lastPair_countP {r : Event → Bool} (h : Plain r) (E : Ext) (b : Build) (s : Sys) :
    (lastPair E b s).trace.countP r =
      s.trace.countP r + (if r .storeSettings = true then 1 else 0) +
        (if r .storeConstants = true then 1 else 0) +
        (if b.simulate = true then 0
          else (if r (.response 'S' (zoneChar b s)) = true then 1 else 0) +
            (if r (.response 'C' (zoneChar b s)) = true then 1 else 0)) := by
  unfold lastPair
  have hz : zoneChar b (sendControlSettings E b ((s.emit .storeSettings).emit .storeConstants))
      = zoneChar b s := by
    simp [zoneChar, sendControlSettings_chamber, Sys.emit]
  have hz' : zoneChar b ((s.emit .storeSettings).emit .storeConstants) = zoneChar b s := by
    simp [zoneChar, Sys.emit]
  by_cases hs : b.simulate = true
  · simp [hs, Sys.emit, List.countP_append, List.countP_cons]
    omega
  · simp only [hs, if_false, Bool.false_eq_true, sendControlConstants_countP h,
      sendControlSettings_countP h, hz, hz']
    simp [Sys.emit, List.countP_append, List.countP_cons]
    omega

/-- Pairs that fit the buffers and end with a comma are handed over one
after the other. -/
theorem receiveJsonPairs_commaPairs (E : Ext) (b : Build) (rest : List Char) :
    ∀ (ps : List RawPair) (s : Sys), (∀ q ∈ ps, q.fits) →
      receiveJsonPairs E b (commaPairs ps ++ rest) s =
        receiveJsonPairs E b rest (applyPairs E b s ps) := by
  intro ps
  induction ps with
  | nil => intro s _; rfl
  | cons p ps ih =>
    intro s h
    have hp : p.fits := h p (List.mem_cons_self _ _)
    have hps : ∀ q ∈ ps, q.fits := fun q hq => h q (List.mem_cons_of_mem _ hq)
    rw [commaPairs, List.append_assoc,
      receiveJsonPairs_pair E b p ',' _ s hp (Or.inl rfl), if_neg (by decide), ih _ hps]
    rfl

theorem receiveJson_eq (E : Ext) (b : Build) (input : List Char) (s : Sys) :
    receiveJson E b input s = receiveJsonPairs E b input (waitMillis E 1 s) := rfl

/-- Claim C3. In bounded mode, for an input that starts with pairs that fit
the buffers (fewer than 29 bytes copied per key and per value) and whose bytes
are all available, every pair is handed to `processJsonPair` with, as key, the
bytes before its colon without spaces, opening braces and double quotes, and,
as value, the bytes between the colon and the terminator without spaces and
double quotes; the pairs are handed over in input order (`applyPairs` folds
over them from the left), and after a pair that ends with a closing brace the
decoder finishes, after one that ends with a comma it goes on with the bytes
that follow. -/
theorem receiveJson_hands_over_pairs (E : Ext) (b : Build) (ps : List RawPair) (p : RawPair)
    (t : Char) (rest : List Char) (s : Sys)
    (hps : ∀ q ∈ ps, q.fits) (hp : p.fits) (ht : t = ',' ∨ t = '}') :
    receiveJson E b (commaPairs ps ++ (p.bytes t ++ rest)) s =
      if t = '}' then
        (rest, lastPair E b (processJsonPair E b (specKey p.k) (specVal p.v)
          (waits E (p.k.length + p.v.length + 2) (applyPairs E b (waitMillis E 1 s) ps))))
      else
        receiveJsonPairs E b rest (processJsonPair E b (specKey p.k) (specVal p.v)
          (waits E (p.k.length + p.v.length + 2) (applyPairs E b (waitMillis E 1 s) ps))) := by
  rw [receiveJson_eq, receiveJsonPairs_commaPairs E b _ ps _ hps,
    receiveJsonPairs_pair E b p t rest _ hp ht]
  rfl

/-- A key whose 29th copied byte comes before its colon. -/
theorem getKey_overflow (E : Ext) (c : Char) (rest : List Char)
    (hc : c ≠ ':' ∧ c ≠ ' ' ∧ c ≠ '{' ∧ c ≠ '"') :
    ∀ (k acc : List Char) (character : Char) (s : Sys), ':' ∉ k →
      (acc ++ specKey k).length = 28 →
      getKey E (k ++ c :: rest) acc character s = .full rest (waits E (k.length + 1) s) := by
  intro k
  induction k with
  | nil =>
    intro acc character s _ hlen
    have hskip : ¬ (c = ' ' ∨ c = '{' ∨ c = '"') := by
      rintro (h | h | h)
      · exact hc.2.1 h
      · exact hc.2.2.1 h
      · exact hc.2.2.2 h
    have h29 : (acc ++ [c]).length ≥ 29 := by simp [specKey] at hlen ⊢; omega
    rw [List.nil_append, getKey, if_neg hc.1]
    simp only [hskip, if_false]
    rw [if_pos h29]
    rfl
  | cons d k ih =>
    intro acc character s hk hlen
    have hd : d ≠ ':' := fun h => hk (by simp [h])
    have hk' : ':' ∉ k := fun h => hk (List.mem_cons_of_mem _ h)
    rw [specKey_cons] at hlen
    rw [List.cons_append, getKey, if_neg hd]
    by_cases hskip : d = ' ' ∨ d = '{' ∨ d = '"'
    · simp only [hskip, if_true] at hlen ⊢
      have h29 : ¬ acc.length ≥ 29 := by simp at hlen; omega
      rw [if_neg h29, ih acc d _ hk' hlen]
      simp [waits_succ]
    · simp only [hskip, if_false] at hlen ⊢
      have h29 : ¬ (acc ++ [d]).length ≥ 29 := by simp at hlen ⊢; omega
      rw [if_neg h29, ih (acc ++ [d]) d _ hk' (by simpa using hlen)]
      simp [waits_succ]

/-- A value whose 29th copied byte comes before its terminator. -/
theorem getVal_overflow (E : Ext) (c : Char) (rest : List Char)
    (hc : c ≠ ',' ∧ c ≠ '}' ∧ c ≠ ' ' ∧ c ≠ '"') :
    ∀ (v acc : List Char) (character : Char) (s : Sys), ',' ∉ v → '}' ∉ v →
      (acc ++ specVal v).length = 28 →
      getVal E (v ++ c :: rest) acc character s = .full rest (waits E (v.length + 1) s) := by
  intro v
  induction v with
  | nil =>
    intro acc character s _ _ hlen
    have hterm : ¬ (c = ',' ∨ c = '}') := by
      rintro (h | h)
      · exact hc.1 h
      · exact hc.2.1 h
    have hskip : ¬ (c = ' ' ∨ c = '"') := by
      rintro (h | h)
      · exact hc.2.2.1 h
      · exact hc.2.2.2 h
    have h29 : (acc ++ [c]).length ≥ 29 := by simp [specVal] at hlen ⊢; omega
    rw [List.nil_append, getVal, if_neg hterm]
    simp only [hskip, if_false]
    rw [if_pos h29]
    rfl
  | cons d v ih =>
    intro acc character s hv1 hv2 hlen
    have hd : ¬ (d = ',' ∨ d = '}') := by
      rintro (h | h)
      · exact hv1 (by simp [h])
      · exact hv2 (by simp [h])
    have hv1' : ',' ∉ v := fun h => hv1 (List.mem_cons_of_mem _ h)
    have hv2' : '}' ∉ v := fun h => hv2 (List.mem_cons_of_mem _ h)
    rw [specVal_cons] at hlen
    rw [List.cons_append, getVal, if_neg hd]
    by_cases hskip : d = ' ' ∨ d = '"'
    · simp only [hskip, if_true] at hlen ⊢
      have h29 : ¬ acc.length ≥ 29 := by simp at hlen; omega
      rw [if_neg h29, ih acc d _ hv1' hv2' hlen]
      simp [waits_succ]
    · simp only [hskip, if_false] at hlen ⊢
      have h29 : ¬ (acc ++ [d]).length ≥ 29 := by simp at hlen ⊢; omega
      rw [if_neg h29, ih (acc ++ [d]) d _ hv1' hv2' (by simpa using hlen)]
      simp [waits_succ]

/-- The outer loop over bytes that overflow a buffer. -/
theorem receiveJsonPairs_overflow (E : Ext) (b : Build) (chunk rest : List Char) (s : Sys)
    (h : KeyOverflow chunk ∨ ValOverflow chunk) :
    receiveJsonPairs E b (chunk ++ rest) s = (rest, waits E chunk.length s) := by
  unfold receiveJsonPairs
  rcases h with ⟨k, c, rfl, hk, hlen, hc⟩ | ⟨k, v, c, rfl, hk, hkl, hv1, hv2, hvl, hc⟩
  · have hne : k ++ [c] ++ rest ≠ [] := by cases k <;> simp
    have hl : (k ++ [c] ++ rest).length = (k.length + rest.length) + 1 := by
      simp; omega
    rw [hl, receiveJsonLoop, if_neg hne]
    have hb : k ++ [c] ++ rest = k ++ c :: rest := by simp
    rw [hb, getKey_overflow E c rest hc k [] _ s hk (by simpa using hlen)]
    simp
  · have hne : k ++ ':' :: (v ++ [c]) ++ rest ≠ [] := by cases k <;> simp
    have hl : (k ++ ':' :: (v ++ [c]) ++ rest).length
        = (k.length + v.length + 1 + rest.length) + 1 := by
      simp; omega
    rw [hl, receiveJsonLoop, if_neg hne]
    have hb : k ++ ':' :: (v ++ [c]) ++ rest = k ++ ':' :: (v ++ c :: rest) := by simp
    rw [hb, getKey_colon E _ k [] _ s hk (by simpa using hkl)]
    simp only
    rw [getVal_overflow E c rest hc v [] _ _ hv1 hv2 (by simpa using hvl)]
    simp only [Prod.mk.injEq, true_and]
    rw [← waits_add]
    congr 1
    simp
    omega

/-- Claim C4. When, after any number of complete pairs, a key or a value
reaches 29 copied bytes before its terminator is read, `receiveJson` returns
at once: the bytes after the 29th copied byte are left unread, the state is
the one after the earlier pairs plus the waits for the bytes read (so
`processJsonPair` is not called for the pair being scanned), and neither
`storeSettings` nor `storeConstants` is called nor a settings or constants
report started. -/
theorem receiveJson_overflow (E : Ext) (b : Build) (ps : List RawPair)
    (chunk rest : List Char) (s : Sys)
    (hps : ∀ q ∈ ps, q.fits) (h : KeyOverflow chunk ∨ ValOverflow chunk) :
    receiveJson E b (commaPairs ps ++ (chunk ++ rest)) s =
        (rest, waits E chunk.length (applyPairs E b (waitMillis E 1 s) ps)) ∧
      (receiveJson E b (commaPairs ps ++ (chunk ++ rest)) s).2.trace.count .storeSettings
        = s.trace.count .storeSettings ∧
      (receiveJson E b (commaPairs ps ++ (chunk ++ rest)) s).2.trace.count .storeConstants
        = s.trace.count .storeConstants ∧
      countResponse 'S' (receiveJson E b (commaPairs ps ++ (chunk ++ rest)) s).2.trace
        = countResponse 'S' s.trace ∧
      countResponse 'C' (receiveJson E b (commaPairs ps ++ (chunk ++ rest)) s).2.trace
        = countResponse 'C' s.trace := by
  have heq : receiveJson E b (commaPairs ps ++ (chunk ++ rest)) s =
      (rest, waits E chunk.length (applyPairs E b (waitMillis E 1 s) ps)) := by
    rw [receiveJson_eq, receiveJsonPairs_commaPairs E b _ ps _ hps,
      receiveJsonPairs_overflow E b chunk rest _ h]
  have hcount : ∀ r : Event → Bool, Loud r →
      (waits E chunk.length (applyPairs E b (waitMillis E 1 s) ps)).trace.countP r
        = s.trace.countP r := by
    intro r hr
    rw [waits_countP hr, applyPairs_countP hr, waitMillis_countP hr]
  rw [heq]
  refine ⟨rfl, ?_, ?_, ?_, ?_⟩
  · exact hcount _ (by intro e he; cases e <;> simp_all [Event.quiet])
  · exact hcount _ (by intro e he; cases e <;> simp_all [Event.quiet])
  · exact hcount _ (by intro e he; cases e <;> simp_all [Event.quiet])
  · exact hcount _ (by intro e he; cases e <;> simp_all [Event.quiet])

theorem loud_storeSettings : Loud (fun e => e == Event.storeSettings) := by
  intro e he; cases e <;> simp_all [Event.quiet]

theorem loud_storeConstants : Loud (fun e => e == Event.storeConstants) := by
  intro e he; cases e <;> simp_all [Event.quiet]

theorem plain_storeSettings : Plain (fun e => e == Event.storeSettings) := by
  refine ⟨?_, ?_, ?_⟩ <;> intro x <;> simp

theorem plain_storeConstants : Plain (fun e => e == Event.storeConstants) := by
  refine ⟨?_, ?_, ?_⟩ <;> intro x <;> simp

theorem loud_response (c : Char) (h : c = 'S' ∨ c = 'C') :
    Loud (fun e => match e with
      | .response t _ => t == c
      | _ => false) := by
  intro e he
  cases e <;> simp_all [Event.quiet]
  rcases h with h | h <;> subst h <;> simp_all

theorem plain_response (c : Char) :
    Plain (fun e => match e with
      | .response t _ => t == c
      | _ => false) := by
  refine ⟨?_, ?_, ?_⟩ <;> intro x <;> rfl

theorem applyPairs_append (E : Ext) (b : Build) (s : Sys) (ps : List RawPair) (p : RawPair) :
    applyPairs E b s (ps ++ [p]) = applyPair E b (applyPairs E b s ps) p := by
  simp [applyPairs, List.foldl_append]

/-- Claim C5. For every message of pairs that fit the buffers, with commas
between the pairs and a closing brace after the last value, `receiveJson`
hands every pair to `processJsonPair` and then runs the end of message code
once: `storeSettings` and `storeConstants` are each called exactly once, and
exactly one settings report and one constants report are started outside
simulation builds (none in simulation builds), after the last pair. -/
theorem receiveJson_complete_message (E : Ext) (b : Build) (ps : List RawPair) (p : RawPair)
    (rest : List Char) (s : Sys) (hps : ∀ q ∈ ps, q.fits) (hp : p.fits) :
    receiveJson E b (commaPairs ps ++ (p.bytes '}' ++ rest)) s =
        (rest, lastPair E b (applyPairs E b (waitMillis E 1 s) (ps ++ [p]))) ∧
      (receiveJson E b (commaPairs ps ++ (p.bytes '}' ++ rest)) s).2.trace.count .storeSettings
        = s.trace.count .storeSettings + 1 ∧
      (receiveJson E b (commaPairs ps ++ (p.bytes '}' ++ rest)) s).2.trace.count .storeConstants
        = s.trace.count .storeConstants + 1 ∧
      countResponse 'S' (receiveJson E b (commaPairs ps ++ (p.bytes '}' ++ rest)) s).2.trace
        = countResponse 'S' s.trace + (if b.simulate = true then 0 else 1) ∧
      countResponse 'C' (receiveJson E b (commaPairs ps ++ (p.bytes '}' ++ rest)) s).2.trace
        = countResponse 'C' s.trace + (if b.simulate = true then 0 else 1) := by
  have heq : receiveJson E b (commaPairs ps ++ (p.bytes '}' ++ rest)) s =
      (rest, lastPair E b (applyPairs E b (waitMillis E 1 s) (ps ++ [p]))) := by
    rw [receiveJson_eq, receiveJsonPairs_commaPairs E b _ ps _ hps,
      receiveJsonPairs_pair E b p '}' rest _ hp (Or.inr rfl), if_pos rfl, applyPairs_append]
  have hcount : ∀ r : Event → Bool, Loud r → Plain r →
      (lastPair E b (applyPairs E b (waitMillis E 1 s) (ps ++ [p]))).trace.countP r =
        s.trace.countP r + (if r .storeSettings = true then 1 else 0) +
        (if r .storeConstants = true then 1 else 0) +
        (if b.simulate = true then 0
          else (if r (.response 'S' (zoneChar b (applyPairs E b (waitMillis E 1 s) (ps ++ [p]))))
              = true then 1 else 0) +
            (if r (.response 'C' (zoneChar b (applyPairs E b (waitMillis E 1 s) (ps ++ [p]))))
              = true then 1 else 0)) := by
    intro r hl hp
    rw [lastPair_countP hp, applyPairs_countP hl, waitMillis_countP hl]
  rw [heq]
  refine ⟨rfl, ?_, ?_, ?_, ?_⟩
  · have := hcount _ loud_storeSettings plain_storeSettings
    simpa [List.count] using this
  · have := hcount _ loud_storeConstants plain_storeConstants
    simpa [List.count] using this
  · have := hcount _ (loud_response 'S' (Or.inl rfl)) (plain_response 'S')
    simpa [countResponse] using this
  · have := hcount _ (loud_response 'C' (Or.inr rfl)) (plain_response 'C')
    simpa [countResponse] using this

/-- A value that is cut off because no more bytes are available. -/
theorem getVal_drained (E : Ext) :
    ∀ (v acc : List Char) (character : Char) (s : Sys), ',' ∉ v → '}' ∉ v →
      (acc ++ specVal v).length < 29 →
      getVal E v acc character s =
        .ended (acc ++ specVal v) (v.getLastD character) [] (waits E v.length s) := by
  intro v
  induction v with
  | nil => intro acc character s _ _ _; simp [getVal, specVal, waits]
  | cons c v ih =>
    intro acc character s hv1 hv2 hlen
    have hc : ¬ (c = ',' ∨ c = '}') := by
      rintro (h | h)
      · exact hv1 (by simp [h])
      · exact hv2 (by simp [h])
    have hv1' : ',' ∉ v := fun h => hv1 (List.mem_cons_of_mem _ h)
    have hv2' : '}' ∉ v := fun h => hv2 (List.mem_cons_of_mem _ h)
    rw [specVal_cons] at hlen
    rw [getVal, if_neg hc]
    by_cases hskip : c = ' ' ∨ c = '"'
    · simp only [hskip, if_true] at hlen ⊢
      have h29 : ¬ acc.length ≥ 29 := by simp at hlen; omega
      rw [if_neg h29, ih acc c _ hv1' hv2' hlen, specVal_cons, if_pos hskip,
        List.getLastD_cons, List.length_cons, waits_succ]
    · simp only [hskip, if_false] at hlen ⊢
      have h29 : ¬ (acc ++ [c]).length ≥ 29 := by simp at hlen ⊢; omega
      rw [if_neg h29, ih (acc ++ [c]) c _ hv1' hv2' (by simpa using hlen), specVal_cons,
        if_neg hskip, List.getLastD_cons, List.length_cons, waits_succ]
      simp

theorem receiveJsonLoop_nil (E : Ext) (b : Build) (f : Nat) (c : Char) (s : Sys) :
    receiveJsonLoop E b f [] c s = ([], s) := by
  cases f <;> simp [receiveJsonLoop]

theorem getLastD_ne (v : List Char) (d x : Char) (hd : d ≠ x) (hv : x ∉ v) :
    v.getLastD d ≠ x := by
  induction v generalizing d with
  | nil => simpa using hd
  | cons c v ih =>
    rw [List.getLastD_cons]
    exact ih c (fun h => hv (by simp [h])) (fun h => hv (List.mem_cons_of_mem _ h))

/-- Claim C6, as the code behaves. When the input is drained in the middle of
a value (no comma or closing brace has been read), the decode is not
abandoned: the key and the bytes of the value read so far are handed to
`processJsonPair`. -/
theorem receiveJson_drained_in_value (E : Ext) (b : Build) (k v : List Char) (s : Sys)
    (hk : ':' ∉ k) (hkl : (specKey k).length < 29)
    (hv1 : ',' ∉ v) (hv2 : '}' ∉ v) (hvl : (specVal v).length < 29) :
    receiveJson E b (k ++ ':' :: v) s =
      ([], processJsonPair E b (specKey k) (specVal v)
        (waits E (k.length + v.length + 2) s)) := by
  rw [receiveJson_eq]
  unfold receiveJsonPairs
  have hne : k ++ ':' :: v ≠ [] := by cases k <;> simp
  have hl : (k ++ ':' :: v).length = (k.length + v.length) + 1 := by simp; omega
  rw [hl, receiveJsonLoop, if_neg hne, getKey_colon E _ k [] _ _ hk (by simpa using hkl)]
  simp only
  rw [getVal_drained E v [] _ _ hv1 hv2 (by simpa using hvl)]
  simp only [List.nil_append]
  rw [if_neg (getLastD_ne v ':' '}' (by decide) hv2), receiveJsonLoop_nil]
  have hw : waits E v.length (waits E (k.length + 1) (waitMillis E 1 s))
      = waits E (k.length + v.length + 2) s := by
    rw [← waits_succ, ← waits_add]; congr 1; omega
  rw [hw]

/-- A message of two pairs that end with a comma, followed by one more byte. -/
theorem receiveJson_hands_over_pairs_witness :
    (receiveJson demoExt plainBuild
        (commaPairs [demoPair] ++ (demoLastPair.bytes ',' ++ "x".toList)) demoSys).1 = []
      ∧ (receiveJson demoExt plainBuild
        (commaPairs [demoPair] ++ (demoLastPair.bytes ',' ++ "x".toList)) demoSys).2.tc.cs.beerSetting
          = 10240
      ∧ (receiveJson demoExt plainBuild
        (commaPairs [demoPair] ++ (demoLastPair.bytes ',' ++ "x".toList)) demoSys).2.tc.cc.Kp
          = 2560 := by
  rw [receiveJson_hands_over_pairs demoExt plainBuild [demoPair] demoLastPair ',' "x".toList
    demoSys (by decide) (by decide) (by decide)]
  decide

/-- A complete pair followed by a key of 30 bytes. -/
theorem receiveJson_overflow_witness :
    receiveJson demoExt plainBuild
        (commaPairs [demoPair] ++ ((demoLongKey ++ ['a']) ++ "S\":1\x7d".toList)) demoSys
      = ("S\":1\x7d".toList, waits demoExt 30 (applyPairs demoExt plainBuild
          (waitMillis demoExt 1 demoSys) [demoPair])) :=
  (receiveJson_overflow demoExt plainBuild [demoPair] (demoLongKey ++ ['a']) "S\":1\x7d".toList
    demoSys (by decide)
    (Or.inl ⟨demoLongKey, 'a', rfl, by decide, by decide, by decide, by decide, by decide,
      by decide⟩)).1

/-- A message of two pairs, followed by the command `t`. -/
theorem receiveJson_complete_message_witness :
    (receiveJson demoExt plainBuild
        (commaPairs [demoPair] ++ (demoLastPair.bytes '}' ++ "t".toList)) demoSys).1
        = "t".toList
      ∧ (receiveJson demoExt plainBuild
        (commaPairs [demoPair] ++ (demoLastPair.bytes '}' ++ "t".toList)) demoSys).2.trace.count
          .storeSettings = 1
      ∧ countResponse 'S' (receiveJson demoExt plainBuild
        (commaPairs [demoPair] ++ (demoLastPair.bytes '}' ++ "t".toList)) demoSys).2.trace = 1 :=
  have h := receiveJson_complete_message demoExt plainBuild [demoPair] demoLastPair "t".toList
    demoSys (by decide) (by decide)
  ⟨by rw [h.1], h.2.1, h.2.2.2.1⟩

/-- The input is drained after the bytes of `mode` and the first byte of its
value: the mode is changed all the same. -/
theorem receiveJson_drained_in_value_witness :
    (receiveJson demoExt plainBuild ("\x7b\"mode\"".toList ++ ':' :: "\"f".toList)
        demoSys).2.tc.cs.mode = 'f'
      ∧ demoSys.tc.cs.mode = 'b' := by
  rw [receiveJson_drained_in_value demoExt plainBuild "\x7b\"mode\"".toList "\"f".toList demoSys
    (by decide) (by decide) (by decide) (by decide) (by decide)]
  decide

/-- Claim C7, as the code behaves. After a settings message whose key has 30
bytes, the first call of `receive` stops at the 29th copied byte and leaves
the rest of the message unread; the second call reads the next byte of the
message, `S`, as a command and loads the default settings (the mode goes back
from `f` to `b`), which polling over the follow-up message `t` alone never
does. -/
theorem overflow_remainder_is_run_as_commands :
    (poll demoExt plainBuild 1 (demoOversized ++ "t".toList) demoFridgeMode).map
        (fun r => (r.1, r.2.tc.cs.mode, r.2.trace.count .loadDefaultSettings))
        = some ("S\":1\x7dt".toList, 'f', 0) ∧
      (poll demoExt plainBuild 2 (demoOversized ++ "t".toList) demoFridgeMode).map
        (fun r => (r.1, r.2.tc.cs.mode, r.2.trace.count .loadDefaultSettings))
        = some ("\":1\x7dt".toList, 'b', 1) ∧
      (poll demoExt plainBuild 1 "t".toList demoFridgeMode).map
        (fun r => (r.1, r.2.tc.cs.mode, r.2.trace.count .loadDefaultSettings))
        = some ([], 'f', 0) := by
  decide

/-- Claim C8, as the code behaves. In a multi-zone build, the switch command
`X` with an address whose zone index is above 9 answers with the zone
information and then calls `switchChamber` with that index: the invalid zone
is the active one when `receive` returns. -/
theorem receive_switch_to_invalid_zone (E : Ext) (b : Build) (arg : Char) (rest : List Char)
    (s : Sys) (hb : b.multichamber = true) (hinv : 9 < chamberOf arg) :
    receive E b ('X' :: arg :: rest) s
        = some (rest, (switchChamber (chamberOf arg) (printChamberInfo b s)).2) ∧
      ((switchChamber (chamberOf arg) (printChamberInfo b s)).2).chamber = chamberOf arg ∧
      ((switchChamber (chamberOf arg) (printChamberInfo b s)).2).trace.getLast?
        = some (.switchChamber (chamberOf arg)) := by
  have h9 : ¬ chamberOf arg ≤ 9 := by omega
  refine ⟨?_, rfl, ?_⟩
  · simp [receive, dispatch, hb, h9]
  · simp [switchChamber, Sys.emit]

/-- The command `X` with the address byte of zone index 11. -/
theorem receive_switch_to_invalid_zone_witness :
    (receive demoExt zoneBuild ['X', '<'] demoSys).map (fun r => r.2.chamber) = some 11
      ∧ demoSys.chamber = 0 := by
  rw [(receive_switch_to_invalid_zone demoExt zoneBuild '<' [] demoSys rfl (by decide)).1]
  decide

/-- When the command is not `X`, the `switch` statement leaves `prev` alone. -/
theorem dispatch_prev (E : Ext) (b : Build) (inByte : Char) (chamber prev : Nat)
    (input : List Char) (s : Sys) (hX : inByte ≠ 'X') (d : Dispatched)
    (h : dispatch E b inByte chamber prev input s = some d) : d.prev = prev := by
  unfold dispatch at h
  simp only [hX, and_false, if_false, Option.map_eq_some'] at h
  obtain ⟨r, _, rfl⟩ := h
  rfl

theorem ite_isSome {α : Type} (c : Prop) [Decidable c] (x y : Option α)
    (hx : x.isSome = true) (hy : y.isSome = true) : (if c then x else y).isSome = true := by
  split <;> assumption

/-- Apart from the unbounded decode of simulation builds, the `switch`
statement always returns. -/
theorem dispatch_isSome (E : Ext) (b : Build) (inByte : Char) (chamber prev : Nat)
    (input : List Char) (s : Sys) (hy : ¬ (b.simulate = true ∧ inByte = 'y')) :
    (dispatch E b inByte chamber prev input s).isSome = true := by
  unfold dispatch
  apply ite_isSome
  · rfl
  · rw [Option.isSome_map']
    unfold handle
    rw [if_neg hy]
    repeat' apply ite_isSome
    all_goals rfl

/-- Claim C9. In a multi-zone build, for every command byte other than `X`
and `x` that comes with a valid zone address, the `switch` statement runs in a
state `h` in which the addressed zone is the active one, and when `receive`
returns the active zone is the one that was active before the call; `receive`
does return, except for the unbounded decode `y` of simulation builds. -/
theorem receive_restores_zone (E : Ext) (b : Build) (inByte arg : Char) (rest : List Char)
    (s : Sys) (hb : b.multichamber = true) (hX : inByte ≠ 'X') (hx : inByte ≠ 'x')
    (hv : chamberOf arg ≤ 9) :
    ∃ h : Sys, h.chamber = chamberOf arg ∧
      receive E b (inByte :: arg :: rest) s =
        (dispatch E b inByte (chamberOf arg) s.chamber rest h).map
          (fun d => (d.input, (switchChamber s.chamber d.sys).2)) ∧
      (∀ r, receive E b (inByte :: arg :: rest) s = some r → r.2.chamber = s.chamber) ∧
      (¬ (b.simulate = true ∧ inByte = 'y') →
        (receive E b (inByte :: arg :: rest) s).isSome = true) := by
  let s1 : Sys := if inByte = 'n' then
      print_P [.lit ['N', ':', '"'], .arg (cstr E.versionString), .lit ['"', '\n']] s
    else s
  have hs1 : s1.chamber = s.chamber := by
    simp only [s1]
    split <;> rfl
  have hrec : receive E b (inByte :: arg :: rest) s =
      (dispatch E b inByte (chamberOf arg) s.chamber rest (switchChamber (chamberOf arg) s1).2).map
        (fun d => (d.input, (switchChamber d.prev d.sys).2)) := by
    simp only [receive, hb, if_true, List.headD_cons, List.tail_cons, hx, if_false, hv]
    simp only [s1, switchChamber]
    split <;> rfl
  have hmap : receive E b (inByte :: arg :: rest) s =
      (dispatch E b inByte (chamberOf arg) s.chamber rest (switchChamber (chamberOf arg) s1).2).map
        (fun d => (d.input, (switchChamber s.chamber d.sys).2)) := by
    rw [hrec]
    cases hd : dispatch E b inByte (chamberOf arg) s.chamber rest
        (switchChamber (chamberOf arg) s1).2 with
    | none => rfl
    | some d =>
      have := dispatch_prev E b inByte _ _ _ _ hX d hd
      simp [this]
  refine ⟨(switchChamber (chamberOf arg) s1).2, rfl, hmap, ?_, ?_⟩
  · intro r hr
    rw [hmap] at hr
    simp only [Option.map_eq_some'] at hr
    obtain ⟨d, _, rfl⟩ := hr
    rfl
  · intro hy
    rw [hmap]
    simp [dispatch_isSome E b inByte _ _ _ _ hy]

/-- The command `t` for the second zone, while the first one is active. -/
theorem receive_restores_zone_witness :
    ∃ h : Sys, h.chamber = 1 ∧
      (∀ r, receive demoExt zoneBuild ['t', '2'] demoSys = some r → r.2.chamber = 0) ∧
      (receive demoExt zoneBuild ['t', '2'] demoSys).isSome = true :=
  match receive_restores_zone demoExt zoneBuild 't' '2' [] demoSys rfl (by decide) (by decide)
    (by decide) with
  | ⟨h, hc, _, hr, hs⟩ => ⟨h, hc, hr, hs (by decide)⟩

/-- Claim C10, as the code behaves. In a multi-zone build the command `n` is
answered twice by one call of `receive`: once by the `switch` statement of
line 96, with the version in double quotes, and once more by the `switch`
statement of line 114. -/
theorem receive_version_answered_twice (E : Ext) (sim dbg : Bool) (rest : List Char) (s : Sys) :
    (receive E ⟨true, sim, dbg⟩ ('n' :: '1' :: rest) s).map (fun r => (r.1, r.2.trace)) =
      some (rest, s.trace ++
        [.fmt [.lit ['N', ':', '"'], .arg (cstr E.versionString), .lit ['"', '\n']],
          .switchChamber 0,
          .fmt [.lit ['N', ':'], .arg (cstr E.versionString), .lit ['\n']],
          .switchChamber s.chamber]) := by
  have h0 : chamberOf '1' = 0 := by decide
  simp [receive, dispatch, handle, printVersion, h0, switchChamber, print_P, Sys.emit]

/-- In a single-zone build a command byte other than the line feed goes
through the `switch` statement once. -/
theorem receive_single_zone (E : Ext) (b : Build) (inByte : Char) (rest : List Char) (s : Sys)
    (hb : b.multichamber = false) (hn : inByte ≠ '\n') :
    receive E b (inByte :: rest) s = handle E b inByte rest s := by
  simp only [receive, hb, Bool.false_eq_true, if_false, hn, dispatch, false_and, Option.map_map]
  cases handle E b inByte rest s <;> rfl

/-- In a multi-zone build, a command other than `X` and `x` with an address
whose zone index is above 9 runs in the zone that is active, and the only
call of `switchChamber` is the one of line 186, with the active zone. -/
theorem receive_invalid_zone_other_commands (E : Ext) (b : Build) (inByte arg : Char)
    (rest : List Char) (s : Sys) (hb : b.multichamber = true) (hX : inByte ≠ 'X')
    (hx : inByte ≠ 'x') (hinv : 9 < chamberOf arg) :
    receive E b (inByte :: arg :: rest) s =
      (handle E b inByte rest
        (if inByte = 'n' then
          print_P [.lit ['N', ':', '"'], .arg (cstr E.versionString), .lit ['"', '\n']] s
        else s)).map (fun r => (r.1, (switchChamber s.chamber r.2).2)) := by
  have h9 : ¬ chamberOf arg ≤ 9 := by omega
  simp only [receive, hb, if_true, List.headD_cons, List.tail_cons, hx, if_false, h9, dispatch,
    hX, and_false, Option.map_map]
  split <;> rfl

/-! ## Commands, reports and settings -/

theorem cstr_no_nul (l : List Char) : ∀ c ∈ cstr l, c ≠ '\x00' := by
  intro c hc
  have := List.mem_takeWhile_imp hc
  simpa using this

theorem cstr_length_le (l : List Char) : (cstr l).length ≤ l.length :=
  (List.takeWhile_sublist _).length_le

theorem cstr_append (a b : List Char) (ha : ∀ c ∈ a, c ≠ '\x00') :
    cstr (a ++ b) = a ++ cstr b := by
  induction a with
  | nil => rfl
  | cons x a ih =>
    have hx : x ≠ '\x00' := ha x (List.mem_cons_self _ _)
    have ha' : ∀ c ∈ a, c ≠ '\x00' := fun c hc => ha c (List.mem_cons_of_mem _ hc)
    have ih' := ih ha'
    unfold cstr at ih' ⊢
    simp [List.takeWhile_cons, hx, ih']

theorem cstr_singleton (c : Char) : cstr [c] = if c = '\x00' then [] else [c] := by
  unfold cstr
  by_cases h : c = '\x00' <;> simp [List.takeWhile_cons, h]

/-- A formatted print that fits the buffer and holds no NUL is written as
it stands. -/
theorem fmtBytes_fits (ps : List Piece) (hlen : ((ps.map Piece.chars).flatten).length ≤ 127)
    (hnul : ∀ c ∈ (ps.map Piece.chars).flatten, c ≠ '\x00') :
    fmtBytes ps = (ps.map Piece.chars).flatten := by
  unfold fmtBytes
  rw [List.take_of_length_le hlen]
  exact cstr_eq_self _ hnul

theorem wire_append (a b : List Event) : wire (a ++ b) = wire a ++ wire b := by
  simp [wire]

theorem wire_cons (e : Event) (l : List Event) : wire (e :: l) = e.bytes ++ wire l := by
  simp [wire]

theorem wire_nil : wire [] = [] := rfl

theorem fmtBytes_invalid (c : Char) :
    fmtBytes [.lit invalidText, .arg [c]] = invalidText ++ (if c = '\x00' then [] else [c]) := by
  unfold fmtBytes
  have h : ((([Piece.lit invalidText, Piece.arg [c]] : List Piece).map Piece.chars).flatten)
      = invalidText ++ [c] := by simp [Piece.chars]
  rw [h, List.take_of_length_le (by simp [invalidText]),
    cstr_append _ _ (by decide), cstr_singleton]

/-- Claim C11, as amended. In a single-zone build without the simulator, for
every byte `c` other than the line feed and the opcodes `t`, `C`, `S`, `s`,
`c`, `v`, `n`, `l`, `j`, one call of `receive` reads that one byte, writes the
diagnostic `D:Invalid command received by Arduino: ` followed by the byte and
a line feed (the byte is missing from the diagnostic when it is NUL), and
changes neither the control state nor the tracker nor calls anything else. -/
theorem receive_invalid_command (E : Ext) (b : Build) (c : Char) (rest : List Char) (s : Sys)
    (hm : b.multichamber = false) (hs : b.simulate = false)
    (hc : c ∉ ['\n', 't', 'C', 'S', 's', 'c', 'v', 'n', 'l', 'j']) :
    receive E b (c :: rest) s = some (rest, invalidCommand b c s) ∧
      since s (invalidCommand b c s)
        = [.response 'D' none, .fmt [.lit invalidText, .arg [c]], .chr '\n'] ∧
      wire (since s (invalidCommand b c s))
        = 'D' :: ':' :: (invalidText ++ (if c = '\x00' then [] else [c]) ++ ['\n']) ∧
      (invalidCommand b c s).tc = s.tc ∧ (invalidCommand b c s).tracker = s.tracker := by
  simp only [List.mem_cons, List.mem_singleton, List.not_mem_nil, or_false, not_or] at hc
  obtain ⟨h0, h1, h2, h3, h4, h5, h6, h7, h8, h9⟩ := hc
  have hsince : since s (invalidCommand b c s)
      = [.response 'D' none, .fmt [.lit invalidText, .arg [c]], .chr '\n'] := by
    apply since_append
    simp [invalidCommand, debugMessage, printResponse, Sys.emit, hm, invalidText]
  refine ⟨?_, hsince, ?_, rfl, rfl⟩
  · simp [receive, dispatch, handle, hm, hs, h0, h1, h2, h3, h4, h5, h6, h7, h8, h9]
  · rw [hsince]
    simp [wire, Event.bytes, fmtBytes_invalid]

theorem receive_invalid_command_witness :
    (receive demoExt plainBuild ['Q', 't'] demoSys).map (fun r => (r.1, wire r.2.trace))
      = some (['t'], "D:Invalid command received by Arduino: Q\n".toList) := by
  rw [(receive_invalid_command demoExt plainBuild 'Q' ['t'] demoSys rfl rfl (by decide)).1]
  decide

/-- The NUL byte as a command: the diagnostic is written without the byte,
not `D:Invalid command received by Arduino: ` followed by the byte and a line
feed. -/
theorem receive_nul_command :
    (receive demoExt plainBuild ['\x00'] demoSys).map (fun r => wire (since demoSys r.2))
        = some "D:Invalid command received by Arduino: \n".toList ∧
      (receive demoExt plainBuild ['\x00'] demoSys).map (fun r => wire (since demoSys r.2))
        ≠ some ("D:Invalid command received by Arduino: ".toList ++ ['\x00', '\n']) := by
  decide

theorem fmtBytes_quoted (x : List Char) (hlen : x.length ≤ 125) (hnul : ∀ c ∈ x, c ≠ '\x00') :
    fmtBytes [.lit ['"'], .arg x, .lit ['"']] = quoted x := by
  rw [fmtBytes_fits]
  · simp [Piece.chars, quoted]
  · simp [Piece.chars]; omega
  · intro c hc
    simp only [List.map, Piece.chars, List.flatten, List.append_nil, List.mem_append,
      List.mem_singleton] at hc
    rcases hc with h | h | h
    · subst h; decide
    · exact hnul c h
    · subst h; decide

theorem getLine_length (s : Sys) (i : Nat) : (cstr (getLine s i)).length ≤ 125 := by
  have h1 := cstr_length_le (getLine s i)
  have h2 : (getLine s i).length ≤ 20 := by
    unfold getLine
    rw [List.length_take]
    omega
  omega

theorem reportEvents_countP_plain {r : Event → Bool} (h : Plain r) (E : Ext) (b : Build)
    (ba fa : Option Ann) (s : Sys) :
    (reportEvents E b ba fa s).countP r
      = if r (.response 'T' (zoneChar b s)) = true then 1 else 0 := by
  have hd : ∀ l, (doubleEvents l).countP r = 0 := by
    intro l
    unfold doubleEvents
    split <;> simp [List.countP_cons, h.1, h.2.2]
  have ha : ∀ name a, (annEvents name a).countP r = 0 := by
    intro name a
    cases a <;> simp [annEvents, List.countP_cons, h.2.2]
  unfold reportEvents
  simp only [List.countP_append]
  rw [countP_ite_nil r _ _ (by simp [tempEvents, List.countP_cons, h.2.2]),
    countP_ite_nil r _ _ (by simp [tempEvents, List.countP_cons, h.2.2]),
    countP_ite_nil r _ _ (ha _ _),
    countP_ite_nil r _ _ (by simp [tempEvents, List.countP_cons, h.2.2]),
    countP_ite_nil r _ _ (by simp [tempEvents, List.countP_cons, h.2.2]),
    countP_ite_nil r _ _ (ha _ _),
    countP_ite_nil r _ _ (by
      simp [List.countP_append, List.countP_cons, h.2.2, h.1, hd]),
    countP_ite_nil r _ _ (by simp [List.countP_cons, h.2.2])]
  simp [List.countP_cons, h.2.2, h.1, zoneChar]

theorem printTemperaturesJSON_countP_plain {r : Event → Bool} (h : Plain r) (E : Ext)
    (b : Build) (ba fa : Option Ann) (s : Sys) :
    (printTemperaturesJSON E b ba fa s).trace.countP r
      = s.trace.countP r + if r (.response 'T' (zoneChar b s)) = true then 1 else 0 := by
  rw [printTemperaturesJSON_eq]
  simp [List.countP_append, reportEvents_countP_plain h]

theorem sendControlVariables_countP {r : Event → Bool} (h : Plain r) (E : Ext) (b : Build)
    (s : Sys) :
    (sendControlVariables E b s).trace.countP r =
      s.trace.countP r + if r (.response 'V' (zoneChar b s)) = true then 1 else 0 := by
  simp only [sendControlVariables, sendJsonClose_countP h, sendJsonPairStr_countP h,
    printResponse_countP]

theorem debugMessage_countP_plain {r : Event → Bool} (h : Plain r) (b : Build)
    (ps : List Piece) (s : Sys) :
    (debugMessage b ps s).trace.countP r
      = s.trace.countP r + if r (.response 'D' (zoneChar b s)) = true then 1 else 0 := by
  simp [debugMessage, printResponse, zoneChar, Sys.emit, List.countP_append, List.countP_cons,
    h.1, h.2.2]

theorem defaultConstants_eq (E : Ext) (b : Build) (s : Sys) :
    defaultConstants E b s = debugMessage b [.lit "Default constants loaded.".toList]
      (sendControlConstants E b (afterLoadConstants E s)) := by
  simp [defaultConstants, afterLoadConstants, Sys.emit]

theorem defaultSettings_eq (E : Ext) (b : Build) (s : Sys) :
    defaultSettings E b s = debugMessage b [.lit "Default settings loaded.".toList]
      (sendControlSettings E b (afterLoadSettings E s)) := by
  simp [defaultSettings, afterLoadSettings, Sys.emit]

theorem countResponse_eq (c : Char) (tr : List Event) :
    countResponse c tr = tr.countP (respIs c) := by
  unfold countResponse
  congr 1

theorem plain_respIs (c : Char) : Plain (respIs c) :=
  ⟨fun _ => rfl, fun _ => rfl, fun _ => rfl⟩

theorem printDisplay_wire (E : Ext) (b : Build) (s : Sys) (hm : b.multichamber = false) :
    wire (since s (printDisplay E b s)) =
      'L' :: ':' :: '[' :: (quoted (cstr (getLine s 0)) ++ ',' :: (quoted (cstr (getLine s 1)) ++
        ',' :: (quoted (cstr (getLine s 2)) ++ ',' :: (quoted (cstr (getLine s 3)) ++
          [']', '\n'])))) := by
  have hsince : since s (printDisplay E b s) =
      [.response 'L' none, .chr '[',
        .fmt [.lit ['"'], .arg (cstr (getLine s 0)), .lit ['"']], .chr ',',
        .fmt [.lit ['"'], .arg (cstr (getLine s 1)), .lit ['"']], .chr ',',
        .fmt [.lit ['"'], .arg (cstr (getLine s 2)), .lit ['"']], .chr ',',
        .fmt [.lit ['"'], .arg (cstr (getLine s 3)), .lit ['"']], .chr ']', .chr '\n'] := by
    apply since_append
    simp [printDisplay, printLine, print_P, printResponse, Sys.emit, hm, getLine]
  rw [hsince]
  simp only [wire, List.map, Event.bytes, List.flatten,
    fmtBytes_quoted _ (getLine_length s _) (cstr_no_nul _)]
  simp

/-- Claim C12. In a single-zone build without the simulator every opcode of
the command table goes to its operation: `t` writes one `T` report, `s` one
`S` report, `c` one `C` report, `v` one `V` report, `n` the `N` message, `l`
the `L` message with the four display lines in double quotes, separated by
commas, between square brackets and followed by a line feed, `C` and `S` load
the defaults and then write the `C` and the `S` report from the loaded
values, and `j` runs `receiveJson` on the bytes that follow. -/
theorem receive_routes_opcodes (E : Ext) (b : Build) (rest : List Char) (s : Sys)
    (hm : b.multichamber = false) (hs : b.simulate = false) :
    (receive E b ('t' :: rest) s = some (rest, printTemperatures E b s) ∧
      countResponse 'T' (printTemperatures E b s).trace = countResponse 'T' s.trace + 1) ∧
    (receive E b ('s' :: rest) s = some (rest, sendControlSettings E b s) ∧
      countResponse 'S' (sendControlSettings E b s).trace = countResponse 'S' s.trace + 1) ∧
    (receive E b ('c' :: rest) s = some (rest, sendControlConstants E b s) ∧
      countResponse 'C' (sendControlConstants E b s).trace = countResponse 'C' s.trace + 1) ∧
    (receive E b ('v' :: rest) s = some (rest, sendControlVariables E b s) ∧
      countResponse 'V' (sendControlVariables E b s).trace = countResponse 'V' s.trace + 1) ∧
    (receive E b ('n' :: rest) s = some (rest, printVersion E s) ∧
      since s (printVersion E s)
        = [.fmt [.lit ['N', ':'], .arg (cstr E.versionString), .lit ['\n']]]) ∧
    (receive E b ('l' :: rest) s = some (rest, printDisplay E b s) ∧
      wire (since s (printDisplay E b s)) =
        'L' :: ':' :: '[' :: (quoted (cstr (getLine s 0)) ++ ',' :: (quoted (cstr (getLine s 1))
          ++ ',' :: (quoted (cstr (getLine s 2)) ++ ',' :: (quoted (cstr (getLine s 3)) ++
            [']', '\n']))))) ∧
    (receive E b ('C' :: rest) s = some (rest, defaultConstants E b s) ∧
      defaultConstants E b s = debugMessage b [.lit "Default constants loaded.".toList]
        (sendControlConstants E b (afterLoadConstants E s)) ∧
      countResponse 'C' (defaultConstants E b s).trace = countResponse 'C' s.trace + 1) ∧
    (receive E b ('S' :: rest) s = some (rest, defaultSettings E b s) ∧
      defaultSettings E b s = debugMessage b [.lit "Default settings loaded.".toList]
        (sendControlSettings E b (afterLoadSettings E s)) ∧
      countResponse 'S' (defaultSettings E b s).trace = countResponse 'S' s.trace + 1) ∧
    receive E b ('j' :: rest) s = some (receiveJson E b rest s) := by
  simp only [countResponse_eq]
  refine ⟨⟨?_, ?_⟩, ⟨?_, ?_⟩, ⟨?_, ?_⟩, ⟨?_, ?_⟩, ⟨?_, ?_⟩, ⟨?_, ?_⟩, ⟨?_, ?_, ?_⟩,
    ⟨?_, ?_, ?_⟩, ?_⟩
  · simp [receive, dispatch, handle, hm, hs]
  · rw [printTemperatures, printTemperaturesJSON_countP_plain (plain_respIs 'T')]
    simp [respIs]
  · simp [receive, dispatch, handle, hm, hs]
  · rw [sendControlSettings_countP (plain_respIs 'S')]
    simp [respIs]
  · simp [receive, dispatch, handle, hm, hs]
  · rw [sendControlConstants_countP (plain_respIs 'C')]
    simp [respIs]
  · simp [receive, dispatch, handle, hm, hs]
  · rw [sendControlVariables_countP (plain_respIs 'V')]
    simp [respIs]
  · simp [receive, dispatch, handle, hm, hs]
  · apply since_append
    simp [printVersion, print_P, Sys.emit]
  · simp [receive, dispatch, handle, hm, hs]
  · exact printDisplay_wire E b s hm
  · simp [receive, dispatch, handle, hm, hs]
  · exact defaultConstants_eq E b s
  · rw [defaultConstants_eq, debugMessage_countP_plain (plain_respIs 'C'),
      sendControlConstants_countP (plain_respIs 'C')]
    simp [afterLoadConstants, List.countP_append, List.countP_cons, respIs]
  · simp [receive, dispatch, handle, hm, hs]
  · exact defaultSettings_eq E b s
  · rw [defaultSettings_eq, debugMessage_countP_plain (plain_respIs 'S'),
      sendControlSettings_countP (plain_respIs 'S')]
    simp [afterLoadSettings, List.countP_append, List.countP_cons, respIs]
  · simp [receive, dispatch, handle, hm, hs]

/-- The command `l` in the concrete state. -/
theorem receive_routes_opcodes_witness :
    (receive demoExt plainBuild ['l'] demoSys).map (fun r => wire (since demoSys r.2))
      = some ("L:[\"Mode   Beer Const.  \",\"Beer   19.1  19.0 C \"," ++
          "\"Fridge 17.8  18.0 C \",\"Idling for     1m03 \"]\n").toList := by
  rw [(receive_routes_opcodes demoExt plainBuild [] demoSys rfl rfl).2.2.2.2.2.1.1]
  decide

theorem annEvents_startsWith_self (name : String) (a : Option Ann) :
    (annEvents name a).any (Event.startsWith (keyLit name)) = true := by
  simp [annEvents, Event.startsWith]

/-- The beer annotation key is among the events of a report exactly when the
address passed differs from the address that the tracker holds. -/
theorem reportEvents_writes_ba (E : Ext) (b : Build) (ba fa : Option Ann) (s : Sys) :
    writesKey "ba" (reportEvents E b ba fa s) = true ↔ ba.map Ann.addr ≠ s.tracker.beerAnn := by
  simp only [writesKey, reportEvents, tempEvents, List.any_append]
  rw [apply_ite (List.any · _), apply_ite (List.any · _), apply_ite (List.any · _),
    apply_ite (List.any · _), apply_ite (List.any · _), apply_ite (List.any · _),
    apply_ite (List.any · _), apply_ite (List.any · _)]
  simp only [List.any_append, doubleEvents_startsWith]
  rw [annEvents_startsWith_self "ba" ba,
    annEvents_startsWith "fa" fa _ (by decide) (by decide) (by decide)]
  simp [Event.startsWith, keyLit]

/-- The fridge annotation key is among the events of a report exactly when
the address passed differs from the address that the tracker holds. -/
theorem reportEvents_writes_fa (E : Ext) (b : Build) (ba fa : Option Ann) (s : Sys) :
    writesKey "fa" (reportEvents E b ba fa s) = true ↔
      fa.map Ann.addr ≠ s.tracker.fridgeAnn := by
  simp only [writesKey, reportEvents, tempEvents, List.any_append]
  rw [apply_ite (List.any · _), apply_ite (List.any · _), apply_ite (List.any · _),
    apply_ite (List.any · _), apply_ite (List.any · _), apply_ite (List.any · _),
    apply_ite (List.any · _), apply_ite (List.any · _)]
  simp only [List.any_append, doubleEvents_startsWith]
  rw [annEvents_startsWith_self "fa" fa,
    annEvents_startsWith "ba" ba _ (by decide) (by decide) (by decide)]
  simp [Event.startsWith, keyLit]

/-- The numeric keys are among the events of a report exactly when the
current value differs from the value that the tracker holds. -/
theorem reportEvents_writes_numeric (E : Ext) (b : Build) (ba fa : Option Ann) (s : Sys) :
    (writesKey "bt" (reportEvents E b ba fa s) = true ↔
        E.getBeerTemp s.tc ≠ s.tracker.beerTemp) ∧
    (writesKey "bs" (reportEvents E b ba fa s) = true ↔
        E.getBeerSetting s.tc ≠ s.tracker.beerSet) ∧
    (writesKey "ft" (reportEvents E b ba fa s) = true ↔
        E.getFridgeTemp s.tc ≠ s.tracker.fridgeTemp) ∧
    (writesKey "fs" (reportEvents E b ba fa s) = true ↔
        E.getFridgeSetting s.tc ≠ s.tracker.fridgeSet) ∧
    (writesKey "s" (reportEvents E b ba fa s) = true ↔
        u8 (E.getState s.tc) ≠ s.tracker.state) := by
  refine ⟨?_, ?_, ?_, ?_, ?_⟩
  all_goals
    simp only [writesKey, reportEvents, tempEvents, List.any_append]
    rw [apply_ite (List.any · _), apply_ite (List.any · _), apply_ite (List.any · _),
      apply_ite (List.any · _), apply_ite (List.any · _), apply_ite (List.any · _),
      apply_ite (List.any · _), apply_ite (List.any · _)]
    simp only [List.any_append, doubleEvents_startsWith]
    rw [annEvents_startsWith "ba" ba _ (by decide) (by decide) (by decide),
      annEvents_startsWith "fa" fa _ (by decide) (by decide) (by decide)]
    simp [Event.startsWith, keyLit]

theorem infix_append_left {α : Type} (x a l : List α) (h : x <:+: l) : x <:+: a ++ l :=
  h.trans (List.suffix_append a l).isInfix

/-- The events of an annotation stand together among the events of a report
in which its key is written. -/
theorem reportEvents_infix_ba (E : Ext) (b : Build) (ba fa : Option Ann) (s : Sys)
    (h : ba.map Ann.addr ≠ s.tracker.beerAnn) :
    annEvents "ba" ba <:+: reportEvents E b ba fa s := by
  unfold reportEvents
  rw [if_pos h]
  simp only [List.append_assoc]
  exact infix_append_left _ _ _ (infix_append_left _ _ _ (infix_append_left _ _ _
    (List.prefix_append _ _).isInfix))

theorem reportEvents_infix_fa (E : Ext) (b : Build) (ba fa : Option Ann) (s : Sys)
    (h : fa.map Ann.addr ≠ s.tracker.fridgeAnn) :
    annEvents "fa" fa <:+: reportEvents E b ba fa s := by
  unfold reportEvents
  rw [if_pos h]
  simp only [List.append_assoc]
  exact infix_append_left _ _ _ (infix_append_left _ _ _ (infix_append_left _ _ _
    (infix_append_left _ _ _ (infix_append_left _ _ _ (infix_append_left _ _ _
      (List.prefix_append _ _).isInfix)))))

theorem wire_ite (c : Prop) [Decidable c] (l : List Event) :
    wire (if c then l else []) = if c then wire l else [] := by
  split <;> rfl

theorem itemsBytes_append (a b : List (List Char × List Char)) :
    itemsBytes (a ++ b) = itemsBytes a ++ itemsBytes b := by
  induction a with
  | nil => rfl
  | cons x a ih =>
    obtain ⟨k, v⟩ := x
    simp [itemsBytes, ih]

theorem itemsBytes_ite (c : Prop) [Decidable c] (k v : List Char) :
    itemsBytes (if c then [(k, v)] else []) = if c then itemBytes k v else [] := by
  split <;> simp [itemsBytes]

theorem sublist_opt {α : Type} (c : Prop) [Decidable c] (x : α) (l k : List α)
    (h : l.Sublist k) : ((if c then [x] else []) ++ l).Sublist (x :: k) := by
  split
  · simpa using h
  · simpa using h.cons x

/-- The bytes of an item whose value is printed with `%s` and fits. -/
theorem fmtBytes_item (name : String) (k v : List Char)
    (hk : keyLit name = '"' :: (k ++ ['"', ':'])) (hname : k.length ≤ 2)
    (hn : ∀ c ∈ k, c ≠ '\x00') (hv : v.length ≤ 100) (hvn : ∀ c ∈ v, c ≠ '\x00') :
    fmtBytes [.lit (keyLit name), .arg v, .lit [',']] = itemBytes k v := by
  rw [hk, fmtBytes_fits]
  · simp [Piece.chars, itemBytes]
  · simp [Piece.chars]; omega
  · intro c hc
    simp only [List.map, Piece.chars, List.flatten, List.append_nil, List.mem_append,
      List.mem_singleton, List.mem_cons, List.not_mem_nil, or_false] at hc
    rcases hc with (h | h | h | h) | h | h
    · subst h; decide
    · exact hn c h
    · subst h; decide
    · subst h; decide
    · exact hvn c h
    · subst h; decide

theorem wire_tempEvents (E : Ext) (name : String) (k : List Char) (v : Int)
    (hk : keyLit name = '"' :: (k ++ ['"', ':'])) (hname : k.length ≤ 2)
    (hn : ∀ c ∈ k, c ≠ '\x00') (hT : (cstr (E.tempToString v 2 9)).length ≤ 8) :
    wire (tempEvents E name v) = itemBytes k (cstr (E.tempToString v 2 9)) := by
  have h := fmtBytes_item name k (cstr (E.tempToString v 2 9)) hk hname hn (by omega)
    (cstr_no_nul _)
  simp only [tempEvents, wire, List.map, Event.bytes, List.flatten, h, List.append_nil]

theorem fmtBytes_keyLit (name : String) (k : List Char)
    (hk : keyLit name = '"' :: (k ++ ['"', ':'])) (hname : k.length ≤ 2)
    (hn : ∀ c ∈ k, c ≠ '\x00') :
    fmtBytes [.lit (keyLit name)] = '"' :: (k ++ ['"', ':']) := by
  rw [hk, fmtBytes_fits]
  · simp [Piece.chars]
  · simp [Piece.chars]; omega
  · intro c hc
    simp only [List.map, Piece.chars, List.flatten, List.append_nil, List.mem_append,
      List.mem_singleton, List.mem_cons, List.not_mem_nil, or_false] at hc
    rcases hc with h | h | h | h
    · subst h; decide
    · exact hn c h
    · subst h; decide
    · subst h; decide

/-- The bytes of the value of an annotation of at most 124 bytes. -/
theorem fmtBytes_annText (x : List Char) (hnul : ∀ c ∈ x, c ≠ '\x00') (hlen : x.length ≤ 124) :
    fmtBytes [.lit "\"".toList, .arg x, .lit "\",".toList] = quoted x ++ [','] := by
  rw [fmtBytes_fits]
  · simp [Piece.chars, quoted]
  · simp [Piece.chars]; omega
  · intro c hc
    simp only [List.map, Piece.chars, List.flatten, List.append_nil, List.mem_append,
      String.toList, List.mem_cons, List.mem_singleton, List.not_mem_nil, or_false] at hc
    rcases hc with h | h | h | h
    · subst h; decide
    · exact hnul c h
    · subst h; decide
    · subst h; decide

theorem wire_annEvents (name : String) (k : List Char) (a : Option Ann)
    (hk : keyLit name = '"' :: (k ++ ['"', ':'])) (hname : k.length ≤ 2)
    (hn : ∀ c ∈ k, c ≠ '\x00') (ha : ∀ x, a = some x → (cstr x.text).length ≤ 124) :
    wire (annEvents name a) = itemBytes k (annValue a) := by
  have hkey := fmtBytes_keyLit name k hk hname hn
  cases a with
  | none =>
    have h : fmtBytes [.lit "null,".toList] = "null,".toList := by decide
    simp only [annEvents, wire, List.map, Event.bytes, List.flatten, hkey, h, itemBytes,
      annValue]
    simp
  | some x =>
    have h := fmtBytes_annText _ (cstr_no_nul x.text) (ha x rfl)
    simp only [annEvents, wire, List.map, Event.bytes, List.flatten, hkey, h, itemBytes,
      annValue]
    simp

theorem decimal_u8_length (n : Nat) : (decimal (u8 n)).length ≤ 100 := by
  have := decimal_length_le (u8 n) 3 (by unfold u8; omega) (by decide)
  omega

theorem fmtBytes_time (m : Nat) :
    fmtBytes [.lit (keyLit "t"), .arg (decimal (u32 m / 1000)), .lit ['}', '\n']]
      = timeBytes (decimal (u32 m / 1000)) := by
  have hlen : (decimal (u32 m / 1000)).length ≤ 7 := by
    apply decimal_length_le _ _ _ (by decide)
    unfold u32
    omega
  rw [fmtBytes_fits]
  · simp [Piece.chars, keyLit, timeBytes]
  · simp [Piece.chars, keyLit]; omega
  · intro c hc
    simp only [List.map, Piece.chars, List.flatten, List.append_nil, List.mem_append,
      keyLit, String.toList, List.mem_cons, List.mem_singleton, List.not_mem_nil, or_false] at hc
    rcases hc with (h | h | h | h) | h | h | h
    all_goals first | exact decimal_ne_nul _ c h | (subst h; decide)

theorem wire_room (l : Int) :
    wire ([.fmt [.lit ['"', 'r', 't', '"']], .chr ':'] ++ doubleEvents l ++ [.chr ','])
      = itemBytes "rt".toList (wire (doubleEvents l)) := by
  have h : fmtBytes [.lit ['"', 'r', 't', '"']] = ['"', 'r', 't', '"'] := by decide
  simp only [wire_append, wire_cons, wire_nil, Event.bytes, h, itemBytes]
  simp

theorem wire_state (n : Nat) :
    wire [.fmt [.lit (keyLit "s"), .arg (decimal (u8 n)), .lit [',']]]
      = itemBytes "s".toList (decimal (u8 n)) := by
  have h := fmtBytes_item "s" "s".toList (decimal (u8 n)) rfl (by decide) (by decide)
    (decimal_u8_length n) (decimal_ne_nul _)
  simp only [wire_cons, wire_nil, Event.bytes, h, List.append_nil]

theorem map_fst_ite (c : Prop) [Decidable c] (k v : List Char) :
    (if c then [(k, v)] else []).map Prod.fst = if c then [k] else [] := by
  split <;> rfl

/-- Claim C13, as amended. For every build, tracker state and control state,
when the temperatures are formatted within their buffer of 9 bytes and the
annotation texts have at most 124 bytes, the output of
`printTemperaturesJSON` is `T`, in multi-zone builds the zone character, a
colon, an opening brace, then items of the form `"key":value` that each end
with one comma, with keys taken in order from `bt`, `bs`, `ba`, `ft`, `fs`,
`fa`, `rt`, `s`, then `"t":<millis/1000>`, a closing brace and one line
feed. -/
theorem printTemperaturesJSON_shape (E : Ext) (b : Build) (ba fa : Option Ann) (s : Sys)
    (hT : ∀ v, (cstr (E.tempToString v 2 9)).length ≤ 8)
    (hba : ∀ x, ba = some x → (cstr x.text).length ≤ 124)
    (hfa : ∀ x, fa = some x → (cstr x.text).length ≤ 124) :
    ∃ items : List (List Char × List Char),
      (items.map Prod.fst).Sublist reportKeys ∧
      wire (since s (printTemperaturesJSON E b ba fa s)) =
        'T' :: ((zoneChar b s).toList ++ ':' :: '{' ::
          (itemsBytes items ++ timeBytes (decimal (u32 s.millis / 1000)))) := by
  refine ⟨
    (if E.getBeerTemp s.tc ≠ s.tracker.beerTemp then
        [("bt".toList, cstr (E.tempToString (E.getBeerTemp s.tc) 2 9))] else []) ++
    ((if E.getBeerSetting s.tc ≠ s.tracker.beerSet then
        [("bs".toList, cstr (E.tempToString (E.getBeerSetting s.tc) 2 9))] else []) ++
    ((if ba.map Ann.addr ≠ s.tracker.beerAnn then [("ba".toList, annValue ba)] else []) ++
    ((if E.getFridgeTemp s.tc ≠ s.tracker.fridgeTemp then
        [("ft".toList, cstr (E.tempToString (E.getFridgeTemp s.tc) 2 9))] else []) ++
    ((if E.getFridgeSetting s.tc ≠ s.tracker.fridgeSet then
        [("fs".toList, cstr (E.tempToString (E.getFridgeSetting s.tc) 2 9))] else []) ++
    ((if fa.map Ann.addr ≠ s.tracker.fridgeAnn then [("fa".toList, annValue fa)] else []) ++
    ((if b.simulate = true ∧ E.dne (s.sim.roomTemp E) s.tracker.roomTemp = true then
        [("rt".toList, wire (doubleEvents (E.scale10000 (s.sim.roomTemp E))))] else []) ++
    ((if u8 (E.getState s.tc) ≠ s.tracker.state then
        [("s".toList, decimal (u8 (E.getState s.tc)))] else []) ++ []))))))), ?_, ?_⟩
  · simp only [List.map_append, map_fst_ite, List.map_nil, reportKeys]
    exact sublist_opt _ _ _ _ (sublist_opt _ _ _ _ (sublist_opt _ _ _ _ (sublist_opt _ _ _ _
      (sublist_opt _ _ _ _ (sublist_opt _ _ _ _ (sublist_opt _ _ _ _ (sublist_opt _ _ _ _
        (List.Sublist.refl []))))))))
  · rw [since_report]
    unfold reportEvents
    simp only [wire_append, wire_ite, itemsBytes_append, itemsBytes_ite,
      wire_tempEvents E "bt" "bt".toList _ rfl (by decide) (by decide) (hT _),
      wire_tempEvents E "bs" "bs".toList _ rfl (by decide) (by decide) (hT _),
      wire_tempEvents E "ft" "ft".toList _ rfl (by decide) (by decide) (hT _),
      wire_tempEvents E "fs" "fs".toList _ rfl (by decide) (by decide) (hT _),
      wire_annEvents "ba" "ba".toList ba rfl (by decide) (by decide) hba,
      wire_annEvents "fa" "fa".toList fa rfl (by decide) (by decide) hfa,
      wire_room, wire_state, wire_cons, wire_nil, Event.bytes, fmtBytes_time, zoneChar,
      itemsBytes, List.append_nil]
    have hrt : fmtBytes [.lit ['"', 'r', 't', '"']] = ['"', 'r', 't', '"'] := by decide
    have hst := fmtBytes_item "s" "s".toList (decimal (u8 (E.getState s.tc))) rfl (by decide)
      (by decide) (decimal_u8_length _) (decimal_ne_nul _)
    rw [hrt, hst]
    simp [List.append_assoc, itemBytes]

/-- A report with two short annotations in the concrete state. -/
theorem printTemperaturesJSON_shape_witness :
    ∃ items : List (List Char × List Char),
      (items.map Prod.fst).Sublist reportKeys ∧
      wire (since demoSys (printTemperaturesJSON demoExt plainBuild
        (some ⟨2200, "warm".toList⟩) (some ⟨2300, "cold".toList⟩) demoSys)) =
        'T' :: ((zoneChar plainBuild demoSys).toList ++ ':' :: '{' ::
          (itemsBytes items ++ timeBytes (decimal (u32 demoSys.millis / 1000)))) :=
  printTemperaturesJSON_shape demoExt plainBuild (some ⟨2200, "warm".toList⟩)
    (some ⟨2300, "cold".toList⟩) demoSys
    (fun v => by
      have h1 := cstr_length_le ((demoFixed v 2).take (9 - 1))
      have h2 : ((demoFixed v 2).take (9 - 1)).length ≤ 8 := by
        rw [List.length_take]
        omega
      exact le_trans h1 h2)
    (by intro x hx; cases hx; decide) (by intro x hx; cases hx; decide)

/-- A report in which only a beer annotation of 125 bytes is written: the
comma after the annotation is cut off, the output holds no comma at all. -/
theorem printTemperaturesJSON_long_annotation :
    ¬ ClaimedReport
      (wire (since demoLater
        (printTemperaturesJSON demoExt plainBuild (some demoLongAnn) none demoLater)))
      (decimal (u32 demoLater.millis / 1000)) := by
  rintro ⟨items, h⟩
  have hc : ',' ∉ wire (since demoLater
      (printTemperaturesJSON demoExt plainBuild (some demoLongAnn) none demoLater)) := by
    decide
  cases items with
  | nil => exact absurd h (by decide)
  | cons x rest =>
    obtain ⟨k, v⟩ := x
    apply hc
    rw [h]
    simp [itemsBytes, itemBytes]

/-- The first report after start-up, without annotations: the annotation
keys are not written. -/
theorem first_report_without_annotations :
    demoSys.tracker = Tracker.init ⟨0⟩ ∧
      writesKey "ba" (since demoSys (printTemperaturesJSON demoExt plainBuild none none demoSys))
        = false ∧
      writesKey "fa" (since demoSys (printTemperaturesJSON demoExt plainBuild none none demoSys))
        = false := by
  decide

/-- Claim C14, as amended. In the first temperature report after start-up
(the tracker holds its initial values: -1 for the four temperatures, 0xFF for
the state, null for the two annotations) a numeric field is written exactly
when its current value differs from the initial value, and an annotation key
is written exactly when the annotation argument is not null. -/
theorem printTemperaturesJSON_first_report (E : Ext) (b : Build) (ba fa : Option Ann)
    (s : Sys) (m : Dbl) (h : s.tracker = Tracker.init m) :
    (writesKey "bt" (since s (printTemperaturesJSON E b ba fa s)) = true ↔
        E.getBeerTemp s.tc ≠ -1) ∧
    (writesKey "bs" (since s (printTemperaturesJSON E b ba fa s)) = true ↔
        E.getBeerSetting s.tc ≠ -1) ∧
    (writesKey "ba" (since s (printTemperaturesJSON E b ba fa s)) = true ↔ ba ≠ none) ∧
    (writesKey "ft" (since s (printTemperaturesJSON E b ba fa s)) = true ↔
        E.getFridgeTemp s.tc ≠ -1) ∧
    (writesKey "fs" (since s (printTemperaturesJSON E b ba fa s)) = true ↔
        E.getFridgeSetting s.tc ≠ -1) ∧
    (writesKey "fa" (since s (printTemperaturesJSON E b ba fa s)) = true ↔ fa ≠ none) ∧
    (writesKey "s" (since s (printTemperaturesJSON E b ba fa s)) = true ↔
        u8 (E.getState s.tc) ≠ 0xFF) := by
  rw [since_report]
  obtain ⟨h1, h2, h3, h4, h5⟩ := reportEvents_writes_numeric E b ba fa s
  have h6 := reportEvents_writes_ba E b ba fa s
  have h7 := reportEvents_writes_fa E b ba fa s
  rw [h] at h1 h2 h3 h4 h5 h6 h7
  refine ⟨h1, h2, ?_, h3, h4, ?_, h5⟩
  · rw [h6]
    cases ba <;> simp [Tracker.init]
  · rw [h7]
    cases fa <;> simp [Tracker.init]

/-- The first report after start-up in the concrete state, with two
annotations: all seven keys are written. -/
theorem printTemperaturesJSON_first_report_witness :
    writesKey "bt" (since demoSys
        (printTemperaturesJSON demoExt plainBuild (some demoAnn) (some demoAnn) demoSys)) = true ∧
      writesKey "ba" (since demoSys
        (printTemperaturesJSON demoExt plainBuild (some demoAnn) (some demoAnn) demoSys)) = true ∧
      writesKey "fa" (since demoSys
        (printTemperaturesJSON demoExt plainBuild (some demoAnn) (some demoAnn) demoSys)) = true ∧
      writesKey "s" (since demoSys
        (printTemperaturesJSON demoExt plainBuild (some demoAnn) (some demoAnn) demoSys)) = true :=
  have h := printTemperaturesJSON_first_report demoExt plainBuild (some demoAnn) (some demoAnn)
    demoSys ⟨0⟩ rfl
  ⟨h.1.mpr (by decide), h.2.2.1.mpr (by decide), h.2.2.2.2.2.1.mpr (by decide),
    h.2.2.2.2.2.2.mpr (by decide)⟩

/-- The value of an annotation of at most 125 bytes is written with both its
double quotes. -/
theorem fmtBytes_annText_prefix (x : List Char) (hnul : ∀ c ∈ x, c ≠ '\x00')
    (hlen : x.length ≤ 125) :
    quoted x <+: fmtBytes [.lit "\"".toList, .arg x, .lit "\",".toList] := by
  unfold fmtBytes
  have hflat : (([Piece.lit "\"".toList, Piece.arg x, Piece.lit "\",".toList] : List Piece).map
      Piece.chars).flatten = quoted x ++ [','] := by
    simp [Piece.chars, quoted]
  have hq : (quoted x).length ≤ 127 := by simp [quoted]; omega
  have hqn : ∀ c ∈ quoted x, c ≠ '\x00' := by
    intro c hc
    simp only [quoted, List.mem_cons, List.mem_append, List.mem_singleton, List.not_mem_nil,
      or_false] at hc
    rcases hc with h | h | h
    · subst h; decide
    · exact hnul c h
    · subst h; decide
  rw [hflat, List.take_append_eq_append_take, List.take_of_length_le hq, cstr_append _ _ hqn]
  exact List.prefix_append _ _

theorem wire_infix (a l : List Event) (h : a <:+: l) : wire a <:+: wire l := by
  obtain ⟨p, q, rfl⟩ := h
  exact ⟨wire p, wire q, by simp [wire_append]⟩

/-- A beer annotation of 126 bytes: the report writes the opening quote and
the text, the closing quote and the comma are cut off. -/
theorem annotation_value_cut_off :
    wire (since demoLater
        (printTemperaturesJSON demoExt plainBuild (some demoLongerAnn) none demoLater))
      = "T:\x7b\"ba\":\"".toList ++ List.replicate 126 'a' ++ "\"t\":75\x7d\n".toList ∧
    ¬ (quoted (cstr demoLongerAnn.text) <+:
        fmtBytes [.lit "\"".toList, .arg (cstr demoLongerAnn.text), .lit "\",".toList]) := by
  decide

/-- Claim C15, as amended. The two annotation fields are tracked by the
address of the text: for every tracker state the key `ba` (`fa`) is written
exactly when the address passed differs from the address that the tracker
holds, the tracker then holds the address passed, and when the key is written
it is followed by the print of the value: `null,` for the null pointer, and
for a text of at most 125 bytes the text with both its double quotes (longer
texts lose the closing quote).  A report without annotations that follows a
report with a beer (fridge) annotation writes the key with `null`. -/
theorem annotations_tracked_by_reference (E : Ext) (b : Build) (ba fa : Option Ann) (s : Sys) :
    ((writesKey "ba" (since s (printTemperaturesJSON E b ba fa s)) = true ↔
        ba.map Ann.addr ≠ s.tracker.beerAnn) ∧
      (printTemperaturesJSON E b ba fa s).tracker.beerAnn = ba.map Ann.addr ∧
      (ba.map Ann.addr ≠ s.tracker.beerAnn →
        annEvents "ba" ba <:+: since s (printTemperaturesJSON E b ba fa s))) ∧
    ((writesKey "fa" (since s (printTemperaturesJSON E b ba fa s)) = true ↔
        fa.map Ann.addr ≠ s.tracker.fridgeAnn) ∧
      (printTemperaturesJSON E b ba fa s).tracker.fridgeAnn = fa.map Ann.addr ∧
      (fa.map Ann.addr ≠ s.tracker.fridgeAnn →
        annEvents "fa" fa <:+: since s (printTemperaturesJSON E b ba fa s))) ∧
    fmtBytes [.lit "null,".toList] = "null,".toList ∧
    (∀ x : Ann, (cstr x.text).length ≤ 125 →
      quoted (cstr x.text) <+:
        fmtBytes [.lit "\"".toList, .arg (cstr x.text), .lit "\",".toList]) ∧
    (∀ x : Ann, annEvents "ba" none <:+:
      since (printTemperaturesJSON E b (some x) fa s)
        (printTemperatures E b (printTemperaturesJSON E b (some x) fa s))) ∧
    (∀ x : Ann, annEvents "fa" none <:+:
      since (printTemperaturesJSON E b ba (some x) s)
        (printTemperatures E b (printTemperaturesJSON E b ba (some x) s))) := by
  refine ⟨⟨?_, ?_, ?_⟩, ⟨?_, ?_, ?_⟩, by decide, ?_, ?_, ?_⟩
  · rw [since_report]; exact reportEvents_writes_ba E b ba fa s
  · simp [printTemperaturesJSON_eq, trackerAfter]
  · intro h; rw [since_report]; exact reportEvents_infix_ba E b ba fa s h
  · rw [since_report]; exact reportEvents_writes_fa E b ba fa s
  · simp [printTemperaturesJSON_eq, trackerAfter]
  · intro h; rw [since_report]; exact reportEvents_infix_fa E b ba fa s h
  · intro x hx
    exact fmtBytes_annText_prefix _ (cstr_no_nul _) hx
  · intro x
    unfold printTemperatures
    rw [since_report]
    apply reportEvents_infix_ba
    simp [printTemperaturesJSON_eq, trackerAfter]
  · intro x
    unfold printTemperatures
    rw [since_report]
    apply reportEvents_infix_fa
    simp [printTemperaturesJSON_eq, trackerAfter]

/-- A report with a beer annotation, then a report without: the second one
writes `"ba":null`. -/
theorem annotations_tracked_by_reference_witness :
    (cstr demoAnn.text).length ≤ 125 ∧
      quoted (cstr demoAnn.text) <+:
        fmtBytes [.lit "\"".toList, .arg (cstr demoAnn.text), .lit "\",".toList] ∧
      annEvents "ba" none <:+:
        since (printTemperaturesJSON demoExt plainBuild (some demoAnn) none demoSys)
          (printTemperatures demoExt plainBuild
            (printTemperaturesJSON demoExt plainBuild (some demoAnn) none demoSys)) ∧
      wire (since (printTemperaturesJSON demoExt plainBuild (some demoAnn) none demoSys)
          (printTemperatures demoExt plainBuild
            (printTemperaturesJSON demoExt plainBuild (some demoAnn) none demoSys)))
        = "T:\x7b\"ba\":null,\"t\":61\x7d\n".toList :=
  have h := annotations_tracked_by_reference demoExt plainBuild (some demoAnn) none demoSys
  ⟨by decide, h.2.2.2.1 demoAnn (by decide), h.2.2.2.2.1 demoAnn, by decide⟩

theorem firstByte_ne_nul (val : List Char) (hv : cstr val ≠ []) : firstByte val ≠ '\x00' := by
  cases val with
  | nil => exact absurd rfl hv
  | cons c v =>
    intro h
    simp only [firstByte, List.headD_cons] at h
    apply hv
    simp [cstr, h]

theorem modeText_no_nul (c : Char) (hc : c ≠ '\x00') : ∀ x ∈ modeText c, x ≠ '\x00' := by
  intro x hx
  unfold modeText at hx
  rw [List.mem_append, List.mem_cons] at hx
  rcases hx with h | h | h
  · exact (by decide : ∀ y ∈ "Mode set to ".toList, y ≠ '\x00') x h
  · rw [h]; exact hc
  · exact (by decide : ∀ y ∈ " in web interface".toList, y ≠ '\x00') x h

theorem fmtBytes_modeText (c : Char) (hc : c ≠ '\x00') :
    fmtBytes [.lit "Mode set to ".toList, .arg [c], .lit " in web interface".toList]
      = modeText c := by
  rw [fmtBytes_fits]
  · simp [Piece.chars, modeText]
  · simp [Piece.chars]
  · have h := modeText_no_nul c hc
    intro x hx
    apply h
    simpa [Piece.chars, modeText] using hx

theorem debugMessage_eq (b : Build) (ps : List Piece) (s : Sys) :
    debugMessage b ps s =
      { s with
        firstPair := true
        trace := s.trace ++ [.response 'D' (zoneChar b s), .fmt ps, .chr '\n'] } := by
  simp [debugMessage, printResponse, Sys.emit, zoneChar]

/-- Claim C16. For every value that is not empty, the pair with the key
`mode` calls `setMode` with the first byte of the value (so that, for a
`setMode` that stores its argument, the mode is that byte); the trace gets
the received-setting diagnostic, the call of `setMode`, and one temperature
report with no beer annotation and the text
`Mode set to <first byte> in web interface` as fridge annotation; when the
tracker holds the null pointer as fridge annotation, that report writes the
key `fa` followed by the text in double quotes. -/
theorem processJsonPair_mode (E : Ext) (b : Build) (key val : List Char) (s : Sys)
    (hk : keyIs E key .mode = true) (hv : cstr val ≠ []) (hset : SetsMode E) :
    (processJsonPair E b key val s).tc = E.setMode (firstByte val) s.tc ∧
    (processJsonPair E b key val s).tc.cs.mode = firstByte val ∧
    since s (processJsonPair E b key val s) =
      [.response 'D' (zoneChar b s),
        .fmt [.lit "Received new setting: ".toList, .arg (cstr key), .lit " = ".toList,
          .arg (cstr val)],
        .chr '\n', .setMode (firstByte val)] ++
      reportEvents E b none (some ⟨E.fridgeAnnBuf, modeText (firstByte val)⟩)
        { s with tc := E.setMode (firstByte val) s.tc } ∧
    (s.tracker.fridgeAnn = none →
      annEvents "fa" (some ⟨E.fridgeAnnBuf, modeText (firstByte val)⟩)
          <:+: since s (processJsonPair E b key val s) ∧
        wire (annEvents "fa" (some ⟨E.fridgeAnnBuf, modeText (firstByte val)⟩))
          = "\"fa\":\"".toList ++ modeText (firstByte val) ++ "\",".toList) := by
  have hc := firstByte_ne_nul val hv
  have heq : processJsonPair E b key val s =
      { s with
        firstPair := false
        tc := E.setMode (firstByte val) s.tc
        tracker := trackerAfter E b none (some ⟨E.fridgeAnnBuf, modeText (firstByte val)⟩)
          { s with tc := E.setMode (firstByte val) s.tc }
        trace := s.trace ++ ([.response 'D' (zoneChar b s),
          .fmt [.lit "Received new setting: ".toList, .arg (cstr key), .lit " = ".toList,
            .arg (cstr val)],
          .chr '\n', .setMode (firstByte val)] ++
          reportEvents E b none (some ⟨E.fridgeAnnBuf, modeText (firstByte val)⟩)
            { s with tc := E.setMode (firstByte val) s.tc }) } := by
    unfold processJsonPair applySetting
    simp only [hk, if_true]
    unfold printFridgeAnnotation
    rw [fmtBytes_modeText _ hc, printTemperaturesJSON_eq, debugMessage_eq]
    simp only [Sys.emit, List.append_assoc, List.cons_append, List.nil_append]
    rfl
  have hsince : since s (processJsonPair E b key val s) =
      [.response 'D' (zoneChar b s),
        .fmt [.lit "Received new setting: ".toList, .arg (cstr key), .lit " = ".toList,
          .arg (cstr val)],
        .chr '\n', .setMode (firstByte val)] ++
      reportEvents E b none (some ⟨E.fridgeAnnBuf, modeText (firstByte val)⟩)
        { s with tc := E.setMode (firstByte val) s.tc } :=
    since_append _ _ _ (by rw [heq])
  refine ⟨by rw [heq], by rw [heq]; exact hset _ _, hsince, ?_⟩
  intro hnull
  constructor
  · rw [hsince]
    apply infix_append_left
    apply reportEvents_infix_fa
    simp [hnull]
  · rw [wire_annEvents "fa" "fa".toList _ rfl (by decide) (by decide)]
    · simp [itemBytes, annValue, quoted, cstr_eq_self _ (modeText_no_nul _ hc)]
    · intro x hx
      cases hx
      rw [cstr_eq_self _ (modeText_no_nul _ hc)]
      simp [modeText]

set_option maxRecDepth 20000 in
/-- The message `j{"mode":"f"}` in a single-zone build without the simulator:
the mode becomes `f`; the diagnostic, the annotated temperature report, the
two persistence calls, the settings report and the constants report follow
one another. -/
theorem processJsonPair_mode_witness :
    (processJsonPair demoExt plainBuild "mode".toList "f".toList demoSys).tc.cs.mode = 'f' ∧
    (receive demoExt plainBuild "j\x7b\"mode\":\"f\"\x7d".toList demoSys).map
        (fun r => (r.1, r.2.tc.cs.mode, r.2.trace.filter Event.isHead, wire r.2.trace)) =
      some ([], 'f',
        [.response 'D' none, .response 'T' none, .storeSettings, .storeConstants,
          .response 'S' none, .response 'C' none],
        ("D:Received new setting: mode = f\n" ++
          "T:\x7b\"bt\":19.14,\"bs\":19.0,\"ft\":17.77,\"fs\":18.0," ++
          "\"fa\":\"Mode set to f in web interface\",\"s\":0,\"t\":61\x7d\n" ++
          "S:\x7b\"mode\":\"f\",\"beerSet\":19.0,\"fridgeSet\":18.0,\"heatEst\":0.199," ++
          "\"coolEst\":5.0\x7d\n" ++
          "C:\x7b\"tempFormat\":\"C\",\"tempSetMin\":1.0,\"tempSetMax\":30.0,\"Kp\":20.0," ++
          "\"Ki\":0.599,\"Kd\":-3.0,\"iMaxErr\":0.500,\"idleRangeH\":1.0,\"idleRangeL\":-1.0," ++
          "\"heatTargetH\":0.300,\"heatTargetL\":-0.199,\"coolTargetH\":0.199," ++
          "\"coolTargetL\":-0.300,\"maxHeatTimeForEst\":\"600\",\"maxCoolTimeForEst\":\"1200\"," ++
          "\"fridgeFastFilt\":\"1\",\"fridgeSlowFilt\":\"4\",\"fridgeSlopeFilt\":\"3\"," ++
          "\"beerFastFilt\":\"3\",\"beerSlowFilt\":\"5\",\"beerSlopeFilt\":\"4\"\x7d\n").toList) :=
  ⟨(processJsonPair_mode demoExt plainBuild "mode".toList "f".toList demoSys
      (by decide) (by decide) (fun _ _ => rfl)).2.1, by decide⟩

theorem applySetting_unknown (E : Ext) (b : Build) (key val : List Char) (s : Sys)
    (hk : ∀ k ∈ settingsKeys, keyIs E key k = false) :
    applySetting E b key val s = debugMessage b [.lit "Could not process setting".toList] s := by
  simp only [settingsKeys, List.forall_mem_cons, List.not_mem_nil, false_implies,
    implies_true, and_true] at hk
  obtain ⟨h1, h2, h3, h4, h5, h6, h7, h8, h9, h10, h11, h12, h13, h14, h15, h16, h17, h18, h19,
    h20, h21, h22, h23, h24, h25, h26⟩ := hk
  unfold applySetting
  simp only [h1, h2, h3, h4, h5, h6, h7, h8, h9, h10, h11, h12, h13, h14, h15, h16, h17, h18,
    h19, h20, h21, h22, h23, h24, h25, h26, Bool.false_eq_true, if_false]

theorem keyIs_other (E : Ext) (key : List Char) (hd : KeysDistinct E) (j : JsonKey)
    (hj : j ∈ settingsKeys) (hk : keyIs E key j = true) :
    ∀ k ∈ settingsKeys, k ≠ j → keyIs E key k = false := by
  intro k hks hne
  by_contra h
  have h2 : keyIs E key k = true := by simpa using h
  unfold keyIs at hk h2
  have e1 : cstr key = cstr (E.jsonKey j) := by simpa using hk
  have e2 : cstr key = cstr (E.jsonKey k) := by simpa using h2
  exact hne (hd k hks j hj (e2.symm.trans e1))

theorem applySetting_fridgeFastFilter (E : Ext) (b : Build) (key val : List Char) (s : Sys)
    (hd : KeysDistinct E) (hk : keyIs E key .fridgeFastFilter = true) :
    applySetting E b key val s =
      (s.setCc (fun cc => { cc with fridgeFastFilter := u8 (E.strtoul (cstr val)) })).emit
        (.setFilter .fridge .fast (u8 (E.strtoul (cstr val)))) := by
  have h := keyIs_other E key hd _ (by decide) hk
  simp [settingsKeys] at h
  unfold applySetting
  simp only [h, hk, Bool.false_eq_true, if_false, if_true]
  rfl

theorem applySetting_fridgeSlowFilter (E : Ext) (b : Build) (key val : List Char) (s : Sys)
    (hd : KeysDistinct E) (hk : keyIs E key .fridgeSlowFilter = true) :
    applySetting E b key val s =
      (s.setCc (fun cc => { cc with fridgeSlowFilter := u8 (E.strtoul (cstr val)) })).emit
        (.setFilter .fridge .slow (u8 (E.strtoul (cstr val)))) := by
  have h := keyIs_other E key hd _ (by decide) hk
  simp [settingsKeys] at h
  unfold applySetting
  simp only [h, hk, Bool.false_eq_true, if_false, if_true]
  rfl

theorem applySetting_fridgeSlopeFilter (E : Ext) (b : Build) (key val : List Char) (s : Sys)
    (hd : KeysDistinct E) (hk : keyIs E key .fridgeSlopeFilter = true) :
    applySetting E b key val s =
      (s.setCc (fun cc => { cc with fridgeSlopeFilter := u8 (E.strtoul (cstr val)) })).emit
        (.setFilter .fridge .slope (u8 (E.strtoul (cstr val)))) := by
  have h := keyIs_other E key hd _ (by decide) hk
  simp [settingsKeys] at h
  unfold applySetting
  simp only [h, hk, Bool.false_eq_true, if_false, if_true]
  rfl

theorem applySetting_beerFastFilter (E : Ext) (b : Build) (key val : List Char) (s : Sys)
    (hd : KeysDistinct E) (hk : keyIs E key .beerFastFilter = true) :
    applySetting E b key val s =
      (s.setCc (fun cc => { cc with beerFastFilter := u8 (E.strtoul (cstr val)) })).emit
        (.setFilter .beer .fast (u8 (E.strtoul (cstr val)))) := by
  have h := keyIs_other E key hd _ (by decide) hk
  simp [settingsKeys] at h
  unfold applySetting
  simp only [h, hk, Bool.false_eq_true, if_false, if_true]
  rfl

theorem applySetting_beerSlowFilter (E : Ext) (b : Build) (key val : List Char) (s : Sys)
    (hd : KeysDistinct E) (hk : keyIs E key .beerSlowFilter = true) :
    applySetting E b key val s =
      (s.setCc (fun cc => { cc with beerSlowFilter := u8 (E.strtoul (cstr val)) })).emit
        (.setFilter .beer .slow (u8 (E.strtoul (cstr val)))) := by
  have h := keyIs_other E key hd _ (by decide) hk
  simp [settingsKeys] at h
  unfold applySetting
  simp only [h, hk, Bool.false_eq_true, if_false, if_true]
  rfl

theorem applySetting_beerSlopeFilter (E : Ext) (b : Build) (key val : List Char) (s : Sys)
    (hd : KeysDistinct E) (hk : keyIs E key .beerSlopeFilter = true) :
    applySetting E b key val s =
      (s.setCc (fun cc => { cc with beerSlopeFilter := u8 (E.strtoul (cstr val)) })).emit
        (.setFilter .beer .slope (u8 (E.strtoul (cstr val)))) := by
  have h := keyIs_other E key hd _ (by decide) hk
  simp [settingsKeys] at h
  unfold applySetting
  simp only [h, hk, Bool.false_eq_true, if_false, if_true]
  rfl

/-- Claim C17. For every key whose text differs from the texts of all the
settings keys, and for every value: `processJsonPair` writes the
received-setting diagnostic and then the diagnostic
`Could not process setting`, and nothing else happens (no call of a filter
update, no temperature report); the control state, the tracker and the
display stay as they are.  In `receiveJson` the pair that follows such a
pair is decoded and handed to `processJsonPair` as after any other pair. -/
theorem processJsonPair_unknown_key (E : Ext) (b : Build) (key : List Char)
    (hk : ∀ k ∈ settingsKeys, keyIs E key k = false) :
    (∀ (val : List Char) (s : Sys),
      since s (processJsonPair E b key val s) =
        [.response 'D' (zoneChar b s),
          .fmt [.lit "Received new setting: ".toList, .arg (cstr key), .lit " = ".toList,
            .arg (cstr val)],
          .chr '\n',
          .response 'D' (zoneChar b s),
          .fmt [.lit "Could not process setting".toList],
          .chr '\n'] ∧
      (processJsonPair E b key val s).tc = s.tc ∧
      (processJsonPair E b key val s).tracker = s.tracker ∧
      (processJsonPair E b key val s).display = s.display) ∧
    (∀ (p q : RawPair) (t : Char) (rest : List Char) (s : Sys),
      p.fits → q.fits → (t = ',' ∨ t = '}') → specKey p.k = key →
      receiveJson E b (p.bytes ',' ++ (q.bytes t ++ rest)) s =
        if t = '}' then
          (rest, lastPair E b (applyPair E b
            (processJsonPair E b key (specVal p.v)
              (waits E (p.k.length + p.v.length + 2) (waitMillis E 1 s))) q))
        else
          receiveJsonPairs E b rest (applyPair E b
            (processJsonPair E b key (specVal p.v)
              (waits E (p.k.length + p.v.length + 2) (waitMillis E 1 s))) q)) := by
  constructor
  · intro val s
    have heq : processJsonPair E b key val s =
        { s with
          firstPair := true
          trace := s.trace ++ [.response 'D' (zoneChar b s),
            .fmt [.lit "Received new setting: ".toList, .arg (cstr key), .lit " = ".toList,
              .arg (cstr val)],
            .chr '\n',
            .response 'D' (zoneChar b s),
            .fmt [.lit "Could not process setting".toList],
            .chr '\n'] } := by
      unfold processJsonPair
      rw [applySetting_unknown E b key val _ hk, debugMessage_eq, debugMessage_eq]
      simp [zoneChar]
    exact ⟨since_append _ _ _ (by rw [heq]), by rw [heq], by rw [heq], by rw [heq]⟩
  · intro p q t rest s hp hq ht hkey
    rw [receiveJson_eq, receiveJsonPairs_pair E b p ',' _ _ hp (Or.inl rfl), if_neg (by decide),
      receiveJsonPairs_pair E b q t rest _ hq ht]
    subst hkey
    rfl

/-- The message `j{"colour":"red","Kp":"5"}`: two diagnostics for the first
pair, then the second pair sets the gain. -/
theorem processJsonPair_unknown_key_witness :
    (∀ k ∈ settingsKeys, keyIs demoExt "colour".toList k = false) ∧
    since demoSys (processJsonPair demoExt plainBuild "colour".toList "red".toList demoSys) =
      [.response 'D' none,
        .fmt [.lit "Received new setting: ".toList, .arg "colour".toList, .lit " = ".toList,
          .arg "red".toList],
        .chr '\n',
        .response 'D' none,
        .fmt [.lit "Could not process setting".toList],
        .chr '\n'] ∧
    (receive demoExt simBuild demoUnknown demoSys).map
        (fun r => (r.1, r.2.tc.cc.Kp, wire r.2.trace)) =
      some ([], 2560,
        ("D:Received new setting: colour = red\nD:Could not process setting\n" ++
          "D:Received new setting: Kp = 5\n").toList) :=
  ⟨by decide,
    ((processJsonPair_unknown_key demoExt plainBuild "colour".toList (by decide)).1
      "red".toList demoSys).1,
    by decide⟩

/-- Claim C18. When the key texts are distinct: for each of the six filter
keys and every value, `processJsonPair` writes its diagnostic, stores the
parsed unsigned integer (narrowed to the 8 bits of the constant) in the
constant of the same name and in no other field, and then calls the update
of the same filter kind on the same sensor with the value just stored; this
is all it does. -/
theorem processJsonPair_filter_keys (E : Ext) (b : Build) (key val : List Char) (s : Sys)
    (hd : KeysDistinct E) :
    (keyIs E key .fridgeFastFilter = true →
      processJsonPair E b key val s =
        ((receivedSetting b key val s).setCc
          (fun cc => { cc with fridgeFastFilter := u8 (E.strtoul (cstr val)) })).emit
          (.setFilter .fridge .fast
            (processJsonPair E b key val s).tc.cc.fridgeFastFilter)) ∧
    (keyIs E key .fridgeSlowFilter = true →
      processJsonPair E b key val s =
        ((receivedSetting b key val s).setCc
          (fun cc => { cc with fridgeSlowFilter := u8 (E.strtoul (cstr val)) })).emit
          (.setFilter .fridge .slow
            (processJsonPair E b key val s).tc.cc.fridgeSlowFilter)) ∧
    (keyIs E key .fridgeSlopeFilter = true →
      processJsonPair E b key val s =
        ((receivedSetting b key val s).setCc
          (fun cc => { cc with fridgeSlopeFilter := u8 (E.strtoul (cstr val)) })).emit
          (.setFilter .fridge .slope
            (processJsonPair E b key val s).tc.cc.fridgeSlopeFilter)) ∧
    (keyIs E key .beerFastFilter = true →
      processJsonPair E b key val s =
        ((receivedSetting b key val s).setCc
          (fun cc => { cc with beerFastFilter := u8 (E.strtoul (cstr val)) })).emit
          (.setFilter .beer .fast
            (processJsonPair E b key val s).tc.cc.beerFastFilter)) ∧
    (keyIs E key .beerSlowFilter = true →
      processJsonPair E b key val s =
        ((receivedSetting b key val s).setCc
          (fun cc => { cc with beerSlowFilter := u8 (E.strtoul (cstr val)) })).emit
          (.setFilter .beer .slow
            (processJsonPair E b key val s).tc.cc.beerSlowFilter)) ∧
    (keyIs E key .beerSlopeFilter = true →
      processJsonPair E b key val s =
        ((receivedSetting b key val s).setCc
          (fun cc => { cc with beerSlopeFilter := u8 (E.strtoul (cstr val)) })).emit
          (.setFilter .beer .slope
            (processJsonPair E b key val s).tc.cc.beerSlopeFilter)) := by
  refine ⟨?_, ?_, ?_, ?_, ?_, ?_⟩ <;> intro hk
  · have h : processJsonPair E b key val s = _ :=
      applySetting_fridgeFastFilter E b key val _ hd hk
    rw [h]; rfl
  · have h : processJsonPair E b key val s = _ :=
      applySetting_fridgeSlowFilter E b key val _ hd hk
    rw [h]; rfl
  · have h : processJsonPair E b key val s = _ :=
      applySetting_fridgeSlopeFilter E b key val _ hd hk
    rw [h]; rfl
  · have h : processJsonPair E b key val s = _ :=
      applySetting_beerFastFilter E b key val _ hd hk
    rw [h]; rfl
  · have h : processJsonPair E b key val s = _ :=
      applySetting_beerSlowFilter E b key val _ hd hk
    rw [h]; rfl
  · have h : processJsonPair E b key val s = _ :=
      applySetting_beerSlopeFilter E b key val _ hd hk
    rw [h]; rfl

theorem demoExt_keysDistinct : KeysDistinct demoExt := by decide

/-- The pair `beerSlowFilt:2` stores 2 in the constant of the slow beer
filter and updates the slow filter of the beer sensor with 2. -/
theorem processJsonPair_filter_keys_witness :
    KeysDistinct demoExt ∧
    keyIs demoExt "beerSlowFilt".toList .beerSlowFilter = true ∧
    processJsonPair demoExt plainBuild "beerSlowFilt".toList "2".toList demoSys =
      ((receivedSetting plainBuild "beerSlowFilt".toList "2".toList demoSys).setCc
        (fun cc => { cc with beerSlowFilter := 2 })).emit (.setFilter .beer .slow 2) :=
  ⟨demoExt_keysDistinct, by decide,
    (processJsonPair_filter_keys demoExt plainBuild "beerSlowFilt".toList "2".toList demoSys
      demoExt_keysDistinct).2.2.2.2.1 (by decide)⟩

theorem fmtBytes_u16 (n : Nat) :
    fmtBytes [.lit ['"'], .arg (decimal (u16 n)), .lit ['"']] = quoted (decimal (u16 n)) := by
  apply fmtBytes_quoted
  · have h := decimal_length_le (u16 n) 5 (by unfold u16; omega) (by decide)
    omega
  · exact decimal_ne_nul _

theorem printResponse_trace (b : Build) (type : Char) (s : Sys) :
    (printResponse b type s).trace = s.trace ++ [.response type (zoneChar b s)] := rfl

theorem printResponse_firstPair (b : Build) (type : Char) (s : Sys) :
    (printResponse b type s).firstPair = true := rfl

theorem printResponse_tc (b : Build) (type : Char) (s : Sys) :
    (printResponse b type s).tc = s.tc := rfl

theorem sendJsonPairStr_trace (name val : List Char) (s : Sys) :
    (sendJsonPairStr name val s).trace = s.trace ++
      [.chr (if s.firstPair then '{' else ','), .chr '"', .fmt [.lit name], .chr '"', .chr ':',
        .str val] := by
  simp [sendJsonPairStr, printJsonName, printJsonSeparator, print_P, Sys.emit]

theorem sendJsonPairStr_firstPair (name val : List Char) (s : Sys) :
    (sendJsonPairStr name val s).firstPair = false := rfl

theorem sendJsonPairStr_tc (name val : List Char) (s : Sys) :
    (sendJsonPairStr name val s).tc = s.tc := rfl

theorem sendJsonPairChar_trace (name : List Char) (val : Char) (s : Sys) :
    (sendJsonPairChar name val s).trace = s.trace ++
      [.chr (if s.firstPair then '{' else ','), .chr '"', .fmt [.lit name], .chr '"', .chr ':',
        .chr '"', .chr val, .chr '"'] := by
  simp [sendJsonPairChar, printJsonName, printJsonSeparator, print_P, Sys.emit]

theorem sendJsonPairChar_firstPair (name : List Char) (val : Char) (s : Sys) :
    (sendJsonPairChar name val s).firstPair = false := rfl

theorem sendJsonPairChar_tc (name : List Char) (val : Char) (s : Sys) :
    (sendJsonPairChar name val s).tc = s.tc := rfl

theorem sendJsonPairU16_trace (name : List Char) (val : Nat) (s : Sys) :
    (sendJsonPairU16 name val s).trace = s.trace ++
      [.chr (if s.firstPair then '{' else ','), .chr '"', .fmt [.lit name], .chr '"', .chr ':',
        .fmt [.lit ['"'], .arg (decimal (u16 val)), .lit ['"']]] := by
  simp [sendJsonPairU16, printJsonName, printJsonSeparator, print_P, Sys.emit]

theorem sendJsonPairU16_firstPair (name : List Char) (val : Nat) (s : Sys) :
    (sendJsonPairU16 name val s).firstPair = false := rfl

theorem sendJsonPairU16_tc (name : List Char) (val : Nat) (s : Sys) :
    (sendJsonPairU16 name val s).tc = s.tc := rfl

theorem sendJsonPairU8_trace (name : List Char) (val : Nat) (s : Sys) :
    (sendJsonPairU8 name val s).trace = s.trace ++
      [.chr (if s.firstPair then '{' else ','), .chr '"', .fmt [.lit name], .chr '"', .chr ':',
        .fmt [.lit ['"'], .arg (decimal (u16 (u8 val))), .lit ['"']]] :=
  sendJsonPairU16_trace name (u8 val) s

theorem sendJsonPairU8_firstPair (name : List Char) (val : Nat) (s : Sys) :
    (sendJsonPairU8 name val s).firstPair = false := rfl

theorem sendJsonPairU8_tc (name : List Char) (val : Nat) (s : Sys) :
    (sendJsonPairU8 name val s).tc = s.tc := rfl

theorem sendJsonClose_trace (s : Sys) :
    (sendJsonClose s).trace = s.trace ++ [.chr '}', .chr '\n'] := by
  simp [sendJsonClose, Sys.emit]

theorem sendJsonClose_tc (s : Sys) : (sendJsonClose s).tc = s.tc := rfl

theorem sendControlSettings_wire (E : Ext) (b : Build) (s : Sys) :
    wire (since s (sendControlSettings E b s)) =
      'S' :: ((zoneChar b s).toList ++ ':' ::
        (objectBytes ((settingsReportKeys.map (keyBytes E)).zip (settingsValues E s.tc.cs))
          ++ ['\n'])) := by
  have htrace : ∃ d, (sendControlSettings E b s).trace = s.trace ++ d ∧
      wire d = 'S' :: ((zoneChar b s).toList ++ ':' ::
        (objectBytes ((settingsReportKeys.map (keyBytes E)).zip (settingsValues E s.tc.cs))
          ++ ['\n'])) := by
    simp only [sendControlSettings, sendJsonClose_trace, sendJsonPairStr_trace, sendJsonPairChar_trace,
      sendJsonPairU16_trace, sendJsonPairU8_trace, printResponse_trace,
      sendJsonPairStr_firstPair, sendJsonPairChar_firstPair, sendJsonPairU16_firstPair,
      sendJsonPairU8_firstPair, printResponse_firstPair, sendJsonPairStr_tc,
      sendJsonPairChar_tc, sendJsonPairU16_tc, sendJsonPairU8_tc, printResponse_tc,
      List.append_assoc, if_true, Bool.false_eq_true, if_false]
    refine ⟨_, rfl, ?_⟩
    simp only [wire, List.map, Event.bytes, fmtBytes_u16, List.cons_append, List.nil_append,
      List.singleton_append]
    simp [objectBytes, pairBytes, settingsReportKeys, settingsValues, keyBytes,
      List.intercalate, List.intersperse]
  obtain ⟨d, h1, h2⟩ := htrace
  rw [since_append _ _ _ h1, h2]

theorem sendControlConstants_wire (E : Ext) (b : Build) (s : Sys) :
    wire (since s (sendControlConstants E b s)) =
      'C' :: ((zoneChar b s).toList ++ ':' ::
        (objectBytes ((constantsReportKeys.map (keyBytes E)).zip (constantsValues E s.tc.cc))
          ++ ['\n'])) := by
  have htrace : ∃ d, (sendControlConstants E b s).trace = s.trace ++ d ∧
      wire d = 'C' :: ((zoneChar b s).toList ++ ':' ::
        (objectBytes ((constantsReportKeys.map (keyBytes E)).zip (constantsValues E s.tc.cc))
          ++ ['\n'])) := by
    simp only [sendControlConstants, sendJsonClose_trace, sendJsonPairStr_trace, sendJsonPairChar_trace,
      sendJsonPairU16_trace, sendJsonPairU8_trace, printResponse_trace,
      sendJsonPairStr_firstPair, sendJsonPairChar_firstPair, sendJsonPairU16_firstPair,
      sendJsonPairU8_firstPair, printResponse_firstPair, sendJsonPairStr_tc,
      sendJsonPairChar_tc, sendJsonPairU16_tc, sendJsonPairU8_tc, printResponse_tc,
      List.append_assoc, if_true, Bool.false_eq_true, if_false]
    refine ⟨_, rfl, ?_⟩
    simp only [wire, List.map, Event.bytes, fmtBytes_u16, List.cons_append, List.nil_append,
      List.singleton_append]
    simp [objectBytes, pairBytes, constantsReportKeys, constantsValues, keyBytes,
      List.intercalate, List.intersperse]
  obtain ⟨d, h1, h2⟩ := htrace
  rw [since_append _ _ _ h1, h2]

theorem sendControlVariables_wire (E : Ext) (b : Build) (s : Sys) :
    wire (since s (sendControlVariables E b s)) =
      'V' :: ((zoneChar b s).toList ++ ':' ::
        (objectBytes ((variablesReportKeys.map (keyBytes E)).zip (variablesValues E s.tc.cv))
          ++ ['\n'])) := by
  have htrace : ∃ d, (sendControlVariables E b s).trace = s.trace ++ d ∧
      wire d = 'V' :: ((zoneChar b s).toList ++ ':' ::
        (objectBytes ((variablesReportKeys.map (keyBytes E)).zip (variablesValues E s.tc.cv))
          ++ ['\n'])) := by
    simp only [sendControlVariables, sendJsonClose_trace, sendJsonPairStr_trace, sendJsonPairChar_trace,
      sendJsonPairU16_trace, sendJsonPairU8_trace, printResponse_trace,
      sendJsonPairStr_firstPair, sendJsonPairChar_firstPair, sendJsonPairU16_firstPair,
      sendJsonPairU8_firstPair, printResponse_firstPair, sendJsonPairStr_tc,
      sendJsonPairChar_tc, sendJsonPairU16_tc, sendJsonPairU8_tc, printResponse_tc,
      List.append_assoc, if_true, Bool.false_eq_true, if_false]
    refine ⟨_, rfl, ?_⟩
    simp only [wire, List.map, Event.bytes, fmtBytes_u16, List.cons_append, List.nil_append,
      List.singleton_append]
    simp [objectBytes, pairBytes, variablesReportKeys, variablesValues, keyBytes,
      List.intercalate, List.intersperse]
  obtain ⟨d, h1, h2⟩ := htrace
  rw [since_append _ _ _ h1, h2]

theorem printResponse_chamber (b : Build) (type : Char) (s : Sys) :
    (printResponse b type s).chamber = s.chamber := rfl

theorem sendJsonPairStr_chamber (name val : List Char) (s : Sys) :
    (sendJsonPairStr name val s).chamber = s.chamber := rfl

theorem sendJsonPairChar_chamber (name : List Char) (val : Char) (s : Sys) :
    (sendJsonPairChar name val s).chamber = s.chamber := rfl

theorem sendJsonPairU16_chamber (name : List Char) (val : Nat) (s : Sys) :
    (sendJsonPairU16 name val s).chamber = s.chamber := rfl

theorem sendJsonPairU8_chamber (name : List Char) (val : Nat) (s : Sys) :
    (sendJsonPairU8 name val s).chamber = s.chamber := rfl

theorem sendJsonClose_chamber (s : Sys) : (sendJsonClose s).chamber = s.chamber := rfl

theorem sendControlSettings_tc (E : Ext) (b : Build) (s : Sys) :
    (sendControlSettings E b s).tc = s.tc := by
  simp only [sendControlSettings, sendJsonClose_tc, sendJsonPairStr_tc, sendJsonPairChar_tc,
    sendJsonPairU16_tc, sendJsonPairU8_tc, printResponse_tc]

theorem sendControlSettings_chamber_eq (E : Ext) (b : Build) (s : Sys) :
    (sendControlSettings E b s).chamber = s.chamber := by
  simp only [sendControlSettings, sendJsonClose_chamber, sendJsonPairStr_chamber,
    sendJsonPairChar_chamber, sendJsonPairU16_chamber, sendJsonPairU8_chamber,
    printResponse_chamber]

theorem sendControlSettings_zone (E : Ext) (b : Build) (s : Sys) :
    zoneChar b (sendControlSettings E b s) = zoneChar b s := by
  unfold zoneChar
  rw [sendControlSettings_chamber_eq]

theorem sendControlConstants_tc (E : Ext) (b : Build) (s : Sys) :
    (sendControlConstants E b s).tc = s.tc := by
  simp only [sendControlConstants, sendJsonClose_tc, sendJsonPairStr_tc, sendJsonPairChar_tc,
    sendJsonPairU16_tc, sendJsonPairU8_tc, printResponse_tc]

theorem sendControlConstants_chamber_eq (E : Ext) (b : Build) (s : Sys) :
    (sendControlConstants E b s).chamber = s.chamber := by
  simp only [sendControlConstants, sendJsonClose_chamber, sendJsonPairStr_chamber,
    sendJsonPairChar_chamber, sendJsonPairU16_chamber, sendJsonPairU8_chamber,
    printResponse_chamber]

theorem sendControlConstants_zone (E : Ext) (b : Build) (s : Sys) :
    zoneChar b (sendControlConstants E b s) = zoneChar b s := by
  unfold zoneChar
  rw [sendControlConstants_chamber_eq]

theorem sendControlVariables_tc (E : Ext) (b : Build) (s : Sys) :
    (sendControlVariables E b s).tc = s.tc := by
  simp only [sendControlVariables, sendJsonClose_tc, sendJsonPairStr_tc, sendJsonPairChar_tc,
    sendJsonPairU16_tc, sendJsonPairU8_tc, printResponse_tc]

theorem sendControlVariables_chamber_eq (E : Ext) (b : Build) (s : Sys) :
    (sendControlVariables E b s).chamber = s.chamber := by
  simp only [sendControlVariables, sendJsonClose_chamber, sendJsonPairStr_chamber,
    sendJsonPairChar_chamber, sendJsonPairU16_chamber, sendJsonPairU8_chamber,
    printResponse_chamber]

theorem sendControlVariables_zone (E : Ext) (b : Build) (s : Sys) :
    zoneChar b (sendControlVariables E b s) = zoneChar b s := by
  unfold zoneChar
  rw [sendControlVariables_chamber_eq]

/-- In a multi-zone build the settings report starts with `S1:`, the zone
digit stands between the type character and the colon. -/
theorem sendControlSettings_zone_digit :
    wire (since demoSys (sendControlSettings demoExt zoneBuild demoSys)) =
      ("S1:\x7b\"mode\":\"b\",\"beerSet\":19.0,\"fridgeSet\":18.0,\"heatEst\":0.199," ++
        "\"coolEst\":5.0\x7d\n").toList ∧
    ¬ ClaimedObject 'S' (wire (since demoSys (sendControlSettings demoExt zoneBuild demoSys))) := by
  have h : wire (since demoSys (sendControlSettings demoExt zoneBuild demoSys)) =
      ("S1:\x7b\"mode\":\"b\",\"beerSet\":19.0,\"fridgeSet\":18.0,\"heatEst\":0.199," ++
        "\"coolEst\":5.0\x7d\n").toList := by decide
  refine ⟨h, ?_⟩
  rintro ⟨items, hi⟩
  rw [h] at hi
  have h2 := congrArg (fun l => l.tail.head?) hi
  simp at h2

/-- Claim C19, as amended. For every build and every state, the settings,
constants and control variables reports each consist of the type character
(`S`, `C`, `V`), in multi-zone builds the zone digit, a colon, one object and
one line feed; the object opens with one opening brace before the first key,
has one comma between consecutive pairs and closes with one closing brace.
The settings report carries the five keys `mode`, `beerSetting`,
`fridgeSetting`, `heatEstimator`, `coolEstimator` in this order, the
constants report 21 keys and the control variables report 11 keys; a report
that is written again right away is written in full again. -/
theorem control_reports_shape (E : Ext) (b : Build) (s : Sys) :
    (wire (since s (sendControlSettings E b s)) =
        'S' :: ((zoneChar b s).toList ++ ':' ::
          (objectBytes ((settingsReportKeys.map (keyBytes E)).zip (settingsValues E s.tc.cs))
            ++ ['\n'])) ∧
      wire (since s (sendControlConstants E b s)) =
        'C' :: ((zoneChar b s).toList ++ ':' ::
          (objectBytes ((constantsReportKeys.map (keyBytes E)).zip
            (constantsValues E s.tc.cc)) ++ ['\n'])) ∧
      wire (since s (sendControlVariables E b s)) =
        'V' :: ((zoneChar b s).toList ++ ':' ::
          (objectBytes ((variablesReportKeys.map (keyBytes E)).zip
            (variablesValues E s.tc.cv)) ++ ['\n']))) ∧
    (settingsReportKeys = [.mode, .beerSetting, .fridgeSetting, .heatEstimator, .coolEstimator] ∧
      (settingsValues E s.tc.cs).length = 5 ∧
      constantsReportKeys.length = 21 ∧ (constantsValues E s.tc.cc).length = 21 ∧
      variablesReportKeys.length = 11 ∧ (variablesValues E s.tc.cv).length = 11) ∧
    (wire (since (sendControlSettings E b s)
          (sendControlSettings E b (sendControlSettings E b s)))
        = wire (since s (sendControlSettings E b s)) ∧
      wire (since (sendControlConstants E b s)
          (sendControlConstants E b (sendControlConstants E b s)))
        = wire (since s (sendControlConstants E b s)) ∧
      wire (since (sendControlVariables E b s)
          (sendControlVariables E b (sendControlVariables E b s)))
        = wire (since s (sendControlVariables E b s))) := by
  refine ⟨⟨sendControlSettings_wire E b s, sendControlConstants_wire E b s,
    sendControlVariables_wire E b s⟩, ⟨rfl, rfl, rfl, rfl, rfl, rfl⟩, ?_, ?_, ?_⟩
  · rw [sendControlSettings_wire, sendControlSettings_wire, sendControlSettings_tc,
      sendControlSettings_zone]
  · rw [sendControlConstants_wire, sendControlConstants_wire, sendControlConstants_tc,
      sendControlConstants_zone]
  · rw [sendControlVariables_wire, sendControlVariables_wire, sendControlVariables_tc,
      sendControlVariables_zone]

theorem simKey_cons (c : Char) (k : List Char) :
    simKey (c :: k) =
      if c = '\xff' ∨ c = '\x00' then simKey k
      else if c = ' ' ∨ c = '{' ∨ c = '"' then simKey k else c :: simKey k := by
  unfold simKey
  by_cases h1 : c = '\xff' ∨ c = '\x00'
  · rcases h1 with h | h <;> simp [h, List.filter_cons]
  · by_cases h2 : c = ' ' ∨ c = '{' ∨ c = '"'
    · rcases h2 with h | h | h <;> simp [h, List.filter_cons]
    · have h1' := h1
      have h2' := h2
      simp only [not_or] at h1' h2'
      simp [List.filter_cons, h1, h2, h1'.1, h1'.2, h2'.1, h2'.2.1, h2'.2.2]

theorem simVal_cons (c : Char) (v : List Char) :
    simVal (c :: v) =
      if c = '\xff' ∨ c = '\x00' then simVal v
      else if c = ' ' ∨ c = '"' then simVal v else c :: simVal v := by
  unfold simVal
  by_cases h1 : c = '\xff' ∨ c = '\x00'
  · rcases h1 with h | h <;> simp [h, List.filter_cons]
  · by_cases h2 : c = ' ' ∨ c = '"'
    · rcases h2 with h | h <;> simp [h, List.filter_cons]
    · have h1' := h1
      have h2' := h2
      simp only [not_or] at h1' h2'
      simp [List.filter_cons, h1, h2, h1'.1, h1'.2, h2'.1, h2'.2]

theorem simKey_length_le (k : List Char) : (simKey k).length ≤ (specKey k).length := by
  induction k with
  | nil => simp [simKey, specKey]
  | cons c k ih =>
    rw [simKey_cons, specKey_cons]
    by_cases h1 : c = '\xff' ∨ c = '\x00'
    · rw [if_pos h1]
      split
      · exact ih
      · simp only [List.length_cons]; omega
    · rw [if_neg h1]
      split
      · exact ih
      · simp only [List.length_cons]; omega

theorem simVal_length_le (v : List Char) : (simVal v).length ≤ (specVal v).length := by
  induction v with
  | nil => simp [simVal, specVal]
  | cons c v ih =>
    rw [simVal_cons, specVal_cons]
    by_cases h1 : c = '\xff' ∨ c = '\x00'
    · rw [if_pos h1]
      split
      · exact ih
      · simp only [List.length_cons]; omega
    · rw [if_neg h1]
      split
      · exact ih
      · simp only [List.length_cons]; omega

/-- In `updateInputs`, a key that ends with its colon before the buffer is
full. -/
theorem simGetKey_colon (rest : List Char) :
    ∀ (k acc : List Char), ':' ∉ k → (acc ++ simKey k).length < 29 →
      simGetKey (k ++ ':' :: rest) acc = .ended (acc ++ simKey k) false rest := by
  intro k
  induction k with
  | nil =>
    intro acc _ _
    simp [simGetKey, simKey]
  | cons c k ih =>
    intro acc hk hlen
    have hc : c ≠ ':' := fun h => hk (by simp [h])
    have hk' : ':' ∉ k := fun h => hk (List.mem_cons_of_mem _ h)
    rw [simKey_cons] at hlen ⊢
    rw [List.cons_append, simGetKey]
    by_cases h1 : c = '\xff' ∨ c = '\x00'
    · rw [if_pos h1] at hlen ⊢
      rw [if_pos h1]
      exact ih acc hk' hlen
    · rw [if_neg h1] at hlen ⊢
      rw [if_neg h1, if_neg hc]
      by_cases hskip : c = ' ' ∨ c = '{' ∨ c = '"'
      · simp only [hskip, if_true] at hlen ⊢
        have h29 : ¬ acc.length ≥ 29 := by simp at hlen; omega
        rw [if_neg h29]
        exact ih acc hk' hlen
      · simp only [hskip, if_false] at hlen ⊢
        have h29 : ¬ (acc ++ [c]).length ≥ 29 := by simp at hlen ⊢; omega
        rw [if_neg h29, ih (acc ++ [c]) hk' (by simpa using hlen)]
        simp

/-- In `updateInputs`, a value that ends with its terminator before the
buffer is full. -/
theorem simGetVal_terminator (t : Char) (ht : t = ',' ∨ t = '}') (rest : List Char) :
    ∀ (v acc : List Char), ',' ∉ v → '}' ∉ v → (acc ++ simVal v).length < 29 →
      simGetVal (v ++ t :: rest) acc = .ended (acc ++ simVal v) (decide (t = '}')) rest := by
  intro v
  induction v with
  | nil =>
    intro acc _ _ _
    rcases ht with h | h <;> subst h <;> simp [simGetVal, simVal]
  | cons c v ih =>
    intro acc hv1 hv2 hlen
    have hc1 : c ≠ ',' := fun h => hv1 (by simp [h])
    have hc2 : c ≠ '}' := fun h => hv2 (by simp [h])
    have hv1' : ',' ∉ v := fun h => hv1 (List.mem_cons_of_mem _ h)
    have hv2' : '}' ∉ v := fun h => hv2 (List.mem_cons_of_mem _ h)
    rw [simVal_cons] at hlen ⊢
    rw [List.cons_append, simGetVal]
    by_cases h1 : c = '\xff' ∨ c = '\x00'
    · rw [if_pos h1] at hlen ⊢
      rw [if_pos h1]
      exact ih acc hv1' hv2' hlen
    · rw [if_neg h1] at hlen ⊢
      rw [if_neg h1, if_neg hc1, if_neg hc2]
      by_cases hskip : c = ' ' ∨ c = '"'
      · simp only [hskip, if_true] at hlen ⊢
        have h29 : ¬ acc.length ≥ 29 := by simp at hlen; omega
        rw [if_neg h29]
        exact ih acc hv1' hv2' hlen
      · simp only [hskip, if_false] at hlen ⊢
        have h29 : ¬ (acc ++ [c]).length ≥ 29 := by simp at hlen ⊢; omega
        rw [if_neg h29, ih (acc ++ [c]) hv1' hv2' (by simpa using hlen)]
        simp

/-- One round of the outer loop of `updateInputs` over a pair that fits the
buffers. -/
theorem updateInputsLoop_pair (E : Ext) (b : Build) (p : RawPair) (t : Char)
    (rest : List Char) (s : Sys) (fuel : Nat) (hp : p.fits) (ht : t = ',' ∨ t = '}') :
    updateInputsLoop E b (fuel + 1) (p.bytes t ++ rest) s =
      if t = '}' then some (rest, simApplyPair E b s p)
      else updateInputsLoop E b fuel rest (simApplyPair E b s p) := by
  obtain ⟨hk, hv1, hv2, hkl, hvl⟩ := hp
  have hkl' := simKey_length_le p.k
  have hvl' := simVal_length_le p.v
  have hb : p.bytes t ++ rest = p.k ++ ':' :: (p.v ++ t :: rest) := by
    simp [RawPair.bytes]
  rw [hb, updateInputsLoop, simGetKey_colon _ p.k [] hk (by simp; omega)]
  simp only
  rw [simGetVal_terminator t ht rest p.v [] hv1 hv2 (by simp; omega)]
  simp only [List.nil_append]
  by_cases h : t = '}'
  · simp [h, simApplyPair]
  · simp [h, simApplyPair]

theorem updateInputsLoop_commaPairs (E : Ext) (b : Build) (rest : List Char) (fuel : Nat) :
    ∀ (ps : List RawPair) (s : Sys), (∀ q ∈ ps, q.fits) →
      updateInputsLoop E b (ps.length + fuel) (commaPairs ps ++ rest) s =
        updateInputsLoop E b fuel rest (simApplyPairs E b s ps) := by
  intro ps
  induction ps with
  | nil => intro s _; simp [commaPairs, simApplyPairs]
  | cons p ps ih =>
    intro s h
    have hp : p.fits := h p (List.mem_cons_self _ _)
    have hps : ∀ q ∈ ps, q.fits := fun q hq => h q (List.mem_cons_of_mem _ hq)
    have hf : (p :: ps).length + fuel = (ps.length + fuel) + 1 := by
      simp only [List.length_cons]; omega
    rw [hf, commaPairs, List.append_assoc,
      updateInputsLoop_pair E b p ',' _ s _ hp (Or.inl rfl), if_neg (by decide), ih _ hps]
    rfl

theorem commaPairs_length (ps : List RawPair) : ps.length ≤ (commaPairs ps).length := by
  induction ps with
  | nil => simp [commaPairs]
  | cons p ps ih =>
    simp only [commaPairs, List.length_cons, List.length_append, RawPair.bytes]
    omega

theorem simApplyPairs_append (E : Ext) (b : Build) (s : Sys) (ps : List RawPair) (p : RawPair) :
    simApplyPairs E b s (ps ++ [p]) = simApplyPair E b (simApplyPairs E b s ps) p := by
  simp [simApplyPairs, List.foldl_append]

/-- The unbounded decoder on a message of pairs that fit the buffers. -/
theorem updateInputs_message (E : Ext) (b : Build) (ps : List RawPair) (p : RawPair)
    (rest : List Char) (s : Sys) (hps : ∀ q ∈ ps, q.fits) (hp : p.fits) :
    updateInputs E b (commaPairs ps ++ (p.bytes '}' ++ rest)) s =
      some (rest, simApplyPairs E b s (ps ++ [p])) := by
  unfold updateInputs
  have hlen : ∃ m, (commaPairs ps ++ (p.bytes '}' ++ rest)).length = ps.length + (m + 1) := by
    refine ⟨(commaPairs ps ++ (p.bytes '}' ++ rest)).length - ps.length - 1, ?_⟩
    have h1 := commaPairs_length ps
    simp only [List.length_append, RawPair.bytes, List.length_cons]
    omega
  obtain ⟨m, hm⟩ := hlen
  rw [hm, updateInputsLoop_commaPairs E b _ _ ps s hps,
    updateInputsLoop_pair E b p '}' rest _ m hp (Or.inr rfl), if_pos rfl, simApplyPairs_append]

/-- Claim C20. For every input that begins with a message of pairs that fit
the buffers (commas between the pairs, a closing brace after the last value)
and goes on with any bytes `rest`: `receiveJson` and `updateInputs` both
return, both leave exactly `rest` unread, and both have processed exactly
the pairs of the message, in order; `receiveJson` then runs the end of
message code. -/
theorem decoders_stop_at_closing_brace (E : Ext) (b : Build) (ps : List RawPair) (p : RawPair)
    (rest : List Char) (s : Sys) (hps : ∀ q ∈ ps, q.fits) (hp : p.fits) :
    receiveJson E b (commaPairs ps ++ (p.bytes '}' ++ rest)) s =
        (rest, lastPair E b (applyPairs E b (waitMillis E 1 s) (ps ++ [p]))) ∧
      updateInputs E b (commaPairs ps ++ (p.bytes '}' ++ rest)) s =
        some (rest, simApplyPairs E b s (ps ++ [p])) := by
  constructor
  · rw [receiveJson_eq, receiveJsonPairs_commaPairs E b _ ps _ hps,
      receiveJsonPairs_pair E b p '}' rest _ hp (Or.inr rfl), if_pos rfl, applyPairs_append]
  · exact updateInputs_message E b ps p rest s hps hp

/-- Both decoders leave the byte `t` that follows the closing brace; the
unbounded decoder sets the fridge volume and the heat power of the message
`{"fv":"500","h":"30"}`. -/
theorem decoders_stop_at_closing_brace_witness :
    ((∀ q ∈ [demoPair], q.fits) ∧ demoLastPair.fits) ∧
    (receiveJson demoExt plainBuild
        (commaPairs [demoPair] ++ (demoLastPair.bytes '}' ++ "t".toList)) demoSys =
        ("t".toList, lastPair demoExt plainBuild
          (applyPairs demoExt plainBuild (waitMillis demoExt 1 demoSys)
            ([demoPair] ++ [demoLastPair]))) ∧
      updateInputs demoExt plainBuild
        (commaPairs [demoPair] ++ (demoLastPair.bytes '}' ++ "t".toList)) demoSys =
        some ("t".toList, simApplyPairs demoExt plainBuild demoSys
          ([demoPair] ++ [demoLastPair]))) ∧
    (updateInputs demoExt simBuild demoSimMessage demoSys).map
        (fun r => (r.1, r.2.sim.fridgeVolume, r.2.sim.heatPower)) =
      some ("t".toList, 500, 30) :=
  ⟨⟨by decide, by decide⟩,
    decoders_stop_at_closing_brace demoExt plainBuild [demoPair] demoLastPair "t".toList demoSys
      (by decide) (by decide),
    by decide⟩

/-! ## Formats, termination, buffer bounds and the simulator -/

theorem keysWritten_append (a b : List Event) :
    keysWritten (a ++ b) = keysWritten a ++ keysWritten b := by
  simp [keysWritten, List.filterMap_append]

theorem keysWritten_doubleEvents (l : Int) : keysWritten (doubleEvents l) = [] := by
  unfold doubleEvents
  split <;> rfl

theorem sendJsonPairDouble_trace (E : Ext) (name : List Char) (val : Dbl) (s : Sys) :
    (sendJsonPairDouble E name val s).trace = s.trace ++
      ([.chr (if s.firstPair then '{' else ','), .chr '"', .fmt [.lit name], .chr '"', .chr ':']
        ++ doubleEvents (E.scale10000 val)) := by
  unfold sendJsonPairDouble
  rw [printDouble_eq]
  simp [printJsonName, printJsonSeparator, print_P, Sys.emit]

theorem sendJsonPairDouble_firstPair (E : Ext) (name : List Char) (val : Dbl) (s : Sys) :
    (sendJsonPairDouble E name val s).firstPair = false := by
  unfold sendJsonPairDouble
  rw [printDouble_eq]
  rfl

theorem sendJsonPairDouble_sim (E : Ext) (name : List Char) (val : Dbl) (s : Sys) :
    (sendJsonPairDouble E name val s).sim = s.sim := by
  unfold sendJsonPairDouble
  rw [printDouble_eq]
  rfl

theorem sendJsonPairDouble_interval (E : Ext) (name : List Char) (val : Dbl) (s : Sys) :
    (sendJsonPairDouble E name val s).printTempInterval = s.printTempInterval := by
  unfold sendJsonPairDouble
  rw [printDouble_eq]
  rfl

theorem printResponse_sim (b : Build) (type : Char) (s : Sys) :
    (printResponse b type s).sim = s.sim := rfl

theorem printResponse_interval (b : Build) (type : Char) (s : Sys) :
    (printResponse b type s).printTempInterval = s.printTempInterval := rfl

theorem sendJsonPairStr_sim (name val : List Char) (s : Sys) :
    (sendJsonPairStr name val s).sim = s.sim := rfl

theorem sendJsonPairStr_interval (name val : List Char) (s : Sys) :
    (sendJsonPairStr name val s).printTempInterval = s.printTempInterval := rfl

theorem sendJsonPairU16_sim (name : List Char) (val : Nat) (s : Sys) :
    (sendJsonPairU16 name val s).sim = s.sim := rfl

theorem sendJsonPairU16_interval (name : List Char) (val : Nat) (s : Sys) :
    (sendJsonPairU16 name val s).printTempInterval = s.printTempInterval := rfl

theorem sendJsonPairU8_sim (name : List Char) (val : Nat) (s : Sys) :
    (sendJsonPairU8 name val s).sim = s.sim := rfl

/-- The events of `printSimulatorSettings`. -/
theorem printSimulatorSettings_since (E : Ext) (b : Build) (s : Sys) :
    since s (printSimulatorSettings E b s) =
      [.response 'U' (zoneChar b s)] ++
      ([.chr '{', .chr '"', .fmt [.lit "rmi".toList], .chr '"', .chr ':'] ++
        doubleEvents (E.scale10000 s.sim.minRoomTemp) ++
      ([.chr ',', .chr '"', .fmt [.lit "rmx".toList], .chr '"', .chr ':'] ++
        doubleEvents (E.scale10000 s.sim.maxRoomTemp) ++
      ([.chr ',', .chr '"', .fmt [.lit "fv".toList], .chr '"', .chr ':'] ++
        doubleEvents (E.scale10000 (E.ofInt s.sim.fridgeVolume)) ++
      ([.chr ',', .chr '"', .fmt [.lit "bv".toList], .chr '"', .chr ':'] ++
        doubleEvents (E.scale10000 s.sim.beerVolume) ++
      ([.chr ',', .chr '"', .fmt [.lit "sg".toList], .chr '"', .chr ':'] ++
        doubleEvents (E.scale10000 s.sim.beerDensity) ++
      ([.chr ',', .chr '"', .fmt [.lit "f".toList], .chr '"', .chr ':'] ++
        doubleEvents (E.scale10000 s.sim.fridgeTemp) ++
      ([.chr ',', .chr '"', .fmt [.lit "b".toList], .chr '"', .chr ':'] ++
        doubleEvents (E.scale10000 s.sim.beerTemp) ++
      ([.chr ',', .chr '"', .fmt [.lit "fc".toList], .chr '"', .chr ':',
          .str (if s.sim.fridgeConnected then ['1'] else ['0'])] ++
      ([.chr ',', .chr '"', .fmt [.lit "bc".toList], .chr '"', .chr ':',
          .str (if s.sim.beerConnected then ['1'] else ['0'])] ++
      ([.chr ',', .chr '"', .fmt [.lit "h".toList], .chr '"', .chr ':',
          .fmt [.lit ['"'], .arg (decimal (u16 s.sim.heatPower)), .lit ['"']]] ++
      ([.chr ',', .chr '"', .fmt [.lit "c".toList], .chr '"', .chr ':',
          .fmt [.lit ['"'], .arg (decimal (u16 s.sim.coolPower)), .lit ['"']]] ++
      ([.chr ',', .chr '"', .fmt [.lit "ke".toList], .chr '"', .chr ':'] ++
        doubleEvents (E.scale10000 s.sim.Ke) ++
      ([.chr ',', .chr '"', .fmt [.lit "kb".toList], .chr '"', .chr ':'] ++
        doubleEvents (E.scale10000 s.sim.Kb) ++
      ([.chr ',', .chr '"', .fmt [.lit "d".toList], .chr '"', .chr ':',
          .str (if s.sim.doorOpen then ['1'] else ['0'])] ++
      ([.chr ',', .chr '"', .fmt [.lit "d".toList], .chr '"', .chr ':',
          .fmt [.lit ['"'], .arg (decimal (u16 (u8 s.printTempInterval))), .lit ['"']]] ++
      ([.chr ',', .chr '"', .fmt [.lit "n".toList], .chr '"', .chr ':'] ++
        doubleEvents (E.scale10000 s.sim.sensorNoise) ++
      [.chr '}', .chr '\n'])))))))))))))))) := by
  apply since_append
  simp only [printSimulatorSettings, sendJsonClose_trace, sendJsonPairStr_trace,
    sendJsonPairDouble_trace, sendJsonPairU16_trace, sendJsonPairU8_trace, printResponse_trace,
    sendJsonPairStr_firstPair, sendJsonPairDouble_firstPair, sendJsonPairU16_firstPair,
    sendJsonPairU8_firstPair, printResponse_firstPair,
    sendJsonPairStr_sim, sendJsonPairDouble_sim, sendJsonPairU16_sim, sendJsonPairU8_sim,
    printResponse_sim,
    sendJsonPairStr_interval, sendJsonPairDouble_interval, sendJsonPairU16_interval,
    printResponse_interval,
    List.append_assoc, if_true, Bool.false_eq_true, if_false, List.cons_append, List.nil_append]

theorem keysWritten_cons_chr (c : Char) (tr : List Event) :
    keysWritten (.chr c :: tr) = keysWritten tr := rfl

theorem wire_doubleEvents (l : Int) :
    wire (doubleEvents l) =
      fmtBytes [.arg (ltoa (Int.tdiv l 10000))] ++
        (if Int.tmod l 10000 ≠ 0 then '.' :: fmtBytes [.arg (ltoa (Int.tmod l 10000))]
          else []) := by
  unfold doubleEvents
  split <;> simp [wire, Event.bytes]

/-- Claim C22, as the code behaves. `printDouble` writes the quotient
`l / 10000` of the scaled and truncated value `l` and, when the remainder is
not zero, a point and the remainder, each printed by `ltoa`: the remainder
loses its leading zeros and keeps its sign.  For `l = 10500` (the value
1.05) the text is `1.500`, which denotes 1.5; for `l = 10005` it is `1.5`;
for `l = -15000` (the value -1.5) it is `-1.-5000`. -/
theorem printDouble_drops_leading_zeros (E : Ext) (val : Dbl) (s : Sys) :
    wire (since s (printDouble E val s)) =
        fmtBytes [.arg (ltoa (Int.tdiv (E.scale10000 val) 10000))] ++
          (if Int.tmod (E.scale10000 val) 10000 ≠ 0 then
            '.' :: fmtBytes [.arg (ltoa (Int.tmod (E.scale10000 val) 10000))] else []) ∧
      (wire (since s (printDoubleScaled 10500 s)) = "1.500".toList ∧
        ¬ Denotes "1.500".toList 10500 ∧ Denotes "1.500".toList 15000) ∧
      (wire (since s (printDoubleScaled 10005 s)) = "1.5".toList ∧
        ¬ Denotes "1.5".toList 10005) ∧
      wire (since s (printDoubleScaled (-15000) s)) = "-1.-5000".toList ∧
      (wire (since s (printDoubleScaled 15000 s)) = "1.5000".toList ∧
        Denotes "1.5000".toList 15000) := by
  have h : ∀ l, wire (since s (printDoubleScaled l s)) = wire (doubleEvents l) := by
    intro l
    have hd : printDoubleScaled l s = printDouble { demoExt with scale10000 := fun _ => l } ⟨0⟩ s :=
      rfl
    rw [hd, since_append _ _ _ (by rw [printDouble_eq])]
  refine ⟨?_, ⟨?_, by decide, by decide⟩, ⟨?_, by decide⟩, ?_, ?_, by decide⟩
  · rw [since_append _ _ _ (by rw [printDouble_eq]), wire_doubleEvents]
  · rw [h]; decide
  · rw [h]; decide
  · rw [h]; decide
  · rw [h]; decide

/-- Claim C30, as the code behaves. The report of the simulator settings
writes the keys `rmi`, `rmx`, `fv`, `bv`, `sg`, `f`, `b`, `fc`, `bc`, `h`,
`c`, `ke`, `kb`, `d`, `d`, `n` in this order: the key `d` is written twice,
first with the state of the door and then with the print interval, and the
key `i` of the print interval is not written. -/
theorem printSimulatorSettings_keys (E : Ext) (b : Build) (s : Sys) :
    keysWritten (since s (printSimulatorSettings E b s))
        = simulatorReportKeys.map String.toList ∧
      (simulatorReportKeys.count "d" = 2 ∧ "i" ∉ simulatorReportKeys) ∧
      [.chr ',', .chr '"', .fmt [.lit "d".toList], .chr '"', .chr ':',
          .str (if s.sim.doorOpen then ['1'] else ['0']),
        .chr ',', .chr '"', .fmt [.lit "d".toList], .chr '"', .chr ':',
          .fmt [.lit ['"'], .arg (decimal (u16 (u8 s.printTempInterval))), .lit ['"']]]
        <:+: since s (printSimulatorSettings E b s) := by
  refine ⟨?_, by decide, ?_⟩
  · rw [printSimulatorSettings_since]
    simp only [keysWritten_append, keysWritten_doubleEvents, List.append_nil]
    rfl
  · rw [printSimulatorSettings_since]
    simp only [List.append_assoc]
    have hp : ∀ rest : List Event,
        [.chr ',', .chr '"', .fmt [.lit "d".toList], .chr '"', .chr ':',
            .str (if s.sim.doorOpen then ['1'] else ['0']),
          .chr ',', .chr '"', .fmt [.lit "d".toList], .chr '"', .chr ':',
            .fmt [.lit ['"'], .arg (decimal (u16 (u8 s.printTempInterval))), .lit ['"']]]
        <:+: [.chr ',', .chr '"', .fmt [.lit "d".toList], .chr '"', .chr ':',
            .str (if s.sim.doorOpen then ['1'] else ['0'])] ++
          ([.chr ',', .chr '"', .fmt [.lit "d".toList], .chr '"', .chr ':',
            .fmt [.lit ['"'], .arg (decimal (u16 (u8 s.printTempInterval))), .lit ['"']]] ++
            rest) := fun rest => ⟨[], rest, rfl⟩
    repeat (first | exact hp _ | apply infix_append_left)

theorem reportEvents_infix_temps (E : Ext) (b : Build) (ba fa : Option Ann) (s : Sys) :
    (E.getBeerTemp s.tc ≠ s.tracker.beerTemp →
      tempEvents E "bt" (E.getBeerTemp s.tc) <:+: reportEvents E b ba fa s) ∧
    (E.getBeerSetting s.tc ≠ s.tracker.beerSet →
      tempEvents E "bs" (E.getBeerSetting s.tc) <:+: reportEvents E b ba fa s) ∧
    (E.getFridgeTemp s.tc ≠ s.tracker.fridgeTemp →
      tempEvents E "ft" (E.getFridgeTemp s.tc) <:+: reportEvents E b ba fa s) ∧
    (E.getFridgeSetting s.tc ≠ s.tracker.fridgeSet →
      tempEvents E "fs" (E.getFridgeSetting s.tc) <:+: reportEvents E b ba fa s) := by
  refine ⟨?_, ?_, ?_, ?_⟩ <;> intro h <;> unfold reportEvents <;> rw [if_pos h] <;>
    simp only [List.append_assoc] <;>
    repeat (first | exact (List.prefix_append _ _).isInfix | apply infix_append_left)

set_option maxRecDepth 20000 in
/-- In the constants report the two limits of the setpoint are asked for
with 1 decimal, and in the control variables report the five peak
temperatures with 3 decimals: the reports written with `precisionExt` show
the number of decimals asked for in place of each value. -/
theorem limits_and_peaks_precision :
    wire (since demoSys (sendControlConstants precisionExt plainBuild demoSys)) =
      ("C:\x7b\"tempFormat\":\"C\",\"tempSetMin\":t1,\"tempSetMax\":t1,\"Kp\":f3," ++
        "\"Ki\":f3,\"Kd\":f3,\"iMaxErr\":d3,\"idleRangeH\":d3,\"idleRangeL\":d3," ++
        "\"heatTargetH\":d3,\"heatTargetL\":d3,\"coolTargetH\":d3,\"coolTargetL\":d3," ++
        "\"maxHeatTimeForEst\":\"600\",\"maxCoolTimeForEst\":\"1200\"," ++
        "\"fridgeFastFilt\":\"1\",\"fridgeSlowFilt\":\"4\",\"fridgeSlopeFilt\":\"3\"," ++
        "\"beerFastFilt\":\"3\",\"beerSlowFilt\":\"5\",\"beerSlopeFilt\":\"4\"\x7d\n").toList ∧
    wire (since demoSys (sendControlVariables precisionExt plainBuild demoSys)) =
      ("V:\x7b\"beerDiff\":d3,\"diffIntegral\":d3,\"beerSlope\":d3,\"p\":f3,\"i\":f3," ++
        "\"d\":f3,\"estPeak\":t3,\"negPeakEst\":t3,\"posPeakEst\":t3,\"negPeak\":t3," ++
        "\"posPeak\":t3\x7d\n").toList := by
  decide

/-- Claim C21, as amended. The formatters are asked for these numbers of
decimals: 2 for the four temperatures of the temperature report (`bt`, `bs`,
`ft`, `fs`) and for the two setpoints of the settings report; 1 for the two
limits of the setpoint in the constants report; 3 for the estimators, the
gains `Kp`, `Ki`, `Kd`, the terms `p`, `i`, `d`, all temperature differences
and the five peak temperatures of the control variables report. -/
theorem reports_requested_precision (E : Ext) (b : Build) (ba fa : Option Ann) (s : Sys) :
    ((E.getBeerTemp s.tc ≠ s.tracker.beerTemp →
        [.fmt [.lit (keyLit "bt"), .arg (cstr (E.tempToString (E.getBeerTemp s.tc) 2 9)),
          .lit [',']]] <:+: since s (printTemperaturesJSON E b ba fa s)) ∧
      (E.getBeerSetting s.tc ≠ s.tracker.beerSet →
        [.fmt [.lit (keyLit "bs"), .arg (cstr (E.tempToString (E.getBeerSetting s.tc) 2 9)),
          .lit [',']]] <:+: since s (printTemperaturesJSON E b ba fa s)) ∧
      (E.getFridgeTemp s.tc ≠ s.tracker.fridgeTemp →
        [.fmt [.lit (keyLit "ft"), .arg (cstr (E.tempToString (E.getFridgeTemp s.tc) 2 9)),
          .lit [',']]] <:+: since s (printTemperaturesJSON E b ba fa s)) ∧
      (E.getFridgeSetting s.tc ≠ s.tracker.fridgeSet →
        [.fmt [.lit (keyLit "fs"), .arg (cstr (E.tempToString (E.getFridgeSetting s.tc) 2 9)),
          .lit [',']]] <:+: since s (printTemperaturesJSON E b ba fa s))) ∧
    wire (since s (sendControlSettings E b s)) =
      'S' :: ((zoneChar b s).toList ++ ':' ::
        (objectBytes ((settingsReportKeys.map (keyBytes E)).zip
          [['"', s.tc.cs.mode, '"'],
           cstr (E.tempToString s.tc.cs.beerSetting 2 12),
           cstr (E.tempToString s.tc.cs.fridgeSetting 2 12),
           cstr (E.fixedPointToString s.tc.cs.heatEstimator 3 12),
           cstr (E.fixedPointToString s.tc.cs.coolEstimator 3 12)]) ++ ['\n'])) ∧
    wire (since s (sendControlConstants E b s)) =
      'C' :: ((zoneChar b s).toList ++ ':' ::
        (objectBytes ((constantsReportKeys.map (keyBytes E)).zip
          [['"', s.tc.cc.tempFormat, '"'],
           cstr (E.tempToString s.tc.cc.tempSettingMin 1 12),
           cstr (E.tempToString s.tc.cc.tempSettingMax 1 12),
           cstr (E.fixedPointToString s.tc.cc.Kp 3 12),
           cstr (E.fixedPointToString s.tc.cc.Ki 3 12),
           cstr (E.fixedPointToString s.tc.cc.Kd 3 12),
           cstr (E.tempDiffToString s.tc.cc.iMaxError 3 12),
           cstr (E.tempDiffToString s.tc.cc.idleRangeHigh 3 12),
           cstr (E.tempDiffToString s.tc.cc.idleRangeLow 3 12),
           cstr (E.tempDiffToString s.tc.cc.heatingTargetUpper 3 12),
           cstr (E.tempDiffToString s.tc.cc.heatingTargetLower 3 12),
           cstr (E.tempDiffToString s.tc.cc.coolingTargetUpper 3 12),
           cstr (E.tempDiffToString s.tc.cc.coolingTargetLower 3 12),
           quoted (decimal (u16 s.tc.cc.maxHeatTimeForEstimate)),
           quoted (decimal (u16 s.tc.cc.maxCoolTimeForEstimate)),
           quoted (decimal (u16 (u8 s.tc.cc.fridgeFastFilter))),
           quoted (decimal (u16 (u8 s.tc.cc.fridgeSlowFilter))),
           quoted (decimal (u16 (u8 s.tc.cc.fridgeSlopeFilter))),
           quoted (decimal (u16 (u8 s.tc.cc.beerFastFilter))),
           quoted (decimal (u16 (u8 s.tc.cc.beerSlowFilter))),
           quoted (decimal (u16 (u8 s.tc.cc.beerSlopeFilter)))]) ++ ['\n'])) ∧
    wire (since s (sendControlVariables E b s)) =
      'V' :: ((zoneChar b s).toList ++ ':' ::
        (objectBytes ((variablesReportKeys.map (keyBytes E)).zip
          [cstr (E.tempDiffToString s.tc.cv.beerDiff 3 12),
           cstr (E.tempDiffToString s.tc.cv.diffIntegral 3 12),
           cstr (E.tempDiffToString s.tc.cv.beerSlope 3 12),
           cstr (E.fixedPointToString s.tc.cv.p 3 12),
           cstr (E.fixedPointToString s.tc.cv.i 3 12),
           cstr (E.fixedPointToString s.tc.cv.d 3 12),
           cstr (E.tempToString s.tc.cv.estimatedPeak 3 12),
           cstr (E.tempToString s.tc.cv.negPeakEstimate 3 12),
           cstr (E.tempToString s.tc.cv.posPeakEstimate 3 12),
           cstr (E.tempToString s.tc.cv.negPeak 3 12),
           cstr (E.tempToString s.tc.cv.posPeak 3 12)]) ++ ['\n'])) := by
  obtain ⟨h1, h2, h3, h4⟩ := reportEvents_infix_temps E b ba fa s
  rw [since_report]
  exact ⟨⟨h1, h2, h3, h4⟩, sendControlSettings_wire E b s, sendControlConstants_wire E b s,
    sendControlVariables_wire E b s⟩

theorem getKey_suffix (E : Ext) :
    ∀ (input acc : List Char) (character : Char) (s : Sys),
      (getKey E input acc character s).rest <:+ input ∧
        (input ≠ [] → (getKey E input acc character s).rest.length < input.length) := by
  intro input
  induction input with
  | nil => intro acc character s; simp [getKey, Scan.rest]
  | cons c input ih =>
    intro acc character s
    rw [getKey]
    by_cases hc : c = ':'
    · simp [hc, Scan.rest, List.suffix_cons]
    · simp only [hc, if_false]
      generalize (if c = ' ' ∨ c = '{' ∨ c = '"' then acc else acc ++ [c]) = key
      by_cases h29 : key.length ≥ 29
      · simp [h29, Scan.rest, List.suffix_cons]
      · rw [if_neg h29]
        have h := ih key c (waitMillis E 1 s)
        refine ⟨h.1.trans (List.suffix_cons _ _), fun _ => ?_⟩
        have := h.1.length_le
        simp only [List.length_cons]
        omega

theorem getVal_suffix (E : Ext) :
    ∀ (input acc : List Char) (character : Char) (s : Sys),
      (getVal E input acc character s).rest <:+ input ∧
        (input ≠ [] → (getVal E input acc character s).rest.length < input.length) := by
  intro input
  induction input with
  | nil => intro acc character s; simp [getVal, Scan.rest]
  | cons c input ih =>
    intro acc character s
    rw [getVal]
    by_cases hc : c = ',' ∨ c = '}'
    · simp [hc, Scan.rest, List.suffix_cons]
    · simp only [hc, if_false]
      generalize (if c = ' ' ∨ c = '"' then acc else acc ++ [c]) = val
      by_cases h29 : val.length ≥ 29
      · simp [h29, Scan.rest, List.suffix_cons]
      · rw [if_neg h29]
        have h := ih val c (waitMillis E 1 s)
        refine ⟨h.1.trans (List.suffix_cons _ _), fun _ => ?_⟩
        have := h.1.length_le
        simp only [List.length_cons]
        omega

theorem receiveJsonLoop_suffix (E : Ext) (b : Build) :
    ∀ (fuel : Nat) (input : List Char) (c : Char) (s : Sys),
      (receiveJsonLoop E b fuel input c s).1 <:+ input := by
  intro fuel
  induction fuel with
  | zero => intro input c s; simp [receiveJsonLoop]
  | succ fuel ih =>
    intro input c s
    rw [receiveJsonLoop]
    by_cases hin : input = []
    · simp [hin]
    · rw [if_neg hin]
      cases hkey : getKey E input [] c s with
      | full rest t =>
        have hk := (getKey_suffix E input [] c s).1
        rw [hkey] at hk
        exact hk
      | ended key ch rest t =>
        have hk := (getKey_suffix E input [] c s).1
        rw [hkey] at hk
        simp only [Scan.rest] at hk
        simp only
        cases hval : getVal E rest [] ch t with
        | full rest2 t2 =>
          have hv := (getVal_suffix E rest [] ch t).1
          rw [hval] at hv
          exact hv.trans hk
        | ended val ch2 rest2 t2 =>
          have hv := (getVal_suffix E rest [] ch t).1
          rw [hval] at hv
          simp only [Scan.rest] at hv
          simp only
          split
          · exact hv.trans hk
          · exact (ih _ _ _).trans (hv.trans hk)

theorem receiveJsonRounds_eq (E : Ext) (b : Build) :
    ∀ (fuel : Nat) (input : List Char) (c : Char) (s : Sys), input.length ≤ fuel →
      receiveJsonRounds E b fuel input c s = some (receiveJsonLoop E b fuel input c s) := by
  intro fuel
  induction fuel with
  | zero =>
    intro input c s h
    have : input = [] := List.length_eq_zero.mp (by omega)
    subst this
    simp [receiveJsonRounds, receiveJsonLoop]
  | succ fuel ih =>
    intro input c s h
    cases input with
    | nil => simp [receiveJsonRounds, receiveJsonLoop]
    | cons x input =>
      rw [receiveJsonRounds, receiveJsonLoop, if_neg (by simp)]
      cases hkey : getKey E (x :: input) [] c s with
      | full rest t => rfl
      | ended key ch rest t =>
        have hk := (getKey_suffix E (x :: input) [] c s).2 (by simp)
        rw [hkey] at hk
        simp only [Scan.rest] at hk
        simp only
        cases hval : getVal E rest [] ch t with
        | full rest2 t2 => rfl
        | ended val ch2 rest2 t2 =>
          have hv := (getVal_suffix E rest [] ch t).1.length_le
          rw [hval] at hv
          simp only [Scan.rest] at hv
          simp only
          split
          · rfl
          · apply ih
            simp only [List.length_cons] at h hk
            omega

/-- Claim C23. For every input: the outer loop of `receiveJson` ends within
as many rounds as there are bytes (with a bound of at least that many rounds
the bounded loop gives the result of `receiveJson`), the bytes left unread
are an end piece of the input, the key loop of a round that starts with a
byte available leaves fewer bytes than it found and the value loop no more,
neither loop reads when no byte is available, with no byte available
`receiveJson` returns after its initial wait, and `receive` returns without
reading, writing or changing anything. -/
theorem receiveJson_never_blocks (E : Ext) (b : Build) (input : List Char) (s : Sys)
    (fuel : Nat) (hfuel : input.length ≤ fuel) :
    receiveJsonRounds E b fuel input '\x00' (waitMillis E 1 s)
        = some (receiveJson E b input s) ∧
      (receiveJson E b input s).1 <:+ input ∧
      (∀ acc c t, input ≠ [] → (getKey E input acc c t).rest.length < input.length) ∧
      (∀ acc c t, (getVal E input acc c t).rest.length ≤ input.length) ∧
      (∀ acc c t, getKey E [] acc c t = .ended acc c [] t ∧
        getVal E [] acc c t = .ended acc c [] t) ∧
      receiveJson E b [] s = ([], waitMillis E 1 s) ∧
      receive E b [] s = some ([], s) := by
  refine ⟨?_, ?_, ?_, ?_, ?_, ?_, rfl⟩
  · rw [receiveJsonRounds_eq E b fuel input _ _ hfuel, receiveJson,
      receiveJsonLoop_fuel E b fuel input.length input '\x00' '\x00' _ hfuel (le_refl _)]
  · exact receiveJsonLoop_suffix E b _ _ _ _
  · intro acc c t h
    exact (getKey_suffix E input acc c t).2 h
  · intro acc c t
    exact (getVal_suffix E input acc c t).1.length_le
  · intro acc c t
    exact ⟨rfl, rfl⟩
  · simp [receiveJson, receiveJsonLoop]

/-- The message `{"beerSet":"20", "Kp": 5}` followed by `t`: 27 rounds are
more than enough, and the byte `t` is left. -/
theorem receiveJson_never_blocks_witness :
    (commaPairs [demoPair] ++ (demoLastPair.bytes '}' ++ "t".toList)).length ≤ 27 ∧
      receiveJsonRounds demoExt plainBuild 27
        (commaPairs [demoPair] ++ (demoLastPair.bytes '}' ++ "t".toList)) '\x00'
          (waitMillis demoExt 1 demoSys)
        = some (receiveJson demoExt plainBuild
          (commaPairs [demoPair] ++ (demoLastPair.bytes '}' ++ "t".toList)) demoSys) ∧
      (receiveJson demoExt plainBuild
        (commaPairs [demoPair] ++ (demoLastPair.bytes '}' ++ "t".toList)) demoSys).1
        = "t".toList :=
  ⟨by decide,
    (receiveJson_never_blocks demoExt plainBuild
      (commaPairs [demoPair] ++ (demoLastPair.bytes '}' ++ "t".toList)) demoSys 27
      (by decide)).1,
    by decide⟩

theorem specKey_append (a b : List Char) : specKey (a ++ b) = specKey a ++ specKey b := by
  simp [specKey]

/-- A key phase that reads all the bytes that are available: no colon among
them, fewer than 29 bytes copied. -/
theorem getKey_drained (E : Ext) :
    ∀ (k acc : List Char) (character : Char) (s : Sys), ':' ∉ k →
      (acc ++ specKey k).length < 29 →
      getKey E k acc character s =
        .ended (acc ++ specKey k) (k.getLastD character) [] (waits E k.length s) := by
  intro k
  induction k with
  | nil => intro acc character s _ _; simp [getKey, specKey, waits]
  | cons c k ih =>
    intro acc character s hk hlen
    have hc : c ≠ ':' := fun h => hk (by simp [h])
    have hk' : ':' ∉ k := fun h => hk (List.mem_cons_of_mem _ h)
    rw [specKey_cons] at hlen
    rw [getKey, if_neg hc]
    by_cases hskip : c = ' ' ∨ c = '{' ∨ c = '"'
    · simp only [hskip, if_true] at hlen ⊢
      have h29 : ¬ acc.length ≥ 29 := by simp at hlen; omega
      rw [if_neg h29, ih acc c _ hk' hlen, specKey_cons, if_pos hskip,
        List.getLastD_cons, List.length_cons, waits_succ]
    · simp only [hskip, if_false] at hlen ⊢
      have h29 : ¬ (acc ++ [c]).length ≥ 29 := by simp at hlen ⊢; omega
      rw [if_neg h29, ih (acc ++ [c]) c _ hk' (by simpa using hlen), specKey_cons,
        if_neg hskip, List.getLastD_cons, List.length_cons, waits_succ]
      simp

/-- Claim C25, as the code behaves. When the bytes available are a key phase
that ends with a closing brace (no colon among them, fewer than 29 bytes
copied), the input is drained while the key is read, no value phase takes
place, the key and an empty value are handed to `processJsonPair`, and
because the byte read last is the closing brace the end of message code
runs: `storeSettings` and `storeConstants` are called. -/
theorem receiveJson_brace_in_key (E : Ext) (b : Build) (k : List Char) (s : Sys)
    (hk : ':' ∉ k) (hlen : (specKey k).length < 28) :
    receiveJson E b (k ++ ['}']) s =
        ([], lastPair E b (processJsonPair E b (specKey k ++ ['}']) []
          (waits E (k.length + 1) (waitMillis E 1 s)))) ∧
      (receiveJson E b (k ++ ['}']) s).2.trace.count .storeSettings
        = s.trace.count .storeSettings + 1 ∧
      (receiveJson E b (k ++ ['}']) s).2.trace.count .storeConstants
        = s.trace.count .storeConstants + 1 := by
  have hk2 : ':' ∉ k ++ ['}'] := by
    simp only [List.mem_append, List.mem_singleton, not_or]
    exact ⟨hk, by decide⟩
  have hs : specKey (k ++ ['}']) = specKey k ++ ['}'] := by
    rw [specKey_append]; rfl
  have hl2 : ([] ++ specKey (k ++ ['}'])).length < 29 := by
    rw [hs]; simp; omega
  have heq : receiveJson E b (k ++ ['}']) s =
      ([], lastPair E b (processJsonPair E b (specKey k ++ ['}']) []
        (waits E (k.length + 1) (waitMillis E 1 s)))) := by
    rw [receiveJson_eq]
    unfold receiveJsonPairs
    have hne : k ++ ['}'] ≠ [] := by simp
    have hl : (k ++ ['}']).length = k.length + 1 := by simp
    rw [hl, receiveJsonLoop, if_neg hne, getKey_drained E _ [] _ _ hk2 hl2]
    simp only [getVal, List.nil_append, hs, hl]
    rw [if_pos (by simp)]
  rw [heq]
  refine ⟨rfl, ?_, ?_⟩
  · have h := lastPair_countP plain_storeSettings E b
      (processJsonPair E b (specKey k ++ ['}']) [] (waits E (k.length + 1) (waitMillis E 1 s)))
    rw [processJsonPair_countP loud_storeSettings, waits_countP loud_storeSettings,
      waitMillis_countP loud_storeSettings] at h
    simp only [List.count]
    rw [h]
    by_cases hsim : b.simulate = true <;> simp [hsim]
  · have h := lastPair_countP plain_storeConstants E b
      (processJsonPair E b (specKey k ++ ['}']) [] (waits E (k.length + 1) (waitMillis E 1 s)))
    rw [processJsonPair_countP loud_storeConstants, waits_countP loud_storeConstants,
      waitMillis_countP loud_storeConstants] at h
    simp only [List.count]
    rw [h]
    by_cases hsim : b.simulate = true <;> simp [hsim]

/-- The command `j` followed by a closing brace and nothing else: no pair
was read, and the settings are stored. -/
theorem receiveJson_brace_in_key_witness :
    (receiveJson demoExt simBuild ([] ++ ['}']) demoSys).2.trace.count .storeSettings
        = demoSys.trace.count .storeSettings + 1 ∧
      (receive demoExt simBuild "j\x7d".toList demoSys).map
          (fun r => (r.1, r.2.trace.filter Event.isHead, wire r.2.trace)) =
        some ([], [.response 'D' none, .response 'D' none, .storeSettings, .storeConstants],
          "D:Received new setting: \x7d = \nD:Could not process setting\n".toList) :=
  ⟨(receiveJson_brace_in_key demoExt simBuild [] demoSys (by decide) (by decide)).2.1,
    by decide⟩

theorem getKey_character_mem (E : Ext) :
    ∀ (input acc : List Char) (c : Char) (s : Sys) (key : List Char) (ch : Char)
      (rest : List Char) (t : Sys),
      getKey E input acc c s = .ended key ch rest t → ch = c ∨ ch ∈ input := by
  intro input
  induction input with
  | nil =>
    intro acc c s key ch rest t h
    simp only [getKey, Scan.ended.injEq] at h
    exact Or.inl h.2.1.symm
  | cons x input ih =>
    intro acc c s key ch rest t h
    rw [getKey] at h
    by_cases hx : x = ':'
    · simp only [hx, if_true, Scan.ended.injEq] at h
      exact Or.inr (by simp [← h.2.1, hx])
    · simp only [hx, if_false] at h
      generalize (if x = ' ' ∨ x = '{' ∨ x = '"' then acc else acc ++ [x]) = key2 at h
      by_cases h29 : key2.length ≥ 29
      · simp [h29] at h
      · rw [if_neg h29] at h
        rcases ih _ _ _ _ _ _ _ h with h1 | h1
        · exact Or.inr (by simp [h1])
        · exact Or.inr (List.mem_cons_of_mem _ h1)

theorem getVal_character_mem (E : Ext) :
    ∀ (input acc : List Char) (c : Char) (s : Sys) (val : List Char) (ch : Char)
      (rest : List Char) (t : Sys),
      getVal E input acc c s = .ended val ch rest t → ch = c ∨ ch ∈ input := by
  intro input
  induction input with
  | nil =>
    intro acc c s val ch rest t h
    simp only [getVal, Scan.ended.injEq] at h
    exact Or.inl h.2.1.symm
  | cons x input ih =>
    intro acc c s val ch rest t h
    rw [getVal] at h
    by_cases hx : x = ',' ∨ x = '}'
    · simp only [hx, if_true, Scan.ended.injEq] at h
      exact Or.inr (by simp [← h.2.1])
    · simp only [hx, if_false] at h
      generalize (if x = ' ' ∨ x = '"' then acc else acc ++ [x]) = val2 at h
      by_cases h29 : val2.length ≥ 29
      · simp [h29] at h
      · rw [if_neg h29] at h
        rcases ih _ _ _ _ _ _ _ h with h1 | h1
        · exact Or.inr (by simp [h1])
        · exact Or.inr (List.mem_cons_of_mem _ h1)

theorem getKey_countP {r : Event → Bool} (hr : Loud r) (E : Ext) :
    ∀ (input acc : List Char) (c : Char) (s : Sys),
      (getKey E input acc c s).sys.trace.countP r = s.trace.countP r := by
  intro input
  induction input with
  | nil => intro acc c s; rfl
  | cons x input ih =>
    intro acc c s
    rw [getKey]
    by_cases hx : x = ':'
    · simp only [hx, if_true, Scan.sys]
      exact waitMillis_countP hr E 1 s
    · simp only [hx, if_false]
      generalize (if x = ' ' ∨ x = '{' ∨ x = '"' then acc else acc ++ [x]) = key2
      by_cases h29 : key2.length ≥ 29
      · simp only [h29, if_true, Scan.sys]
        exact waitMillis_countP hr E 1 s
      · rw [if_neg h29, ih, waitMillis_countP hr]

theorem getVal_countP {r : Event → Bool} (hr : Loud r) (E : Ext) :
    ∀ (input acc : List Char) (c : Char) (s : Sys),
      (getVal E input acc c s).sys.trace.countP r = s.trace.countP r := by
  intro input
  induction input with
  | nil => intro acc c s; rfl
  | cons x input ih =>
    intro acc c s
    rw [getVal]
    by_cases hx : x = ',' ∨ x = '}'
    · simp only [hx, if_true, Scan.sys]
      exact waitMillis_countP hr E 1 s
    · simp only [hx, if_false]
      generalize (if x = ' ' ∨ x = '"' then acc else acc ++ [x]) = val2
      by_cases h29 : val2.length ≥ 29
      · simp only [h29, if_true, Scan.sys]
        exact waitMillis_countP hr E 1 s
      · rw [if_neg h29, ih, waitMillis_countP hr]

theorem receiveJsonLoop_no_brace {r : Event → Bool} (hr : Loud r) (E : Ext) (b : Build) :
    ∀ (fuel : Nat) (input : List Char) (c : Char) (s : Sys), '}' ∉ input → c ≠ '}' →
      (receiveJsonLoop E b fuel input c s).2.trace.countP r = s.trace.countP r := by
  intro fuel
  induction fuel with
  | zero => intro input c s _ _; rfl
  | succ fuel ih =>
    intro input c s hin hc
    rw [receiveJsonLoop]
    by_cases he : input = []
    · simp [he]
    · rw [if_neg he]
      have hkc := getKey_countP hr E input [] c s
      cases hkey : getKey E input [] c s with
      | full rest t =>
        rw [hkey] at hkc
        exact hkc
      | ended key ch rest t =>
        rw [hkey] at hkc
        simp only [Scan.sys] at hkc
        have hks := (getKey_suffix E input [] c s).1
        rw [hkey] at hks
        simp only [Scan.rest] at hks
        have hch : ch ≠ '}' := by
          rcases getKey_character_mem E _ _ _ _ _ _ _ _ hkey with h | h
          · rw [h]; exact hc
          · intro h2; exact hin (h2 ▸ h)
        have hrest : '}' ∉ rest := fun h => hin (hks.subset h)
        simp only
        have hvc := getVal_countP hr E rest [] ch t
        cases hval : getVal E rest [] ch t with
        | full rest2 t2 =>
          rw [hval] at hvc
          simp only [Scan.sys] at hvc
          simp only
          rw [hvc, hkc]
        | ended val ch2 rest2 t2 =>
          rw [hval] at hvc
          simp only [Scan.sys] at hvc
          have hvs := (getVal_suffix E rest [] ch t).1
          rw [hval] at hvs
          simp only [Scan.rest] at hvs
          have hch2 : ch2 ≠ '}' := by
            rcases getVal_character_mem E _ _ _ _ _ _ _ _ hval with h | h
            · rw [h]; exact hch
            · intro h2; exact hrest (h2 ▸ h)
          have hrest2 : '}' ∉ rest2 := fun h => hrest (hvs.subset h)
          simp only
          rw [if_neg hch2, ih _ _ _ hrest2 hch2, processJsonPair_countP hr, hvc, hkc]

/-- An input without a closing brace: `receiveJson` calls neither
`storeSettings` nor `storeConstants` and starts no settings or constants
report. -/
theorem receiveJson_without_brace (E : Ext) (b : Build) (input : List Char) (s : Sys)
    (h : '}' ∉ input) :
    (receiveJson E b input s).2.trace.count .storeSettings = s.trace.count .storeSettings ∧
      (receiveJson E b input s).2.trace.count .storeConstants = s.trace.count .storeConstants ∧
      countResponse 'S' (receiveJson E b input s).2.trace = countResponse 'S' s.trace ∧
      countResponse 'C' (receiveJson E b input s).2.trace = countResponse 'C' s.trace := by
  have hcount : ∀ r : Event → Bool, Loud r →
      (receiveJson E b input s).2.trace.countP r = s.trace.countP r := by
    intro r hr
    rw [receiveJson, receiveJsonLoop_no_brace hr E b _ _ _ _ h (by decide),
      waitMillis_countP hr]
  refine ⟨?_, ?_, ?_, ?_⟩
  · simpa [List.count] using hcount _ loud_storeSettings
  · simpa [List.count] using hcount _ loud_storeConstants
  · simpa [countResponse] using hcount _ (loud_response 'S' (Or.inl rfl))
  · simpa [countResponse] using hcount _ (loud_response 'C' (Or.inr rfl))

theorem getLast?_cons_of_some {α : Type} (a : α) (l : List α) (v : α)
    (h : l.getLast? = some v) : (a :: l).getLast? = some v := by
  cases l with
  | nil => simp at h
  | cons x l => rw [List.getLast?_cons_cons]; exact h

theorem getKeyWrites_bound :
    ∀ (input : List Char) (index : Nat), index ≤ 28 → ∀ i ∈ getKeyWrites input index, i ≤ 28 := by
  intro input
  induction input with
  | nil => intro index h i hi; simp [getKeyWrites] at hi; omega
  | cons c input ih =>
    intro index h i hi
    rw [getKeyWrites] at hi
    by_cases hc : c = ':'
    · simp [hc] at hi; omega
    · rw [if_neg hc] at hi
      by_cases hskip : c = ' ' ∨ c = '{' ∨ c = '"'
      · rw [if_pos hskip, if_neg (by omega)] at hi
        exact ih index h i hi
      · rw [if_neg hskip, List.mem_cons] at hi
        rcases hi with hi | hi
        · omega
        · by_cases h29 : index + 1 ≥ 29
          · simp [h29] at hi
          · rw [if_neg h29] at hi
            exact ih (index + 1) (by omega) i hi

theorem getValWrites_bound :
    ∀ (input : List Char) (index : Nat), index ≤ 28 → ∀ i ∈ getValWrites input index, i ≤ 28 := by
  intro input
  induction input with
  | nil => intro index h i hi; simp [getValWrites] at hi; omega
  | cons c input ih =>
    intro index h i hi
    rw [getValWrites] at hi
    by_cases hc : c = ',' ∨ c = '}'
    · simp [hc] at hi; omega
    · rw [if_neg hc] at hi
      by_cases hskip : c = ' ' ∨ c = '"'
      · rw [if_pos hskip, if_neg (by omega)] at hi
        exact ih index h i hi
      · rw [if_neg hskip, List.mem_cons] at hi
        rcases hi with hi | hi
        · omega
        · by_cases h29 : index + 1 ≥ 29
          · simp [h29] at hi
          · rw [if_neg h29] at hi
            exact ih (index + 1) (by omega) i hi

theorem simGetKeyWrites_bound :
    ∀ (input : List Char) (index : Nat), index ≤ 28 →
      ∀ i ∈ simGetKeyWrites input index, i ≤ 28 := by
  intro input
  induction input with
  | nil => intro index h i hi; simp [simGetKeyWrites] at hi
  | cons c input ih =>
    intro index h i hi
    rw [simGetKeyWrites] at hi
    by_cases h0 : c = '\xff' ∨ c = '\x00'
    · rw [if_pos h0] at hi
      exact ih index h i hi
    · rw [if_neg h0] at hi
      by_cases hc : c = ':'
      · simp [hc] at hi; omega
      · rw [if_neg hc] at hi
        by_cases hskip : c = ' ' ∨ c = '{' ∨ c = '"'
        · rw [if_pos hskip, if_neg (by omega)] at hi
          exact ih index h i hi
        · rw [if_neg hskip, List.mem_cons] at hi
          rcases hi with hi | hi
          · omega
          · by_cases h29 : index + 1 ≥ 29
            · simp [h29] at hi
            · rw [if_neg h29] at hi
              exact ih (index + 1) (by omega) i hi

theorem simGetValWrites_bound :
    ∀ (input : List Char) (index : Nat), index ≤ 28 →
      ∀ i ∈ simGetValWrites input index, i ≤ 28 := by
  intro input
  induction input with
  | nil => intro index h i hi; simp [simGetValWrites] at hi
  | cons c input ih =>
    intro index h i hi
    rw [simGetValWrites] at hi
    by_cases h0 : c = '\xff' ∨ c = '\x00'
    · rw [if_pos h0] at hi
      exact ih index h i hi
    · rw [if_neg h0] at hi
      by_cases hc : c = ',' ∨ c = '}'
      · simp [hc] at hi; omega
      · rw [if_neg hc] at hi
        by_cases hskip : c = ' ' ∨ c = '"'
        · rw [if_pos hskip, if_neg (by omega)] at hi
          exact ih index h i hi
        · rw [if_neg hskip, List.mem_cons] at hi
          rcases hi with hi | hi
          · omega
          · by_cases h29 : index + 1 ≥ 29
            · simp [h29] at hi
            · rw [if_neg h29] at hi
              exact ih (index + 1) (by omega) i hi

/-- The key handed on by the key loop of `receiveJson` has at most 28 bytes,
and its NUL is the last write of the loop. -/
theorem getKey_length (E : Ext) :
    ∀ (input acc : List Char) (c : Char) (s : Sys) (key : List Char) (ch : Char)
      (rest : List Char) (t : Sys), acc.length ≤ 28 →
      getKey E input acc c s = .ended key ch rest t →
        key.length ≤ 28 ∧ (getKeyWrites input acc.length).getLast? = some key.length := by
  intro input
  induction input with
  | nil =>
    intro acc c s key ch rest t hacc h
    simp only [getKey, Scan.ended.injEq] at h
    rw [← h.1]
    exact ⟨hacc, rfl⟩
  | cons x input ih =>
    intro acc c s key ch rest t hacc h
    rw [getKey] at h
    rw [getKeyWrites]
    by_cases hx : x = ':'
    · simp only [hx, if_true, Scan.ended.injEq] at h ⊢
      rw [← h.1]
      exact ⟨hacc, rfl⟩
    · rw [if_neg hx] at h ⊢
      by_cases hskip : x = ' ' ∨ x = '{' ∨ x = '"'
      · simp only [hskip, if_true] at h ⊢
        rw [if_neg (by omega)] at h ⊢
        exact ih _ _ _ _ _ _ _ hacc h
      · simp only [hskip, if_false] at h ⊢
        by_cases h29 : (acc ++ [x]).length ≥ 29
        · exact absurd h (by rw [if_pos h29]; simp)
        · rw [if_neg h29] at h
          have hl : (acc ++ [x]).length = acc.length + 1 := by simp
          rw [hl] at h29
          rw [if_neg h29]
          have h2 := ih (acc ++ [x]) _ _ _ _ _ _ (by rw [hl]; omega) h
          rw [hl] at h2
          exact ⟨h2.1, getLast?_cons_of_some _ _ _ h2.2⟩

/-- The value handed on by the value loop of `receiveJson` has at most 28
bytes, and its NUL is the last write of the loop. -/
theorem getVal_length (E : Ext) :
    ∀ (input acc : List Char) (c : Char) (s : Sys) (val : List Char) (ch : Char)
      (rest : List Char) (t : Sys), acc.length ≤ 28 →
      getVal E input acc c s = .ended val ch rest t →
        val.length ≤ 28 ∧ (getValWrites input acc.length).getLast? = some val.length := by
  intro input
  induction input with
  | nil =>
    intro acc c s val ch rest t hacc h
    simp only [getVal, Scan.ended.injEq] at h
    rw [← h.1]
    exact ⟨hacc, rfl⟩
  | cons x input ih =>
    intro acc c s val ch rest t hacc h
    rw [getVal] at h
    rw [getValWrites]
    by_cases hx : x = ',' ∨ x = '}'
    · simp only [hx, if_true, Scan.ended.injEq] at h ⊢
      rw [← h.1]
      exact ⟨hacc, rfl⟩
    · rw [if_neg hx] at h ⊢
      by_cases hskip : x = ' ' ∨ x = '"'
      · simp only [hskip, if_true] at h ⊢
        rw [if_neg (by omega)] at h ⊢
        exact ih _ _ _ _ _ _ _ hacc h
      · simp only [hskip, if_false] at h ⊢
        by_cases h29 : (acc ++ [x]).length ≥ 29
        · exact absurd h (by rw [if_pos h29]; simp)
        · rw [if_neg h29] at h
          have hl : (acc ++ [x]).length = acc.length + 1 := by simp
          rw [hl] at h29
          rw [if_neg h29]
          have h2 := ih (acc ++ [x]) _ _ _ _ _ _ (by rw [hl]; omega) h
          rw [hl] at h2
          exact ⟨h2.1, getLast?_cons_of_some _ _ _ h2.2⟩

/-- The key handed on by the key loop of `updateInputs` has at most 28
bytes, and its NUL is the last write of the loop. -/
theorem simGetKey_length :
    ∀ (input acc key : List Char) (closing : Bool) (rest : List Char), acc.length ≤ 28 →
      simGetKey input acc = .ended key closing rest →
        key.length ≤ 28 ∧ (simGetKeyWrites input acc.length).getLast? = some key.length := by
  intro input
  induction input with
  | nil =>
    intro acc key closing rest hacc h
    simp [simGetKey] at h
  | cons x input ih =>
    intro acc key closing rest hacc h
    rw [simGetKey] at h
    rw [simGetKeyWrites]
    by_cases h0 : x = '\xff' ∨ x = '\x00'
    · rw [if_pos h0] at h ⊢
      exact ih _ _ _ _ hacc h
    · rw [if_neg h0] at h ⊢
      by_cases hx : x = ':'
      · simp only [hx, if_true, SimScan.ended.injEq] at h ⊢
        rw [← h.1]
        exact ⟨hacc, rfl⟩
      · rw [if_neg hx] at h ⊢
        by_cases hskip : x = ' ' ∨ x = '{' ∨ x = '"'
        · simp only [hskip, if_true] at h ⊢
          rw [if_neg (by omega)] at h ⊢
          exact ih _ _ _ _ hacc h
        · simp only [hskip, if_false] at h ⊢
          by_cases h29 : (acc ++ [x]).length ≥ 29
          · exact absurd h (by rw [if_pos h29]; simp)
          · rw [if_neg h29] at h
            have hl : (acc ++ [x]).length = acc.length + 1 := by simp
            rw [hl] at h29
            rw [if_neg h29]
            have h2 := ih (acc ++ [x]) _ _ _ (by rw [hl]; omega) h
            rw [hl] at h2
            exact ⟨h2.1, getLast?_cons_of_some _ _ _ h2.2⟩

/-- The value handed on by the value loop of `updateInputs` has at most 28
bytes, and its NUL is the last write of the loop. -/
theorem simGetVal_length :
    ∀ (input acc val : List Char) (closing : Bool) (rest : List Char), acc.length ≤ 28 →
      simGetVal input acc = .ended val closing rest →
        val.length ≤ 28 ∧ (simGetValWrites input acc.length).getLast? = some val.length := by
  intro input
  induction input with
  | nil =>
    intro acc val closing rest hacc h
    simp [simGetVal] at h
  | cons x input ih =>
    intro acc val closing rest hacc h
    rw [simGetVal] at h
    rw [simGetValWrites]
    by_cases h0 : x = '\xff' ∨ x = '\x00'
    · rw [if_pos h0] at h ⊢
      exact ih _ _ _ _ hacc h
    · rw [if_neg h0] at h ⊢
      by_cases hx : x = ',' ∨ x = '}'
      · rw [if_pos hx]
        rcases hx with hx | hx
        · subst hx
          rw [if_pos rfl] at h
          cases h
          exact ⟨hacc, rfl⟩
        · subst hx
          rw [if_neg (by decide), if_pos rfl] at h
          cases h
          exact ⟨hacc, rfl⟩
      · have hx' := hx
        simp only [not_or] at hx'
        rw [if_neg hx'.1, if_neg hx'.2] at h
        rw [if_neg hx]
        by_cases hskip : x = ' ' ∨ x = '"'
        · simp only [hskip, if_true] at h ⊢
          rw [if_neg (by omega)] at h ⊢
          exact ih _ _ _ _ hacc h
        · simp only [hskip, if_false] at h ⊢
          by_cases h29 : (acc ++ [x]).length ≥ 29
          · exact absurd h (by rw [if_pos h29]; simp)
          · rw [if_neg h29] at h
            have hl : (acc ++ [x]).length = acc.length + 1 := by simp
            rw [hl] at h29
            rw [if_neg h29]
            have h2 := ih (acc ++ [x]) _ _ _ (by rw [hl]; omega) h
            rw [hl] at h2
            exact ⟨h2.1, getLast?_cons_of_some _ _ _ h2.2⟩

/-- Claim C26. For every input, each of the four scanning loops (key and
value loop of `receiveJson` and of `updateInputs`), started with index 0 as
both functions start them, writes its buffer only at indices up to 28, the
terminating NUL included, and the key or value that it hands on has at most
28 bytes; the index of the NUL is the length of what is handed on. -/
theorem buffers_stay_in_bounds (E : Ext) (input : List Char) :
    ((∀ i ∈ getKeyWrites input 0, i ≤ 28) ∧ (∀ i ∈ getValWrites input 0, i ≤ 28) ∧
      (∀ i ∈ simGetKeyWrites input 0, i ≤ 28) ∧ (∀ i ∈ simGetValWrites input 0, i ≤ 28)) ∧
    (∀ c s key ch rest t, getKey E input [] c s = .ended key ch rest t →
      key.length ≤ 28 ∧ (getKeyWrites input 0).getLast? = some key.length) ∧
    (∀ c s val ch rest t, getVal E input [] c s = .ended val ch rest t →
      val.length ≤ 28 ∧ (getValWrites input 0).getLast? = some val.length) ∧
    (∀ key closing rest, simGetKey input [] = .ended key closing rest →
      key.length ≤ 28 ∧ (simGetKeyWrites input 0).getLast? = some key.length) ∧
    (∀ val closing rest, simGetVal input [] = .ended val closing rest →
      val.length ≤ 28 ∧ (simGetValWrites input 0).getLast? = some val.length) :=
  ⟨⟨getKeyWrites_bound input 0 (by omega), getValWrites_bound input 0 (by omega),
      simGetKeyWrites_bound input 0 (by omega), simGetValWrites_bound input 0 (by omega)⟩,
    fun c s key ch rest t h => getKey_length E input [] c s key ch rest t (by simp) h,
    fun c s val ch rest t h => getVal_length E input [] c s val ch rest t (by simp) h,
    fun key closing rest h => simGetKey_length input [] key closing rest (by simp) h,
    fun val closing rest h => simGetVal_length input [] val closing rest (by simp) h⟩

theorem applySetting_heatEstimator (E : Ext) (b : Build) (key val : List Char) (s : Sys)
    (hd : KeysDistinct E) (hk : keyIs E key .heatEstimator = true) :
    applySetting E b key val s = s.setCs (fun cs => { cs with heatEstimator := E.stringToFixedPoint (cstr val) }) := by
  have h := keyIs_other E key hd _ (by decide) hk
  simp [settingsKeys] at h
  unfold applySetting
  simp only [h, hk, Bool.false_eq_true, if_false, if_true]

theorem applySetting_coolEstimator (E : Ext) (b : Build) (key val : List Char) (s : Sys)
    (hd : KeysDistinct E) (hk : keyIs E key .coolEstimator = true) :
    applySetting E b key val s = s.setCs (fun cs => { cs with coolEstimator := E.stringToFixedPoint (cstr val) }) := by
  have h := keyIs_other E key hd _ (by decide) hk
  simp [settingsKeys] at h
  unfold applySetting
  simp only [h, hk, Bool.false_eq_true, if_false, if_true]

theorem applySetting_tempSettingMin (E : Ext) (b : Build) (key val : List Char) (s : Sys)
    (hd : KeysDistinct E) (hk : keyIs E key .tempSettingMin = true) :
    applySetting E b key val s = s.setCc (fun cc => { cc with tempSettingMin := E.stringToTemp (cstr val) }) := by
  have h := keyIs_other E key hd _ (by decide) hk
  simp [settingsKeys] at h
  unfold applySetting
  simp only [h, hk, Bool.false_eq_true, if_false, if_true]

theorem applySetting_tempSettingMax (E : Ext) (b : Build) (key val : List Char) (s : Sys)
    (hd : KeysDistinct E) (hk : keyIs E key .tempSettingMax = true) :
    applySetting E b key val s = s.setCc (fun cc => { cc with tempSettingMax := E.stringToTemp (cstr val) }) := by
  have h := keyIs_other E key hd _ (by decide) hk
  simp [settingsKeys] at h
  unfold applySetting
  simp only [h, hk, Bool.false_eq_true, if_false, if_true]

theorem applySetting_Kp (E : Ext) (b : Build) (key val : List Char) (s : Sys)
    (hd : KeysDistinct E) (hk : keyIs E key .Kp = true) :
    applySetting E b key val s = s.setCc (fun cc => { cc with Kp := E.stringToFixedPoint (cstr val) }) := by
  have h := keyIs_other E key hd _ (by decide) hk
  simp [settingsKeys] at h
  unfold applySetting
  simp only [h, hk, Bool.false_eq_true, if_false, if_true]

theorem applySetting_Ki (E : Ext) (b : Build) (key val : List Char) (s : Sys)
    (hd : KeysDistinct E) (hk : keyIs E key .Ki = true) :
    applySetting E b key val s = s.setCc (fun cc => { cc with Ki := E.stringToFixedPoint (cstr val) }) := by
  have h := keyIs_other E key hd _ (by decide) hk
  simp [settingsKeys] at h
  unfold applySetting
  simp only [h, hk, Bool.false_eq_true, if_false, if_true]

theorem applySetting_Kd (E : Ext) (b : Build) (key val : List Char) (s : Sys)
    (hd : KeysDistinct E) (hk : keyIs E key .Kd = true) :
    applySetting E b key val s = s.setCc (fun cc => { cc with Kd := E.stringToFixedPoint (cstr val) }) := by
  have h := keyIs_other E key hd _ (by decide) hk
  simp [settingsKeys] at h
  unfold applySetting
  simp only [h, hk, Bool.false_eq_true, if_false, if_true]

theorem applySetting_iMaxError (E : Ext) (b : Build) (key val : List Char) (s : Sys)
    (hd : KeysDistinct E) (hk : keyIs E key .iMaxError = true) :
    applySetting E b key val s = s.setCc (fun cc => { cc with iMaxError := E.stringToTempDiff (cstr val) }) := by
  have h := keyIs_other E key hd _ (by decide) hk
  simp [settingsKeys] at h
  unfold applySetting
  simp only [h, hk, Bool.false_eq_true, if_false, if_true]

theorem applySetting_idleRangeHigh (E : Ext) (b : Build) (key val : List Char) (s : Sys)
    (hd : KeysDistinct E) (hk : keyIs E key .idleRangeHigh = true) :
    applySetting E b key val s = s.setCc (fun cc => { cc with idleRangeHigh := E.stringToTempDiff (cstr val) }) := by
  have h := keyIs_other E key hd _ (by decide) hk
  simp [settingsKeys] at h
  unfold applySetting
  simp only [h, hk, Bool.false_eq_true, if_false, if_true]

theorem applySetting_idleRangeLow (E : Ext) (b : Build) (key val : List Char) (s : Sys)
    (hd : KeysDistinct E) (hk : keyIs E key .idleRangeLow = true) :
    applySetting E b key val s = s.setCc (fun cc => { cc with idleRangeLow := E.stringToTempDiff (cstr val) }) := by
  have h := keyIs_other E key hd _ (by decide) hk
  simp [settingsKeys] at h
  unfold applySetting
  simp only [h, hk, Bool.false_eq_true, if_false, if_true]

theorem applySetting_heatingTargetUpper (E : Ext) (b : Build) (key val : List Char) (s : Sys)
    (hd : KeysDistinct E) (hk : keyIs E key .heatingTargetUpper = true) :
    applySetting E b key val s = s.setCc (fun cc => { cc with heatingTargetUpper := E.stringToTempDiff (cstr val) }) := by
  have h := keyIs_other E key hd _ (by decide) hk
  simp [settingsKeys] at h
  unfold applySetting
  simp only [h, hk, Bool.false_eq_true, if_false, if_true]

theorem applySetting_heatingTargetLower (E : Ext) (b : Build) (key val : List Char) (s : Sys)
    (hd : KeysDistinct E) (hk : keyIs E key .heatingTargetLower = true) :
    applySetting E b key val s = s.setCc (fun cc => { cc with heatingTargetLower := E.stringToTempDiff (cstr val) }) := by
  have h := keyIs_other E key hd _ (by decide) hk
  simp [settingsKeys] at h
  unfold applySetting
  simp only [h, hk, Bool.false_eq_true, if_false, if_true]

theorem applySetting_coolingTargetUpper (E : Ext) (b : Build) (key val : List Char) (s : Sys)
    (hd : KeysDistinct E) (hk : keyIs E key .coolingTargetUpper = true) :
    applySetting E b key val s = s.setCc (fun cc => { cc with coolingTargetUpper := E.stringToTempDiff (cstr val) }) := by
  have h := keyIs_other E key hd _ (by decide) hk
  simp [settingsKeys] at h
  unfold applySetting
  simp only [h, hk, Bool.false_eq_true, if_false, if_true]

theorem applySetting_coolingTargetLower (E : Ext) (b : Build) (key val : List Char) (s : Sys)
    (hd : KeysDistinct E) (hk : keyIs E key .coolingTargetLower = true) :
    applySetting E b key val s = s.setCc (fun cc => { cc with coolingTargetLower := E.stringToTempDiff (cstr val) }) := by
  have h := keyIs_other E key hd _ (by decide) hk
  simp [settingsKeys] at h
  unfold applySetting
  simp only [h, hk, Bool.false_eq_true, if_false, if_true]

theorem applySetting_maxHeatTimeForEstimate (E : Ext) (b : Build) (key val : List Char) (s : Sys)
    (hd : KeysDistinct E) (hk : keyIs E key .maxHeatTimeForEstimate = true) :
    applySetting E b key val s = s.setCc (fun cc => { cc with maxHeatTimeForEstimate := u16 (E.strtoul (cstr val)) }) := by
  have h := keyIs_other E key hd _ (by decide) hk
  simp [settingsKeys] at h
  unfold applySetting
  simp only [h, hk, Bool.false_eq_true, if_false, if_true]

theorem applySetting_maxCoolTimeForEstimate (E : Ext) (b : Build) (key val : List Char) (s : Sys)
    (hd : KeysDistinct E) (hk : keyIs E key .maxCoolTimeForEstimate = true) :
    applySetting E b key val s = s.setCc (fun cc => { cc with maxCoolTimeForEstimate := u16 (E.strtoul (cstr val)) }) := by
  have h := keyIs_other E key hd _ (by decide) hk
  simp [settingsKeys] at h
  unfold applySetting
  simp only [h, hk, Bool.false_eq_true, if_false, if_true]

/-- Claim C27. When the key texts are distinct: for each of the 16 keys
without annotation or filter update and every value, `processJsonPair`
writes its diagnostic and assigns the decoded value to the setting or
constant of the same name; nothing else happens: the events added are those
of the diagnostic, and for every assignment to the settings (constants) the
constants (settings), the control variables and the tracker are what they
were. -/
theorem processJsonPair_plain_keys (E : Ext) (b : Build) (key val : List Char) (s : Sys)
    (hd : KeysDistinct E) :
    (keyIs E key .heatEstimator = true →
      processJsonPair E b key val s =
        (receivedSetting b key val s).setCs (fun cs => { cs with heatEstimator := E.stringToFixedPoint (cstr val) })) ∧
    (keyIs E key .coolEstimator = true →
      processJsonPair E b key val s =
        (receivedSetting b key val s).setCs (fun cs => { cs with coolEstimator := E.stringToFixedPoint (cstr val) })) ∧
    (keyIs E key .tempSettingMin = true →
      processJsonPair E b key val s =
        (receivedSetting b key val s).setCc (fun cc => { cc with tempSettingMin := E.stringToTemp (cstr val) })) ∧
    (keyIs E key .tempSettingMax = true →
      processJsonPair E b key val s =
        (receivedSetting b key val s).setCc (fun cc => { cc with tempSettingMax := E.stringToTemp (cstr val) })) ∧
    (keyIs E key .Kp = true →
      processJsonPair E b key val s =
        (receivedSetting b key val s).setCc (fun cc => { cc with Kp := E.stringToFixedPoint (cstr val) })) ∧
    (keyIs E key .Ki = true →
      processJsonPair E b key val s =
        (receivedSetting b key val s).setCc (fun cc => { cc with Ki := E.stringToFixedPoint (cstr val) })) ∧
    (keyIs E key .Kd = true →
      processJsonPair E b key val s =
        (receivedSetting b key val s).setCc (fun cc => { cc with Kd := E.stringToFixedPoint (cstr val) })) ∧
    (keyIs E key .iMaxError = true →
      processJsonPair E b key val s =
        (receivedSetting b key val s).setCc (fun cc => { cc with iMaxError := E.stringToTempDiff (cstr val) })) ∧
    (keyIs E key .idleRangeHigh = true →
      processJsonPair E b key val s =
        (receivedSetting b key val s).setCc (fun cc => { cc with idleRangeHigh := E.stringToTempDiff (cstr val) })) ∧
    (keyIs E key .idleRangeLow = true →
      processJsonPair E b key val s =
        (receivedSetting b key val s).setCc (fun cc => { cc with idleRangeLow := E.stringToTempDiff (cstr val) })) ∧
    (keyIs E key .heatingTargetUpper = true →
      processJsonPair E b key val s =
        (receivedSetting b key val s).setCc (fun cc => { cc with heatingTargetUpper := E.stringToTempDiff (cstr val) })) ∧
    (keyIs E key .heatingTargetLower = true →
      processJsonPair E b key val s =
        (receivedSetting b key val s).setCc (fun cc => { cc with heatingTargetLower := E.stringToTempDiff (cstr val) })) ∧
    (keyIs E key .coolingTargetUpper = true →
      processJsonPair E b key val s =
        (receivedSetting b key val s).setCc (fun cc => { cc with coolingTargetUpper := E.stringToTempDiff (cstr val) })) ∧
    (keyIs E key .coolingTargetLower = true →
      processJsonPair E b key val s =
        (receivedSetting b key val s).setCc (fun cc => { cc with coolingTargetLower := E.stringToTempDiff (cstr val) })) ∧
    (keyIs E key .maxHeatTimeForEstimate = true →
      processJsonPair E b key val s =
        (receivedSetting b key val s).setCc (fun cc => { cc with maxHeatTimeForEstimate := u16 (E.strtoul (cstr val)) })) ∧
    (keyIs E key .maxCoolTimeForEstimate = true →
      processJsonPair E b key val s =
        (receivedSetting b key val s).setCc (fun cc => { cc with maxCoolTimeForEstimate := u16 (E.strtoul (cstr val)) })) ∧
    (∀ f, since s ((receivedSetting b key val s).setCs f) =
        [.response 'D' (zoneChar b s),
          .fmt [.lit "Received new setting: ".toList, .arg (cstr key), .lit " = ".toList,
            .arg (cstr val)],
          .chr '\n'] ∧
      ((receivedSetting b key val s).setCs f).tc.cc = s.tc.cc ∧
      ((receivedSetting b key val s).setCs f).tc.cv = s.tc.cv ∧
      ((receivedSetting b key val s).setCs f).tracker = s.tracker) ∧
    (∀ f, since s ((receivedSetting b key val s).setCc f) =
        [.response 'D' (zoneChar b s),
          .fmt [.lit "Received new setting: ".toList, .arg (cstr key), .lit " = ".toList,
            .arg (cstr val)],
          .chr '\n'] ∧
      ((receivedSetting b key val s).setCc f).tc.cs = s.tc.cs ∧
      ((receivedSetting b key val s).setCc f).tc.cv = s.tc.cv ∧
      ((receivedSetting b key val s).setCc f).tracker = s.tracker) := by
  have hr : receivedSetting b key val s =
      { s with
        firstPair := true
        trace := s.trace ++ [.response 'D' (zoneChar b s),
          .fmt [.lit "Received new setting: ".toList, .arg (cstr key), .lit " = ".toList,
            .arg (cstr val)],
          .chr '\n'] } := by
    unfold receivedSetting
    rw [debugMessage_eq]
  refine ⟨fun hk => applySetting_heatEstimator E b key val _ hd hk, fun hk => applySetting_coolEstimator E b key val _ hd hk, fun hk => applySetting_tempSettingMin E b key val _ hd hk, fun hk => applySetting_tempSettingMax E b key val _ hd hk, fun hk => applySetting_Kp E b key val _ hd hk, fun hk => applySetting_Ki E b key val _ hd hk, fun hk => applySetting_Kd E b key val _ hd hk, fun hk => applySetting_iMaxError E b key val _ hd hk, fun hk => applySetting_idleRangeHigh E b key val _ hd hk, fun hk => applySetting_idleRangeLow E b key val _ hd hk, fun hk => applySetting_heatingTargetUpper E b key val _ hd hk, fun hk => applySetting_heatingTargetLower E b key val _ hd hk, fun hk => applySetting_coolingTargetUpper E b key val _ hd hk, fun hk => applySetting_coolingTargetLower E b key val _ hd hk, fun hk => applySetting_maxHeatTimeForEstimate E b key val _ hd hk, fun hk => applySetting_maxCoolTimeForEstimate E b key val _ hd hk,
    fun f => ⟨since_append _ _ _ (by rw [hr]; rfl), by rw [hr]; rfl, by rw [hr]; rfl,
      by rw [hr]; rfl⟩,
    fun f => ⟨since_append _ _ _ (by rw [hr]; rfl), by rw [hr]; rfl, by rw [hr]; rfl,
      by rw [hr]; rfl⟩⟩

/-- The pair `Kp:5` sets the proportional gain and nothing else. -/
theorem processJsonPair_plain_keys_witness :
    KeysDistinct demoExt ∧
    keyIs demoExt "Kp".toList .Kp = true ∧
    processJsonPair demoExt plainBuild "Kp".toList "5".toList demoSys =
      (receivedSetting plainBuild "Kp".toList "5".toList demoSys).setCc
        (fun cc => { cc with Kp := 2560 }) :=
  ⟨demoExt_keysDistinct, by decide,
    (processJsonPair_plain_keys demoExt plainBuild "Kp".toList "5".toList demoSys
      demoExt_keysDistinct).2.2.2.2.1 (by decide)⟩

theorem cstr_take (x : List Char) : ∀ n, (cstr x).length ≤ n → cstr (x.take n) = cstr x := by
  induction x with
  | nil => intro n _; simp
  | cons c x ih =>
    intro n h
    by_cases hc : c = '\x00'
    · subst hc
      cases n with
      | zero => rfl
      | succ n => rfl
    · have h1 : cstr (c :: x) = c :: cstr x := by
        simp [cstr, List.takeWhile_cons, hc]
      rw [h1] at h ⊢
      cases n with
      | zero => simp at h
      | succ n =>
        have h2 : cstr (List.take (n + 1) (c :: x)) = c :: cstr (x.take n) := by
          simp [cstr, List.takeWhile_cons, hc]
        rw [h2, ih n (by simpa using h)]

theorem cstr_cstr (x : List Char) : cstr (cstr x) = cstr x :=
  cstr_eq_self _ (cstr_no_nul x)

/-- The bytes of a key on the wire compare equal to the key, when the text of
the key fits the print buffer. -/
theorem keyIs_keyBytes (E : Ext) (k : JsonKey) (h : (cstr (E.jsonKey k)).length ≤ 127) :
    keyIs E (keyBytes E k) k = true := by
  unfold keyIs keyBytes fmtBytes
  simp only [List.map, Piece.chars, List.flatten, List.append_nil]
  rw [cstr_cstr, cstr_take _ _ h]
  simp

theorem ite_countP_cond {r : Event → Bool} (c : Prop) [Decidable c] (x y : Sys) (n : Nat)
    (hx : c → x.trace.countP r = n) (hy : ¬ c → y.trace.countP r = n) :
    (if c then x else y).trace.countP r = n := by
  split
  · exact hx ‹_›
  · exact hy ‹_›

theorem reportEvents_countP_couldNot (E : Ext) (b : Build) (ba fa : Option Ann) (s : Sys) :
    (reportEvents E b ba fa s).countP Event.isCouldNot = 0 := by
  have hd : ∀ l, (doubleEvents l).countP Event.isCouldNot = 0 := by
    intro l
    unfold doubleEvents
    split <;> rfl
  have ha : ∀ a, (annEvents "ba" a).countP Event.isCouldNot = 0 := by
    intro a
    cases a <;> rfl
  have hf : ∀ a, (annEvents "fa" a).countP Event.isCouldNot = 0 := by
    intro a
    cases a <;> rfl
  unfold reportEvents
  simp only [List.countP_append]
  rw [countP_ite_nil _ _ _ (by rfl), countP_ite_nil _ _ _ (by rfl), countP_ite_nil _ _ _ (ha _),
    countP_ite_nil _ _ _ (by rfl), countP_ite_nil _ _ _ (by rfl), countP_ite_nil _ _ _ (hf _),
    countP_ite_nil _ _ _ (by
      simp only [List.countP_append, hd]
      rfl),
    countP_ite_nil _ _ _ (by rfl)]
  rfl

theorem printTemperaturesJSON_countP_couldNot (E : Ext) (b : Build) (ba fa : Option Ann)
    (s : Sys) :
    (printTemperaturesJSON E b ba fa s).trace.countP Event.isCouldNot
      = s.trace.countP Event.isCouldNot := by
  rw [printTemperaturesJSON_eq]
  simp [List.countP_append, reportEvents_countP_couldNot]

theorem countP_snoc_false {r : Event → Bool} (s : Sys) (e : Event) (h : r e = false) :
    (s.emit e).trace.countP r = s.trace.countP r := by
  simp [Sys.emit, List.countP_append, List.countP_cons, h]

/-- A key that compares equal to a settings key is not answered with
`Could not process setting`. -/
theorem applySetting_recognised (E : Ext) (b : Build) (key val : List Char) (s : Sys)
    (h : ∃ k ∈ settingsKeys, keyIs E key k = true) :
    (applySetting E b key val s).trace.countP Event.isCouldNot
      = s.trace.countP Event.isCouldNot := by
  unfold applySetting
  repeat' (first | apply ite_countP_cond | intro _)
  all_goals try rfl
  all_goals try (exact countP_snoc_false _ _ rfl)
  all_goals try (simp only [setCs_trace, setCc_trace, printFridgeAnnotation, printBeerAnnotation,
        printTemperaturesJSON_countP_couldNot])
  all_goals try (exact countP_snoc_false _ _ rfl)
  exfalso
  obtain ⟨k, hk, hkt⟩ := h
  simp only [settingsKeys, List.mem_cons, List.mem_singleton, List.not_mem_nil,
    or_false] at hk
  rcases hk with rfl | rfl | rfl | rfl | rfl | rfl | rfl | rfl | rfl | rfl | rfl | rfl | rfl | rfl | rfl | rfl | rfl | rfl | rfl | rfl | rfl | rfl | rfl | rfl | rfl | rfl <;>
    exact absurd hkt (by assumption)

theorem keysWritten_snoc_chr (l : List Event) (c : Char) :
    keysWritten (l ++ [.chr c]) = keysWritten l := by
  simp [keysWritten_append, keysWritten]

theorem printResponse_keys (b : Build) (type : Char) (s : Sys) :
    keysWritten (printResponse b type s).trace = keysWritten s.trace := by
  rw [printResponse_trace, keysWritten_append]
  simp [keysWritten]

theorem sendJsonPairStr_keys (name val : List Char) (s : Sys) :
    keysWritten (sendJsonPairStr name val s).trace = keysWritten s.trace ++ [name] := by
  rw [sendJsonPairStr_trace, keysWritten_append]
  simp [keysWritten]

theorem sendJsonPairChar_keys (name : List Char) (val : Char) (s : Sys) :
    keysWritten (sendJsonPairChar name val s).trace = keysWritten s.trace ++ [name] := by
  rw [sendJsonPairChar_trace, keysWritten_append]
  simp [keysWritten]

theorem sendJsonPairU16_keys (name : List Char) (val : Nat) (s : Sys) :
    keysWritten (sendJsonPairU16 name val s).trace = keysWritten s.trace ++ [name] := by
  rw [sendJsonPairU16_trace, keysWritten_append]
  simp [keysWritten]

theorem sendJsonPairU8_keys (name : List Char) (val : Nat) (s : Sys) :
    keysWritten (sendJsonPairU8 name val s).trace = keysWritten s.trace ++ [name] :=
  sendJsonPairU16_keys name (u8 val) s

theorem sendJsonClose_keys (s : Sys) :
    keysWritten (sendJsonClose s).trace = keysWritten s.trace := by
  rw [sendJsonClose_trace, keysWritten_append]
  simp [keysWritten]

theorem keysWritten_since (s t : Sys) (d : List Event) (ks : List (List Char))
    (h : t.trace = s.trace ++ d) (hk : keysWritten t.trace = keysWritten s.trace ++ ks) :
    keysWritten (since s t) = ks := by
  rw [since_append s t d h]
  rw [h, keysWritten_append] at hk
  exact List.append_cancel_left hk

theorem sendControlSettings_keys (E : Ext) (b : Build) (s : Sys) :
    keysWritten (since s (sendControlSettings E b s)) = settingsReportKeys.map E.jsonKey := by
  have htrace : ∃ d, (sendControlSettings E b s).trace = s.trace ++ d := by
    simp only [sendControlSettings, sendJsonClose_trace, sendJsonPairStr_trace,
      sendJsonPairChar_trace, printResponse_trace, List.append_assoc]
    exact ⟨_, rfl⟩
  obtain ⟨d, hd⟩ := htrace
  apply keysWritten_since s _ d _ hd
  simp only [sendControlSettings, sendJsonClose_keys, sendJsonPairStr_keys,
    sendJsonPairChar_keys, printResponse_keys, List.append_assoc]
  rfl

theorem sendControlConstants_keys (E : Ext) (b : Build) (s : Sys) :
    keysWritten (since s (sendControlConstants E b s)) = constantsReportKeys.map E.jsonKey := by
  have htrace : ∃ d, (sendControlConstants E b s).trace = s.trace ++ d := by
    simp only [sendControlConstants, sendJsonClose_trace, sendJsonPairStr_trace,
      sendJsonPairChar_trace, sendJsonPairU16_trace, sendJsonPairU8_trace,
      printResponse_trace, List.append_assoc]
    exact ⟨_, rfl⟩
  obtain ⟨d, hd⟩ := htrace
  apply keysWritten_since s _ d _ hd
  simp only [sendControlConstants, sendJsonClose_keys, sendJsonPairStr_keys,
    sendJsonPairChar_keys, sendJsonPairU16_keys, sendJsonPairU8_keys, printResponse_keys,
    List.append_assoc]
  rfl

theorem debugMessage_countP_couldNot (b : Build) (ps : List Piece) (s : Sys) :
    (debugMessage b ps s).trace.countP Event.isCouldNot
      = s.trace.countP Event.isCouldNot + (if Event.isCouldNot (.fmt ps) then 1 else 0) := by
  rw [debugMessage_eq]
  simp [List.countP_append, List.countP_cons, Event.isCouldNot]

/-- Claim C28. The keys of the settings report followed by those of the
constants report are the 26 keys that `processJsonPair` compares with, each
once.  When the key texts fit the print buffer, the bytes of every reported
key, fed back as the key of a pair with any value, are not answered with
`Could not process setting`; a key is answered with that diagnostic exactly
when it compares unequal to all 26 keys. -/
theorem reported_keys_are_accepted (E : Ext) (b : Build)
    (hlen : ∀ k ∈ settingsKeys, (cstr (E.jsonKey k)).length ≤ 127) :
    (settingsReportKeys ++ constantsReportKeys = settingsKeys ∧ settingsKeys.Nodup ∧
      settingsKeys.length = 26) ∧
    (∀ s, keysWritten (since s (sendControlSettings E b s))
      = settingsReportKeys.map E.jsonKey) ∧
    (∀ s, keysWritten (since s (sendControlConstants E b s))
      = constantsReportKeys.map E.jsonKey) ∧
    (∀ k ∈ settingsReportKeys ++ constantsReportKeys, ∀ val s,
      (processJsonPair E b (keyBytes E k) val s).trace.countP Event.isCouldNot
        = s.trace.countP Event.isCouldNot) ∧
    (∀ key val s, (∃ k ∈ settingsKeys, keyIs E key k = true) →
      (processJsonPair E b key val s).trace.countP Event.isCouldNot
        = s.trace.countP Event.isCouldNot) ∧
    (∀ key val s, (∀ k ∈ settingsKeys, keyIs E key k = false) →
      (processJsonPair E b key val s).trace.countP Event.isCouldNot
        = s.trace.countP Event.isCouldNot + 1) := by
  have hrec : ∀ key val s, (∃ k ∈ settingsKeys, keyIs E key k = true) →
      (processJsonPair E b key val s).trace.countP Event.isCouldNot
        = s.trace.countP Event.isCouldNot := by
    intro key val s h
    unfold processJsonPair
    rw [applySetting_recognised E b key val _ h, debugMessage_countP_couldNot]
    rfl
  refine ⟨⟨by decide, by decide, by decide⟩, sendControlSettings_keys E b,
    sendControlConstants_keys E b, ?_, hrec, ?_⟩
  · intro k hk val s
    have hk2 : k ∈ settingsKeys := by
      have he : settingsReportKeys ++ constantsReportKeys = settingsKeys := by decide
      rw [← he]
      exact hk
    exact hrec _ val s ⟨k, hk2, keyIs_keyBytes E k (hlen k hk2)⟩
  · intro key val s h
    unfold processJsonPair
    rw [applySetting_unknown E b key val _ h, debugMessage_countP_couldNot,
      debugMessage_countP_couldNot]
    rfl

/-- In the concrete environment every key text has at most 127 bytes, and
the key `Kp` as written in the constants report is accepted back. -/
theorem reported_keys_are_accepted_witness :
    (∀ k ∈ settingsKeys, (cstr (demoExt.jsonKey k)).length ≤ 127) ∧
    keyBytes demoExt .Kp = "Kp".toList ∧
    (processJsonPair demoExt plainBuild (keyBytes demoExt .Kp) "5".toList demoSys).trace.countP
        Event.isCouldNot = demoSys.trace.countP Event.isCouldNot :=
  ⟨by decide, by decide,
    (reported_keys_are_accepted demoExt plainBuild (by decide)).2.2.2.1 .Kp (by decide)
      "5".toList demoSys⟩

theorem abs16_of_fits (x : Int) (h1 : -32768 < x) (h2 : x < 32768) :
    abs16 x = (x.natAbs : Int) := by
  unfold abs16 wrap16
  have e1 : (x + 32768) % 65536 - 32768 = x := by omega
  rw [e1]
  omega

theorem applySetting_beerSetting (E : Ext) (b : Build) (key val : List Char) (s : Sys)
    (hd : KeysDistinct E) (hk : keyIs E key .beerSetting = true) :
    applySetting E b key val s =
      (if s.tc.cs.mode = 'p' then
          if abs16 (E.stringToTemp (cstr val) - s.tc.cs.beerSetting) > 100 then
            ( printBeerAnnotation E b
              [.lit "Beer temp set to ".toList, .arg (cstr val),
                .lit " by temperature profile.".toList] s)
          else s
        else
          ( printBeerAnnotation E b
            [.lit "Beer temp set to ".toList, .arg (cstr val),
              .lit " in web interface.".toList] s)).setCs
        (fun cs => { cs with beerSetting := E.stringToTemp (cstr val) }) := by
  have h := keyIs_other E key hd _ (by decide) hk
  simp [settingsKeys] at h
  unfold applySetting
  simp only [h, hk, Bool.false_eq_true, if_false, if_true]

/-- Claim C29, as the code behaves. When the key texts are distinct, for the
key `beerSetting` and every value: the decoded temperature is stored as the
beer setting in every case, after the annotation if there is one; outside
profile mode the annotation `... in web interface.` is written; in profile
mode the annotation `... by temperature profile.` is written exactly when
the absolute value of the difference, computed in 16 bit `int` arithmetic,
is above 100.  That is the true difference when the difference fits 16
bits; a difference of 65500 units wraps to -36 and gives no annotation. -/
theorem processJsonPair_beerSetting (E : Ext) (b : Build) (key val : List Char) (s : Sys)
    (hd : KeysDistinct E) (hk : keyIs E key .beerSetting = true) :
    (s.tc.cs.mode ≠ 'p' →
      processJsonPair E b key val s =
        ( printBeerAnnotation E b
          [.lit "Beer temp set to ".toList, .arg (cstr val), .lit " in web interface.".toList]
          (receivedSetting b key val s)).setCs
          (fun cs => { cs with beerSetting := E.stringToTemp (cstr val) })) ∧
    (s.tc.cs.mode = 'p' → abs16 (E.stringToTemp (cstr val) - s.tc.cs.beerSetting) > 100 →
      processJsonPair E b key val s =
        ( printBeerAnnotation E b
          [.lit "Beer temp set to ".toList, .arg (cstr val),
            .lit " by temperature profile.".toList]
          (receivedSetting b key val s)).setCs
          (fun cs => { cs with beerSetting := E.stringToTemp (cstr val) })) ∧
    (s.tc.cs.mode = 'p' → ¬ abs16 (E.stringToTemp (cstr val) - s.tc.cs.beerSetting) > 100 →
      processJsonPair E b key val s =
        (receivedSetting b key val s).setCs
          (fun cs => { cs with beerSetting := E.stringToTemp (cstr val) })) ∧
    (-32768 < E.stringToTemp (cstr val) - s.tc.cs.beerSetting →
      E.stringToTemp (cstr val) - s.tc.cs.beerSetting < 32768 →
      (abs16 (E.stringToTemp (cstr val) - s.tc.cs.beerSetting) > 100 ↔
        (E.stringToTemp (cstr val) - s.tc.cs.beerSetting).natAbs > 100)) ∧
    abs16 (32767 - (-32733)) = 36 := by
  have heq := applySetting_beerSetting E b key val (receivedSetting b key val s) hd hk
  have hmode : (receivedSetting b key val s).tc = s.tc := rfl
  rw [hmode] at heq
  refine ⟨?_, ?_, ?_, ?_, by decide⟩
  · intro h
    rw [if_neg h] at heq
    exact heq
  · intro h1 h2
    rw [if_pos h1, if_pos h2] at heq
    exact heq
  · intro h1 h2
    rw [if_pos h1, if_neg h2] at heq
    exact heq
  · intro h1 h2
    rw [abs16_of_fits _ h1 h2]
    omega

/-- In profile mode with a beer setting of -32733 units, the pair
`beerSet:32767` stores the new setting without any temperature report,
although the setting changes by 65500 units. -/
theorem processJsonPair_beerSetting_witness :
    KeysDistinct rawExt ∧
    keyIs rawExt "beerSet".toList .beerSetting = true ∧
    rawExt.stringToTemp (cstr "32767".toList) - demoProfile.tc.cs.beerSetting = 65500 ∧
    processJsonPair rawExt plainBuild "beerSet".toList "32767".toList demoProfile =
      (receivedSetting plainBuild "beerSet".toList "32767".toList demoProfile).setCs
        (fun cs => { cs with beerSetting := 32767 }) ∧
    countResponse 'T'
      (processJsonPair rawExt plainBuild "beerSet".toList "32767".toList demoProfile).trace
      = 0 :=
  ⟨demoExt_keysDistinct, by decide, by decide,
    (processJsonPair_beerSetting rawExt plainBuild "beerSet".toList "32767".toList demoProfile
      demoExt_keysDistinct (by decide)).2.2.1 (by decide) (by decide),
    by decide⟩

theorem quantize_eq (value quantity : ℚ) (hq : 0 < quantity)
    (h1 : -32769 < (value + quantity / 2) / quantity)
    (h2 : (value + quantity / 2) / quantity < 32768) :
    quantize value quantity
      = some (truncate ((value + quantity / 2) / quantity) * quantity) := by
  unfold quantize
  rw [if_neg (ne_of_gt hq), if_pos ⟨h1, h2⟩]

/-- Where the quotient is not negative, `quantize` gives a nearest
multiple of the quantity. -/
theorem quantize_nearest (value quantity : ℚ) (hq : 0 < quantity)
    (hpos : 0 ≤ value + quantity / 2) (hfit : (value + quantity / 2) / quantity < 32768) :
    ∃ k : Int, quantize value quantity = some (k * quantity) ∧
      ∀ m : Int, |value - k * quantity| ≤ |value - m * quantity| := by
  have hx : 0 ≤ (value + quantity / 2) / quantity := div_nonneg hpos (le_of_lt hq)
  refine ⟨⌊(value + quantity / 2) / quantity⌋, ?_, ?_⟩
  · rw [quantize_eq value quantity hq (by linarith) hfit, truncate, if_pos hx]
  · intro m
    have hmul : (value + quantity / 2) / quantity * quantity = value + quantity / 2 :=
      div_mul_cancel₀ _ (ne_of_gt hq)
    have h1 : (⌊(value + quantity / 2) / quantity⌋ : ℚ) * quantity ≤ value + quantity / 2 := by
      have := mul_le_mul_of_nonneg_right (Int.floor_le ((value + quantity / 2) / quantity))
        (le_of_lt hq)
      linarith
    have h2 : value + quantity / 2 <
        ((⌊(value + quantity / 2) / quantity⌋ : ℚ) + 1) * quantity := by
      have := mul_lt_mul_of_pos_right (Int.lt_floor_add_one ((value + quantity / 2) / quantity))
        hq
      linarith
    have hk : |value - (⌊(value + quantity / 2) / quantity⌋ : ℚ) * quantity| ≤ quantity / 2 := by
      rw [abs_le]
      constructor <;> linarith
    rcases lt_trichotomy m ⌊(value + quantity / 2) / quantity⌋ with hm | hm | hm
    · have hm1 : (m : ℚ) + 1 ≤ (⌊(value + quantity / 2) / quantity⌋ : ℚ) := by
        exact_mod_cast hm
      have := mul_le_mul_of_nonneg_right hm1 (le_of_lt hq)
      have : quantity / 2 ≤ value - m * quantity := by linarith
      exact hk.trans (this.trans (le_abs_self _))
    · rw [hm]
    · have hm1 : (⌊(value + quantity / 2) / quantity⌋ : ℚ) + 1 ≤ (m : ℚ) := by
        exact_mod_cast hm
      have := mul_le_mul_of_nonneg_right hm1 (le_of_lt hq)
      have : quantity / 2 ≤ -(value - m * quantity) := by linarith
      exact hk.trans (this.trans (neg_le_abs _))

/-- Claim C24, as the code behaves. For a positive quantity and a value
below minus half the quantity that does not lie halfway between two
multiples, `quantize` does not round to the nearest multiple: the conversion
to `int` cuts the fraction of the negative quotient off towards zero, and the
multiple of the quantity just below the result is closer to the value than
the result. -/
theorem quantize_negative_value (value quantity : ℚ) (hq : 0 < quantity)
    (hneg : value + quantity / 2 < 0) (hfit : -32769 < (value + quantity / 2) / quantity)
    (hfrac : ∀ k : Int, (k : ℚ) * quantity ≠ value + quantity / 2) :
    ∃ k : Int, quantize value quantity = some (k * quantity) ∧
      |value - ((k : ℚ) - 1) * quantity| < |value - k * quantity| := by
  have hx : (value + quantity / 2) / quantity < 0 := div_neg_of_neg_of_pos hneg hq
  have hmul : (value + quantity / 2) / quantity * quantity = value + quantity / 2 :=
    div_mul_cancel₀ _ (ne_of_gt hq)
  refine ⟨⌈(value + quantity / 2) / quantity⌉, ?_, ?_⟩
  · rw [quantize_eq value quantity hq hfit (by linarith), truncate, if_neg (not_le.mpr hx)]
  · have hle := Int.le_ceil ((value + quantity / 2) / quantity)
    have hne : (value + quantity / 2) / quantity
        ≠ (⌈(value + quantity / 2) / quantity⌉ : ℚ) := by
      intro h
      apply hfrac ⌈(value + quantity / 2) / quantity⌉
      rw [← h, hmul]
    have hlt : (value + quantity / 2) / quantity
        < (⌈(value + quantity / 2) / quantity⌉ : ℚ) := lt_of_le_of_ne hle hne
    have h1 := mul_lt_mul_of_pos_right hlt hq
    have h2 := mul_lt_mul_of_pos_right (Int.ceil_lt_add_one ((value + quantity / 2) / quantity))
      hq
    rw [hmul] at h1
    rw [add_mul, hmul, one_mul] at h2
    have ha : |value - ((⌈(value + quantity / 2) / quantity⌉ : ℚ) - 1) * quantity|
        < quantity / 2 := by
      rw [abs_lt]
      constructor <;> linarith
    have hb : quantity / 2 < |value - (⌈(value + quantity / 2) / quantity⌉ : ℚ) * quantity| := by
      have : quantity / 2 < -(value - (⌈(value + quantity / 2) / quantity⌉ : ℚ) * quantity) := by
        linarith
      exact this.trans_le (neg_le_abs _)
    exact ha.trans hb

theorem quantize_minus_one : quantize (-1) 1 = some 0 := by
  rw [quantize_eq (-1) 1 (by norm_num) (by norm_num) (by norm_num)]
  have h : truncate (((-1 : ℚ) + 1 / 2) / 1) = 0 := by
    unfold truncate
    rw [if_neg (by norm_num), Int.ceil_eq_iff]
    norm_num
  rw [h]
  norm_num

/-- The value -1 and the quantity 1: the result is 0, although -1 itself is
a multiple of the quantity. -/
theorem quantize_negative_value_witness :
    quantize (-1) 1 = some 0 ∧
      ∃ k : Int, quantize (-1) 1 = some ((k : ℚ) * 1) ∧
        |(-1 : ℚ) - ((k : ℚ) - 1) * 1| < |(-1 : ℚ) - (k : ℚ) * 1| :=
  ⟨quantize_minus_one,
    quantize_negative_value (-1) 1 (by norm_num) (by norm_num) (by norm_num) (by
      intro k h
      have h2 : ((2 * k : Int) : ℚ) = ((-1 : Int) : ℚ) := by push_cast; linarith
      have h3 : 2 * k = -1 := by exact_mod_cast h2
      omega)⟩

theorem hours_days (time : Nat) : hours time / 24 = (time : ℚ) / 86400 := by
  unfold hours
  ring

theorem beerFermentScale_eq (time : Nat) :
    beerFermentScale time
      = if 432000 < time then 0
        else if 172800 < time then 1 - (((time : ℚ) / 86400 - 3) / 3)
        else if 86400 < time then 1
        else 0 := by
  have h (n : Nat) : ((time : ℚ) / 86400 > (n : ℚ)) ↔ n * 86400 < time := by
    rw [gt_iff_lt, lt_div_iff₀ (by norm_num)]
    exact_mod_cast Iff.rfl
  have h5 := h 5
  have h2 := h 2
  have h1 := h 1
  norm_num at h5 h2 h1
  unfold beerFermentScale
  simp only [hours_days, gt_iff_lt, h5, h2, h1]

/-- Claim C31, as the code behaves. The scale factor of `beerFerment` is
never negative, but it is not bounded by 1: it stays below 4/3 and it is
above 1 exactly at the times after two days (172800 s) and before three days
(259200 s) of simulation, because the falling branch `1.0-((days-3)/3)`
applies from day two on and passes 1 only at day three.  At exactly these
times the power used, for a positive `fermentPowerMax`, exceeds
`fermentPowerMax`, and so does the rise of the beer temperature compared with
the rise that `fermentPowerMax` gives for the same positive heat capacity. -/
theorem beerFerment_scale_above_one (time : Nat) (fermentPowerMax : ℚ)
    (hmax : 0 < fermentPowerMax) :
    0 ≤ beerFermentScale time ∧ beerFermentScale time < 4 / 3 ∧
    (1 < beerFermentScale time ↔ 172800 < time ∧ time < 259200) ∧
    (fermentPowerMax < beerFermentPower time fermentPowerMax
      ↔ 172800 < time ∧ time < 259200) ∧
    (172800 < time → time ≤ 432000 →
      beerFermentScale time = 1 - (((time : ℚ) / 86400 - 3) / 3)) ∧
    (∀ beerHeatCapacity : ℚ, 0 < beerHeatCapacity →
      ∃ rise, beerFerment time fermentPowerMax beerHeatCapacity = some rise ∧
        (fermentPowerMax / beerHeatCapacity < rise ↔ 172800 < time ∧ time < 259200)) := by
  have hs := beerFermentScale_eq time
  have hone : 1 < beerFermentScale time ↔ 172800 < time ∧ time < 259200 := by
    rw [hs]
    by_cases c5 : 432000 < time
    · rw [if_pos c5]
      constructor
      · intro h; norm_num at h
      · intro h; omega
    · rw [if_neg c5]
      by_cases c2 : 172800 < time
      · rw [if_pos c2]
        constructor
        · intro h
          refine ⟨c2, ?_⟩
          have : (time : ℚ) < 259200 := by linarith
          exact_mod_cast this
        · intro h
          have : (time : ℚ) < 259200 := by exact_mod_cast h.2
          linarith
      · rw [if_neg c2]
        constructor
        · intro h
          split_ifs at h <;> norm_num at h
        · intro h; exact absurd h.1 c2
  have hpow : fermentPowerMax < beerFermentPower time fermentPowerMax
      ↔ 172800 < time ∧ time < 259200 := by
    rw [← hone]
    unfold beerFermentPower
    constructor
    · intro h
      by_contra hn
      have := mul_le_mul_of_nonneg_right (not_lt.mp hn) (le_of_lt hmax)
      linarith
    · intro h
      have := mul_lt_mul_of_pos_right h hmax
      linarith
  refine ⟨?_, ?_, hone, hpow, ?_, ?_⟩
  · rw [hs]
    split_ifs with c5 c2 c1
    · exact le_refl _
    · have : (time : ℚ) ≤ 432000 := by exact_mod_cast not_lt.mp c5
      linarith
    · norm_num
    · exact le_refl _
  · rw [hs]
    split_ifs with c5 c2 c1
    · norm_num
    · have : (172800 : ℚ) < time := by exact_mod_cast c2
      linarith
    · norm_num
    · norm_num
  · intro c2 c5
    rw [hs, if_neg (not_lt.mpr c5), if_pos c2]
  · intro c hc
    refine ⟨beerFermentPower time fermentPowerMax / c, ?_, ?_⟩
    · unfold beerFerment
      rw [if_neg (ne_of_gt hc)]
    · rw [← hpow, div_lt_div_iff_of_pos_right hc]

/-- The default `fermentPowerMax` of 5 W one second after the second day:
the scale factor is 345599/259200 (about 1.333) and the power used is
345599/51840 W (about 6.667 W), more than the 5 W. -/
theorem beerFerment_scale_above_one_witness :
    (0 : ℚ) < 5 ∧ beerFermentScale 172801 = 345599 / 259200 ∧
      beerFermentPower 172801 5 = 345599 / 51840 ∧
      (5 : ℚ) < beerFermentPower 172801 5 :=
  ⟨by norm_num,
    by rw [beerFermentScale_eq]; norm_num,
    by rw [beerFermentPower, beerFermentScale_eq]; norm_num,
    (beerFerment_scale_above_one 172801 5 (by norm_num)).2.2.2.1.mpr
      ⟨by norm_num, by norm_num⟩⟩

end BrewPi
